import Mathlib

/-! # Shading rasterizers of `core/fpdfapi/render/cpdf_rendershading.cpp`

A shallow embedding of the shading code of the renderer and theorems about it.

Conventions of the embedding:

* `float` values are rationals (`ℚ`) and the arithmetic on them is exact, except in the
  step table of `GetShadingSteps`, where every operation on the sampling input is
  followed by the rounding `FloatOps.toFloat`;
* `int` values are mathematical integers (`Int`); where the code guards against
  32-bit overflow (`FX_SAFE_INT32`) the guard is modelled explicitly;
* a conversion `static_cast<int32_t>(float)` truncates toward zero and has no
  defined result outside the 32-bit range, so it returns an `Option`;
* collaborators that are declared outside this file of the renderer (functions,
  colour spaces, matrices, `sqrt`) are parameters of the definitions.
-/

namespace RenderShading

/-! ## Checked 32-bit arithmetic and the Coons colour interpolation -/

/-- Smallest value of `int32_t`. -/
def kInt32Min : Int := -2147483648

/-- Largest value of `int32_t`. -/
def kInt32Max : Int := 2147483647

/-- Representable as a 32-bit signed integer. -/
def inInt32 (v : Int) : Prop := kInt32Min ≤ v ∧ v ≤ kInt32Max

instance (v : Int) : Decidable (inInt32 v) := by
  unfold inInt32
  exact inferInstance

/-- Modelled from the spec: `FX_SAFE_INT32` (a checked 32-bit integer, declared in
`core/fxcrt/fx_safe_types.h`, outside the excerpt) detects arithmetic overflow of the
32-bit intermediate values. `none` is the invalid state; it is sticky. -/
abbrev SafeInt32 := Option Int

/-- Modelled from the spec: the checked `p -= v` of `FX_SAFE_INT32`, invalid when the
difference is not a 32-bit integer. -/
def SafeInt32.sub (p : SafeInt32) (v : Int) : SafeInt32 :=
  p.bind fun a => if inInt32 (a - v) then some (a - v) else none

/-- Modelled from the spec: the checked `p *= v` of `FX_SAFE_INT32`, invalid when the
product is not a 32-bit integer. -/
def SafeInt32.mul (p : SafeInt32) (v : Int) : SafeInt32 :=
  p.bind fun a => if inInt32 (a * v) then some (a * v) else none

/-- Modelled from the spec: the checked `p /= v` of `FX_SAFE_INT32`, invalid for a zero
divisor and for `INT_MIN / -1`; otherwise the C++ quotient, which truncates toward
zero. -/
def SafeInt32.div (p : SafeInt32) (v : Int) : SafeInt32 :=
  p.bind fun a =>
    if v = 0 then none
    else if a = kInt32Min ∧ v = -1 then none
    else some (Int.tdiv a v)

/-- Modelled from the spec: the checked `p += v` of `FX_SAFE_INT32`, invalid when the sum
is not a 32-bit integer. -/
def SafeInt32.add (p : SafeInt32) (v : Int) : SafeInt32 :=
  p.bind fun a => if inInt32 (a + v) then some (a + v) else none

/-- The checked value computed by `Interpolate` before the validity test. -/
def interpolateChecked (p1 p2 delta1 delta2 : Int) : SafeInt32 :=
  (((SafeInt32.sub (some p2) p1).mul delta1).div delta2).add p1

/-- `Interpolate(p1, p2, delta1, delta2, &overflow)`: the returned value and the new
content of `*overflow`. -/
def Interpolate (p1 p2 delta1 delta2 : Int) (overflow : Bool) : Int × Bool :=
  let p := interpolateChecked p1 p2 delta1 delta2
  (p.getD 0, if p.isNone then true else overflow)

/-- `BiInterpolImpl(c0, c1, c2, c3, x, y, x_scale, y_scale, &overflow)`. -/
def BiInterpolImpl (c0 c1 c2 c3 x y x_scale y_scale : Int) (overflow : Bool) : Int × Bool :=
  let r1 := Interpolate c0 c3 x x_scale overflow
  let r2 := Interpolate c1 c2 x x_scale r1.2
  Interpolate r1.1 r2.1 y y_scale r2.2

/-- `CoonColor`: the three integer components `comp[0..2]`. -/
structure CoonColor where
  comp0 : Int
  comp1 : Int
  comp2 : Int
deriving DecidableEq, Repr

/-- The four corner colours `patch_colors[0..3]` of a patch. -/
structure PatchColors where
  k0 : CoonColor
  k1 : CoonColor
  k2 : CoonColor
  k3 : CoonColor
deriving DecidableEq, Repr

/-- `CoonColor::BiInterpol(colors, x, y, x_scale, y_scale)`: the colour stored in
`comp` and the returned flag (`true` if successful, `false` if overflow detected). -/
def BiInterpol (colors : PatchColors) (x y x_scale y_scale : Int) : CoonColor × Bool :=
  let r0 := BiInterpolImpl colors.k0.comp0 colors.k1.comp0 colors.k2.comp0 colors.k3.comp0
    x y x_scale y_scale false
  let r1 := BiInterpolImpl colors.k0.comp1 colors.k1.comp1 colors.k2.comp1 colors.k3.comp1
    x y x_scale y_scale r0.2
  let r2 := BiInterpolImpl colors.k0.comp2 colors.k1.comp2 colors.k2.comp2 colors.k3.comp2
    x y x_scale y_scale r1.2
  (⟨r0.1, r1.1, r2.1⟩, !r2.2)

/-- `CoonColor::Distance(o)`: the largest absolute component difference. -/
def CoonColor.Distance (c o : CoonColor) : Int :=
  max (max |c.comp0 - o.comp0| |c.comp1 - o.comp1|) |c.comp2 - o.comp2|

/-! ## Bezier coefficient curves -/

/-- `CoonBezierCoeff`: the cubic `a t^3 + b t^2 + c t + d`. -/
structure CoonBezierCoeff where
  a : ℚ
  b : ℚ
  c : ℚ
  d : ℚ
deriving DecidableEq

/-- `CoonBezierCoeff::InitFromPoints`. -/
def CoonBezierCoeff.InitFromPoints (p0 p1 p2 p3 : ℚ) : CoonBezierCoeff :=
  { a := -p0 + 3 * p1 - 3 * p2 + p3
    b := 3 * p0 - 6 * p1 + 3 * p2
    c := -3 * p0 + 3 * p1
    d := p0 }

/-- `CoonBezierCoeff::InitFromBezierInterpolation`. -/
def CoonBezierCoeff.InitFromBezierInterpolation (C1 C2 D1 D2 : CoonBezierCoeff) :
    CoonBezierCoeff :=
  { a := (D1.a + D2.a) / 2
    b := (D1.b + D2.b) / 2
    c := (D1.c + D2.c) / 2 - (C1.a / 8 + C1.b / 4 + C1.c / 2) + (C2.a / 8 + C2.b / 4) +
      (-C1.d + D2.d) / 2 - (C2.a + C2.b) / 2
    d := C1.a / 8 + C1.b / 4 + C1.c / 2 + C1.d }

/-- `CoonBezierCoeff::first_half`. -/
def CoonBezierCoeff.first_half (s : CoonBezierCoeff) : CoonBezierCoeff :=
  { a := s.a / 8, b := s.b / 4, c := s.c / 2, d := s.d }

/-- `CoonBezierCoeff::second_half`. -/
def CoonBezierCoeff.second_half (s : CoonBezierCoeff) : CoonBezierCoeff :=
  { a := s.a / 8
    b := 3 * s.a / 8 + s.b / 4
    c := 3 * s.a / 8 + s.b / 2 + s.c / 2
    d := s.a / 8 + s.b / 4 + s.c / 2 + s.d }

/-- `CoonBezierCoeff::GetPoints`: the four control values `p[0..3]`. -/
def CoonBezierCoeff.GetPoints (s : CoonBezierCoeff) : ℚ × ℚ × ℚ × ℚ :=
  let p0 := s.d
  let p1 := s.c / 3 + p0
  let p2 := s.b / 3 - p0 + 2 * p1
  let p3 := s.a + p0 - 3 * p1 + 3 * p2
  (p0, p1, p2, p3)

/-- `CoonBezierCoeff::Distance`. -/
def CoonBezierCoeff.Distance (s : CoonBezierCoeff) : ℚ :=
  let dis := s.a + s.b + s.c
  if dis < 0 then -dis else dis

/-- `CoonBezier`: a planar cubic, one coefficient set per coordinate. -/
structure CoonBezier where
  x : CoonBezierCoeff
  y : CoonBezierCoeff
deriving DecidableEq

/-- `CoonBezier::InitFromPoints`. -/
def CoonBezier.InitFromPoints (x0 y0 x1 y1 x2 y2 x3 y3 : ℚ) : CoonBezier :=
  { x := CoonBezierCoeff.InitFromPoints x0 x1 x2 x3
    y := CoonBezierCoeff.InitFromPoints y0 y1 y2 y3 }

/-- `CoonBezier::InitFromBezierInterpolation`. -/
def CoonBezier.InitFromBezierInterpolation (C1 C2 D1 D2 : CoonBezier) : CoonBezier :=
  { x := CoonBezierCoeff.InitFromBezierInterpolation C1.x C2.x D1.x D2.x
    y := CoonBezierCoeff.InitFromBezierInterpolation C1.y C2.y D1.y D2.y }

/-- `CoonBezier::first_half`. -/
def CoonBezier.first_half (s : CoonBezier) : CoonBezier :=
  { x := s.x.first_half, y := s.y.first_half }

/-- `CoonBezier::second_half`. -/
def CoonBezier.second_half (s : CoonBezier) : CoonBezier :=
  { x := s.x.second_half, y := s.y.second_half }

/-- `CoonBezier::GetPoints`: the four control points in order. -/
def CoonBezier.GetPoints (s : CoonBezier) : List (ℚ × ℚ) :=
  let px := s.x.GetPoints
  let py := s.y.GetPoints
  [(px.1, py.1), (px.2.1, py.2.1), (px.2.2.1, py.2.2.1), (px.2.2.2, py.2.2.2)]

/-- `CoonBezier::GetPointsReverse`: the four control points in reverse order. -/
def CoonBezier.GetPointsReverse (s : CoonBezier) : List (ℚ × ℚ) :=
  let px := s.x.GetPoints
  let py := s.y.GetPoints
  [(px.2.2.2, py.2.2.2), (px.2.2.1, py.2.2.1), (px.2.1, py.2.1), (px.1, py.1)]

/-- `CoonBezier::Distance`. -/
def CoonBezier.Distance (s : CoonBezier) : ℚ := s.x.Distance + s.y.Distance

/-! ## The recursive patch subdivider `PatchDrawer::Draw` -/

/-- `PatchDrawer::kCoonColorThreshold`. -/
def kCoonColorThreshold : Int := 4

/-- The smallness test at the head of `PatchDrawer::Draw`. -/
def bSmall (C1 C2 D1 D2 : CoonBezier) : Bool :=
  decide (C1.Distance < 2) && decide (C2.Distance < 2) && decide (D1.Distance < 2) &&
    decide (D2.Distance < 2)

/-- What one call of `PatchDrawer::Draw` does after its colour computations. -/
inductive DrawAction where
  /-- A `BiInterpol` call reported overflow: the call returns at once. -/
  | abort
  /-- The call issues `DrawPath` with this colour (`div_colors[0]`). -/
  | fill (color : CoonColor)
  /-- Two recursive calls with `y_scale` and `bottom` doubled. -/
  | splitY
  /-- Two recursive calls with `x_scale` and `left` doubled. -/
  | splitX
  /-- Four recursive calls with both scales doubled. -/
  | splitBoth
deriving DecidableEq, Repr

/-- The colour part of `PatchDrawer::Draw`: the corner colours `div_colors[0..3]`, the
edge differences `d_bottom`, `d_left`, `d_top`, `d_right` (left at 0 for a small patch)
and the branch taken. `small` is the value of `bSmall`. -/
def drawAction (colors : PatchColors) (small : Bool) (x_scale y_scale left bottom : Int) :
    DrawAction :=
  let r0 := BiInterpol colors left bottom x_scale y_scale
  if !r0.2 then DrawAction.abort
  else if small then DrawAction.fill r0.1
  else
    let r1 := BiInterpol colors left (bottom + 1) x_scale y_scale
    if !r1.2 then DrawAction.abort
    else
      let r2 := BiInterpol colors (left + 1) (bottom + 1) x_scale y_scale
      if !r2.2 then DrawAction.abort
      else
        let r3 := BiInterpol colors (left + 1) bottom x_scale y_scale
        if !r3.2 then DrawAction.abort
        else
          let d_bottom := r3.1.Distance r0.1
          let d_left := r1.1.Distance r0.1
          let d_top := r1.1.Distance r2.1
          let d_right := r2.1.Distance r3.1
          if d_bottom < kCoonColorThreshold ∧ d_left < kCoonColorThreshold ∧
              d_top < kCoonColorThreshold ∧ d_right < kCoonColorThreshold then
            DrawAction.fill r0.1
          else if d_bottom < kCoonColorThreshold ∧ d_top < kCoonColorThreshold then
            DrawAction.splitY
          else if d_left < kCoonColorThreshold ∧ d_right < kCoonColorThreshold then
            DrawAction.splitX
          else DrawAction.splitBoth

/-- The 13 path points written before `DrawPath`: `C1` at 0..3, `D2` at 3..6, `C2`
reversed at 6..9 and `D1` reversed at 9..12, later writes replacing earlier ones. -/
def pathPoints (C1 C2 D1 D2 : CoonBezier) : List (ℚ × ℚ) :=
  C1.GetPoints.take 3 ++ D2.GetPoints.take 3 ++ C2.GetPointsReverse.take 3 ++
    D1.GetPointsReverse

/-- What a run of `PatchDrawer::Draw` does that is visible from outside: the `DrawPath`
fills it issues, in order, and (as a marker, not an effect) the calls that returned
early because `BiInterpol` reported overflow. -/
inductive DrawEvent where
  /-- A call of `pDevice->DrawPath` with the colour components and the path points. -/
  | fill (color : CoonColor) (points : List (ℚ × ℚ))
  /-- A call of `Draw` returned because `BiInterpol` reported overflow. -/
  | overflow
deriving DecidableEq

/-- A smallness test for the calls of `PatchDrawer::Draw`: the value of `bSmall` for a
call, given its `x_scale`, `y_scale`, `left`, `bottom` and its four curves. -/
abbrev SmallTest : Type :=
  Int → Int → Int → Int → CoonBezier → CoonBezier → CoonBezier → CoonBezier → Bool

/-- The part of `PatchDrawer::Draw` after the colour computations, for the branch
`action`; `draw` stands for the recursive calls of `Draw`. -/
def drawBranch
    (draw : Int → Int → Int → Int → CoonBezier → CoonBezier → CoonBezier → CoonBezier →
      Option (List DrawEvent))
    (action : DrawAction) (x_scale y_scale left bottom : Int) (C1 C2 D1 D2 : CoonBezier) :
    Option (List DrawEvent) :=
  match action with
  | DrawAction.abort => some [DrawEvent.overflow]
  | DrawAction.fill color => some [DrawEvent.fill color (pathPoints C1 C2 D1 D2)]
  | DrawAction.splitY =>
    let m1 := CoonBezier.InitFromBezierInterpolation D1 D2 C1 C2
    let y_scale := y_scale * 2
    let bottom := bottom * 2
    (draw x_scale y_scale left bottom C1 m1 D1.first_half D2.first_half).bind fun e1 =>
    (draw x_scale y_scale left (bottom + 1) m1 C2 D1.second_half D2.second_half).bind fun e2 =>
    some (e1 ++ e2)
  | DrawAction.splitX =>
    let m2 := CoonBezier.InitFromBezierInterpolation C1 C2 D1 D2
    let x_scale := x_scale * 2
    let left := left * 2
    (draw x_scale y_scale left bottom C1.first_half C2.first_half D1 m2).bind fun e1 =>
    (draw x_scale y_scale (left + 1) bottom C1.second_half C2.second_half m2 D2).bind fun e2 =>
    some (e1 ++ e2)
  | DrawAction.splitBoth =>
    let m1 := CoonBezier.InitFromBezierInterpolation D1 D2 C1 C2
    let m2 := CoonBezier.InitFromBezierInterpolation C1 C2 D1 D2
    let m1f := m1.first_half
    let m1s := m1.second_half
    let m2f := m2.first_half
    let m2s := m2.second_half
    let x_scale := x_scale * 2
    let y_scale := y_scale * 2
    let left := left * 2
    let bottom := bottom * 2
    (draw x_scale y_scale left bottom C1.first_half m1f D1.first_half m2f).bind fun e1 =>
    (draw x_scale y_scale left (bottom + 1) m1f C2.first_half D1.second_half m2s).bind fun e2 =>
    (draw x_scale y_scale (left + 1) bottom C1.second_half m1s m2f D2.first_half).bind fun e3 =>
    (draw x_scale y_scale (left + 1) (bottom + 1) m1s C2.second_half m2s
      D2.second_half).bind fun e4 =>
    some (e1 ++ e2 ++ e3 ++ e4)

/-- `PatchDrawer::Draw` with the smallness test left open: `small` gives the value of
`bSmall` for each call, from the grid position and the curves of the call. The first
argument bounds the depth of the recursion: `none` means the bound was reached. -/
def DrawWith (small : SmallTest)
    (colors : PatchColors) :
    Nat → Int → Int → Int → Int → CoonBezier → CoonBezier → CoonBezier → CoonBezier →
      Option (List DrawEvent)
  | 0 => fun _ _ _ _ _ _ _ _ => none
  | fuel + 1 => fun x_scale y_scale left bottom C1 C2 D1 D2 =>
    drawBranch (DrawWith small colors fuel)
      (drawAction colors (small x_scale y_scale left bottom C1 C2 D1 D2)
        x_scale y_scale left bottom)
      x_scale y_scale left bottom C1 C2 D1 D2

/-- `PatchDrawer::Draw`: the recursion with the smallness test of the source. -/
def Draw (colors : PatchColors) (fuel : Nat) (x_scale y_scale left bottom : Int)
    (C1 C2 D1 D2 : CoonBezier) : Option (List DrawEvent) :=
  DrawWith (fun _ _ _ _ => bSmall) colors fuel x_scale y_scale left bottom C1 C2 D1 D2

/-! ## Collaborators of the one-dimensional shadings -/

/-- `kShadingSteps`. -/
def kShadingSteps : Nat := 256

/-- `static_cast<int32_t>(f)`: truncation toward zero; `none` where the truncated value
is not a 32-bit integer (the conversion is undefined there). -/
def castInt32 (f : ℚ) : Option Int :=
  let t : Int := if 0 ≤ f then ⌊f⌋ else ⌈f⌉
  if inInt32 t then some t else none

/-- A `CPDF_Function` as the rasterizers see it (`cpdf_function.h`): its `OutputCount`
and its `Call(inputs, results)`, which gives the new content of the `results` span and
the optional number of results written. -/
structure ShadingFunction where
  OutputCount : Nat
  Call : List ℚ → List ℚ → List ℚ × Option Nat

/-- A `CPDF_ColorSpace` as the rasterizers see it. -/
structure ColorSpace where
  ComponentCount : Nat
  GetRGBOrZerosOnError : List ℚ → ℚ × ℚ × ℚ

/-- Library routines used by the rasterizers and defined outside this file. -/
structure FloatOps where
  /-- `FXSYS_roundf`. -/
  roundf : ℚ → Int
  /-- `ArgbEncode(alpha, r, g, b)`. -/
  ArgbEncode : Int → Int → Int → Int → Nat
  /-- `sqrt`. -/
  sqrt : ℚ → ℚ
  /-- `hypotf`. -/
  hypotf : ℚ → ℚ → ℚ
  /-- `FXSYS_IsFloatZero`. -/
  IsFloatZero : ℚ → Bool
  /-- The rounding of the exact result of a `float` operation to the `float` that the
  operation returns. -/
  toFloat : ℚ → ℚ

/-- The entries of a shading dictionary that the axial and radial rasterizers read. -/
structure ShadingDict where
  Coords : Option (List ℚ)
  Domain : Option (List ℚ)
  Extend : Option (List Bool)

/-- `CPDF_Array::GetFloatAt`: 0 for a missing element. -/
def GetFloatAt (arr : List ℚ) (i : Nat) : ℚ := arr.getD i 0

/-- `pArray && pArray->GetBooleanAt(i, false)`. -/
def GetExtendAt (arr : Option (List Bool)) (i : Nat) : Bool :=
  match arr with
  | none => false
  | some l => l.getD i false

/-- Modelled from the spec: the checked `total += v` of `FX_SAFE_UINT32` (declared in
`core/fxcrt/fx_safe_types.h`, outside the excerpt); `none` is the invalid state. -/
def safeUInt32Add (total : Option Nat) (v : Nat) : Option Nat :=
  total.bind fun t => if t + v < 4294967296 then some (t + v) else none

/-- `CountOutputsFromFunctions`. -/
def CountOutputsFromFunctions (funcs : List (Option ShadingFunction)) : Nat :=
  (funcs.foldl (fun total func =>
    match func with
    | some f => safeUInt32Add total f.OutputCount
    | none => total) (some 0)).getD 0

/-- `GetValidatedOutputsCount`. -/
def GetValidatedOutputsCount (funcs : List (Option ShadingFunction)) (pCS : ColorSpace) : Nat :=
  let funcs_outputs := CountOutputsFromFunctions funcs
  if funcs_outputs ≠ 0 then max funcs_outputs pCS.ComponentCount else 0

/-! ## Step table -/

/-- The loop over `funcs` in `GetShadingSteps`: each non-null function is called on the
current span, and the span advances by the number of results it reports. `done` is the
part of `result_array` before the span. -/
def callFunctions (inputs : List ℚ) :
    List (Option ShadingFunction) → List ℚ → List ℚ → List ℚ
  | [], done, span => done ++ span
  | none :: funcs, done, span => callFunctions inputs funcs done span
  | some f :: funcs, done, span =>
    let r := f.Call inputs span
    match r.2 with
    | some n => callFunctions inputs funcs (done ++ r.1.take n) (r.1.drop n)
    | none => callFunctions inputs funcs done r.1

/-- The table entry made from `result_array` at the end of an iteration of
`GetShadingSteps`: the colour-space conversion, rounded and packed by `ArgbEncode`. -/
def stepColor (ops : FloatOps) (pCS : ColorSpace) (alpha : Int) (result_array : List ℚ) : Nat :=
  let rgb := pCS.GetRGBOrZerosOnError result_array
  ops.ArgbEncode alpha (ops.roundf (rgb.1 * 255)) (ops.roundf (rgb.2.1 * 255))
    (ops.roundf (rgb.2.2 * 255))

/-- The loop `for (int i = 0; i < kShadingSteps; ++i)` of `GetShadingSteps`, with
`count` iterations left from index `i`; `result_array` is carried from one iteration to
the next. The `float` expression `diff * i / kShadingSteps + t_min` rounds after the
multiplication, after the division and after the addition. -/
def shadingStepsLoop (ops : FloatOps) (t_min diff : ℚ) (funcs : List (Option ShadingFunction))
    (pCS : ColorSpace) (alpha : Int) : Nat → Nat → List ℚ → List Nat
  | 0, _, _ => []
  | count + 1, i, result_array =>
    let input :=
      ops.toFloat (ops.toFloat (ops.toFloat (diff * (i : ℚ)) / (kShadingSteps : ℚ)) + t_min)
    let result_array := callFunctions [input] funcs [] result_array
    stepColor ops pCS alpha result_array ::
      shadingStepsLoop ops t_min diff funcs pCS alpha count (i + 1) result_array

/-- `GetShadingSteps`; `none` when one of the two `CHECK_GE` fails. The `float`
difference `t_max - t_min` is rounded. -/
def GetShadingSteps (ops : FloatOps) (t_min t_max : ℚ) (funcs : List (Option ShadingFunction))
    (pCS : ColorSpace) (alpha : Int) (results_count : Nat) : Option (List Nat) :=
  if results_count < CountOutputsFromFunctions funcs then none
  else if results_count < pCS.ComponentCount then none
  else
    let diff := ops.toFloat (t_max - t_min)
    some (shadingStepsLoop ops t_min diff funcs pCS alpha kShadingSteps 0
      (List.replicate results_count 0))

/-- The function input that the step-table contract assigns to entry `i`, in exact
arithmetic: `t_min + (t_max - t_min) * i / 256`. -/
def stepInput (t_min t_max : ℚ) (i : Nat) : ℚ := t_min + (t_max - t_min) * (i : ℚ) / 256

/-- The same input as `GetShadingSteps` computes it in `float` arithmetic:
`(t_max - t_min) * i / 256 + t_min` with a rounding after the subtraction, the
multiplication, the division and the addition. -/
def stepInputFloat (ops : FloatOps) (t_min t_max : ℚ) (i : Nat) : ℚ :=
  ops.toFloat (ops.toFloat (ops.toFloat (ops.toFloat (t_max - t_min) * (i : ℚ)) / 256) + t_min)

/-- The content of `result_array` after entry `i` when the functions are evaluated at
`stepInputFloat ops t_min t_max j` for each entry `j` up to `i`, starting from a
zero-filled array of `results_count` values. -/
def stepResult (ops : FloatOps) (t_min t_max : ℚ) (funcs : List (Option ShadingFunction))
    (results_count : Nat) : Nat → List ℚ
  | 0 =>
    callFunctions [stepInputFloat ops t_min t_max 0] funcs [] (List.replicate results_count 0)
  | i + 1 =>
    callFunctions [stepInputFloat ops t_min t_max (i + 1)] funcs []
      (stepResult ops t_min t_max funcs results_count i)

/-! ## Axial and radial shading -/

/-- The tail shared by the pixel loops of `DrawAxialShading` and `DrawRadialShading`:
from the index to the new pixel value. Out-of-range indices are clamped when the
matching `Extend` flag is set and skip the pixel otherwise. -/
def shadePixel (shading_steps : List Nat) (bStartExtend bEndExtend : Bool) (index : Int)
    (pix : Nat) : Nat :=
  if index < 0 then
    if !bStartExtend then pix else shading_steps.getD 0 pix
  else if index ≥ (kShadingSteps : Int) then
    if !bEndExtend then pix else shading_steps.getD (kShadingSteps - 1) pix
  else shading_steps.getD index.toNat pix

/-- The `scale` of a pixel of `DrawAxialShading`. -/
def axialScale (start_x start_y x_span y_span axis_len_square : ℚ) (pos : ℚ × ℚ) : ℚ :=
  (((pos.1 - start_x) * x_span) + ((pos.2 - start_y) * y_span)) / axis_len_square

/-- The `index` of a pixel of `DrawAxialShading` before the `Extend` test. It is
undefined (`none`) for an axis of zero length, where `scale` is not a number. -/
def axialIndex (start_x start_y x_span y_span axis_len_square : ℚ) (pos : ℚ × ℚ) :
    Option Int :=
  if axis_len_square = 0 then none
  else
    castInt32 (axialScale start_x start_y x_span y_span axis_len_square pos *
      ((kShadingSteps : ℚ) - 1))

/-- The body of the pixel loop of `DrawAxialShading`: the new value of `pix`. -/
def axialPixel (shading_steps : List Nat) (bStartExtend bEndExtend : Bool)
    (start_x start_y x_span y_span axis_len_square : ℚ) (pos : ℚ × ℚ) (pix : Nat) :
    Option Nat :=
  (axialIndex start_x start_y x_span y_span axis_len_square pos).map fun index =>
    shadePixel shading_steps bStartExtend bEndExtend index pix

/-- One scanline of a pixel loop: `body column pix` for each pixel, columns counted
from `column`. -/
def mapScanline (body : Nat → Nat → Option Nat) : Nat → List Nat → Option (List Nat)
  | _, [] => some []
  | column, pix :: rest =>
    (body column pix).bind fun p =>
      (mapScanline body (column + 1) rest).map fun ps => p :: ps

/-- The row loop of a rasterizer: `body row column pix` for each pixel, rows counted
from `row`. -/
def mapBitmap (body : Nat → Nat → Nat → Option Nat) : Nat → List (List Nat) →
    Option (List (List Nat))
  | _, [] => some []
  | row, line :: rest =>
    (mapScanline (body row) 0 line).bind fun l =>
      (mapBitmap body (row + 1) rest).map fun ls => l :: ls

/-- `DrawAxialShading` on the scanlines of the bitmap. `transform` is
`mtObject2Bitmap.GetInverse().Transform`. The result is `none` where the code has no
defined behaviour. -/
def DrawAxialShading (ops : FloatOps) (bitmap : List (List Nat)) (transform : ℚ × ℚ → ℚ × ℚ)
    (pDict : ShadingDict) (funcs : List (Option ShadingFunction)) (pCS : ColorSpace)
    (alpha : Int) : Option (List (List Nat)) :=
  let total_results := GetValidatedOutputsCount funcs pCS
  if total_results = 0 then some bitmap
  else
    match pDict.Coords with
    | none => some bitmap
    | some pCoords =>
      let start_x := GetFloatAt pCoords 0
      let start_y := GetFloatAt pCoords 1
      let end_x := GetFloatAt pCoords 2
      let end_y := GetFloatAt pCoords 3
      let t_min := match pDict.Domain with
        | some pArray => GetFloatAt pArray 0
        | none => 0
      let t_max := match pDict.Domain with
        | some pArray => GetFloatAt pArray 1
        | none => 1
      let bStartExtend := GetExtendAt pDict.Extend 0
      let bEndExtend := GetExtendAt pDict.Extend 1
      let x_span := end_x - start_x
      let y_span := end_y - start_y
      let axis_len_square := (x_span * x_span) + (y_span * y_span)
      (GetShadingSteps ops t_min t_max funcs pCS alpha total_results).bind fun shading_steps =>
        mapBitmap (fun row column pix =>
          axialPixel shading_steps bStartExtend bEndExtend start_x start_y x_span y_span
            axis_len_square (transform ((column : ℚ), (row : ℚ))) pix) 0 bitmap

/-- What the first part of the pixel loop of `DrawRadialShading` yields. -/
inductive RadialParam where
  /-- The pixel is skipped by a `continue`. -/
  | skip
  /-- The parameter `s` is not a number. -/
  | undefined
  /-- The parameter `s` handed to the index computation. -/
  | value (s : ℚ)
deriving DecidableEq

/-- The choice between the two roots in the general branch of `DrawRadialShading`
(`root` is `sqrt(b2_4ac)`). -/
def radialRoot (a b root : ℚ) (bDecreasing bStartExtend bEndExtend : Bool) : ℚ :=
  let s1 := (-b - root) / (2 * a)
  let s2 := (-b + root) / (2 * a)
  let s1' := if a ≤ 0 then s2 else s1
  let s2' := if a ≤ 0 then s1 else s2
  if bDecreasing then
    if s1' ≥ 0 ∨ bStartExtend then s1' else s2'
  else
    if s2' ≤ 1 ∨ bEndExtend then s2' else s1'

/-- The computation of `s` for one pixel of `DrawRadialShading`. -/
def radialParam (ops : FloatOps) (bDecreasing bStartExtend bEndExtend : Bool)
    (start_x start_y start_r dx dy dr a : ℚ) (pos : ℚ × ℚ) : RadialParam :=
  let pos_dx := pos.1 - start_x
  let pos_dy := pos.2 - start_y
  let b := -2 * (pos_dx * dx + pos_dy * dy + start_r * dr)
  let c := pos_dx * pos_dx + pos_dy * pos_dy - start_r * start_r
  if ops.IsFloatZero b then
    if a = 0 ∨ -c / a < 0 then RadialParam.undefined
    else RadialParam.value (ops.sqrt (-c / a))
  else if ops.IsFloatZero a then
    if b = 0 then RadialParam.undefined else RadialParam.value (-c / b)
  else if a = 0 then RadialParam.undefined
  else
    let b2_4ac := (b * b) - 4 * (a * c)
    if b2_4ac < 0 then RadialParam.skip
    else
      let root := ops.sqrt b2_4ac
      let s := radialRoot a b root bDecreasing bStartExtend bEndExtend
      if start_r + s * dr < 0 then RadialParam.skip else RadialParam.value s

/-- The body of the pixel loop of `DrawRadialShading`: the new value of `pix`. -/
def radialPixel (ops : FloatOps) (shading_steps : List Nat)
    (bDecreasing bStartExtend bEndExtend : Bool)
    (start_x start_y start_r dx dy dr a : ℚ) (pos : ℚ × ℚ) (pix : Nat) : Option Nat :=
  match radialParam ops bDecreasing bStartExtend bEndExtend start_x start_y start_r dx dy dr a
      pos with
  | RadialParam.skip => some pix
  | RadialParam.undefined => none
  | RadialParam.value s =>
    (castInt32 (s * ((kShadingSteps : ℚ) - 1))).map fun index =>
      shadePixel shading_steps bStartExtend bEndExtend index pix

/-- `bDecreasing` of `DrawRadialShading`; `none` where the conversion of the distance
to `int` is undefined. -/
def radialDecreasing (ops : FloatOps) (dx dy dr : ℚ) : Option Bool :=
  if dr < 0 then (castInt32 (ops.hypotf dx dy)).map fun h => decide ((h : ℚ) < -dr)
  else some false

/-- `DrawRadialShading` on the scanlines of the bitmap. `transform` is
`mtObject2Bitmap.GetInverse().Transform`. The result is `none` where the code has no
defined behaviour. -/
def DrawRadialShading (ops : FloatOps) (bitmap : List (List Nat))
    (transform : ℚ × ℚ → ℚ × ℚ) (pDict : ShadingDict)
    (funcs : List (Option ShadingFunction)) (pCS : ColorSpace) (alpha : Int) :
    Option (List (List Nat)) :=
  let total_results := GetValidatedOutputsCount funcs pCS
  if total_results = 0 then some bitmap
  else
    match pDict.Coords with
    | none => some bitmap
    | some pCoords =>
      let start_x := GetFloatAt pCoords 0
      let start_y := GetFloatAt pCoords 1
      let start_r := GetFloatAt pCoords 2
      let end_x := GetFloatAt pCoords 3
      let end_y := GetFloatAt pCoords 4
      let end_r := GetFloatAt pCoords 5
      let t_min := match pDict.Domain with
        | some pArray => GetFloatAt pArray 0
        | none => 0
      let t_max := match pDict.Domain with
        | some pArray => GetFloatAt pArray 1
        | none => 1
      let bStartExtend := GetExtendAt pDict.Extend 0
      let bEndExtend := GetExtendAt pDict.Extend 1
      (GetShadingSteps ops t_min t_max funcs pCS alpha total_results).bind fun shading_steps =>
        let dx := end_x - start_x
        let dy := end_y - start_y
        let dr := end_r - start_r
        let a := dx * dx + dy * dy - dr * dr
        (radialDecreasing ops dx dy dr).bind fun bDecreasing =>
          mapBitmap (fun row column pix =>
            radialPixel ops shading_steps bDecreasing bStartExtend bEndExtend start_x start_y
              start_r dx dy dr a (transform ((column : ℚ), (row : ℚ))) pix) 0 bitmap

/-! ## Sample collaborators for concrete evaluations -/

/-- Integer square root by downward search from `k`. -/
def isqrtFrom (n : Nat) : Nat → Nat
  | 0 => 0
  | k + 1 => if (k + 1) * (k + 1) ≤ n then k + 1 else isqrtFrom n k

/-- A square root on rationals that is exact on squares of rationals. -/
def sqrtOnSquares (q : ℚ) : ℚ :=
  (isqrtFrom q.num.natAbs q.num.natAbs : ℚ) / (isqrtFrom q.den q.den : ℚ)

/-- Library routines for concrete evaluations: rounding to the nearest integer, the
ARGB packing, a square root that is exact on squares, the zero test with the
tolerance 0.0001, and exact arithmetic (results are not rounded). -/
def sampleOps : FloatOps where
  roundf := fun q => round q
  ArgbEncode := fun a r g b => a.toNat * 16777216 + r.toNat * 65536 + g.toNat * 256 + b.toNat
  sqrt := sqrtOnSquares
  hypotf := fun x y => sqrtOnSquares (x * x + y * y)
  IsFloatZero := fun f => decide (f < 1 / 10000 ∧ f > -1 / 10000)
  toFloat := fun q => q

/-- A one-output function that copies its input to the result span. -/
def sampleFunction : ShadingFunction where
  OutputCount := 1
  Call := fun inputs results => (inputs.take 1 ++ results.drop 1, some 1)

/-- A one-component colour space showing its component as a grey level. -/
def sampleColorSpace : ColorSpace where
  ComponentCount := 1
  GetRGBOrZerosOnError := fun values => (values.getD 0 0, values.getD 0 0, values.getD 0 0)

/-- A patch whose first channel runs from 0 on one side to 2^30 on the other. -/
def steepColors : PatchColors :=
  ⟨⟨0, 0, 0⟩, ⟨0, 0, 0⟩, ⟨1073741824, 0, 0⟩, ⟨1073741824, 0, 0⟩⟩

/-- Boundary curves of a patch over the rectangle from (0,0) to (10,1); the two long
curves `C1`, `C2` are parametrized so that their first halves end at abscissa 1. -/
def stretchedC1 : CoonBezier := CoonBezier.InitFromPoints 0 0 (-2) 0 (4 / 3) 0 10 0

/-- See `stretchedC1`. -/
def stretchedC2 : CoonBezier := CoonBezier.InitFromPoints 0 1 (-2) 1 (4 / 3) 1 10 1

/-- See `stretchedC1`. -/
def stretchedD1 : CoonBezier := CoonBezier.InitFromPoints 0 0 0 (1 / 3) 0 (2 / 3) 0 1

/-- See `stretchedC1`. -/
def stretchedD2 : CoonBezier := CoonBezier.InitFromPoints 10 0 10 (1 / 3) 10 (2 / 3) 10 1

/-- Corner colours black, white, white, white. -/
def cornerColors : PatchColors :=
  ⟨⟨0, 0, 0⟩, ⟨255, 255, 255⟩, ⟨255, 255, 255⟩, ⟨255, 255, 255⟩⟩

/-- Boundary curves of the unit square, which is geometrically small. -/
def unitC1 : CoonBezier := CoonBezier.InitFromPoints 0 0 (1 / 3) 0 (2 / 3) 0 1 0

/-- See `unitC1`. -/
def unitC2 : CoonBezier := CoonBezier.InitFromPoints 0 1 (1 / 3) 1 (2 / 3) 1 1 1

/-- See `unitC1`. -/
def unitD1 : CoonBezier := CoonBezier.InitFromPoints 0 0 0 (1 / 3) 0 (2 / 3) 0 1

/-- See `unitC1`. -/
def unitD2 : CoonBezier := CoonBezier.InitFromPoints 1 0 1 (1 / 3) 1 (2 / 3) 1 1

/-- Corner colours whose first channel differs by exactly 4 across two edges. -/
def fourApartColors : PatchColors := ⟨⟨0, 0, 0⟩, ⟨0, 0, 0⟩, ⟨4, 0, 0⟩, ⟨4, 0, 0⟩⟩

/-! ## Quantities named in the contracts -/

/-- `d_bottom` of `PatchDrawer::Draw`: `div_colors[3].Distance(div_colors[0])`. -/
def edgeBottom (colors : PatchColors) (x_scale y_scale left bottom : Int) : Int :=
  (BiInterpol colors (left + 1) bottom x_scale y_scale).1.Distance
    (BiInterpol colors left bottom x_scale y_scale).1

/-- `d_left` of `PatchDrawer::Draw`: `div_colors[1].Distance(div_colors[0])`. -/
def edgeLeft (colors : PatchColors) (x_scale y_scale left bottom : Int) : Int :=
  (BiInterpol colors left (bottom + 1) x_scale y_scale).1.Distance
    (BiInterpol colors left bottom x_scale y_scale).1

/-- `d_top` of `PatchDrawer::Draw`: `div_colors[1].Distance(div_colors[2])`. -/
def edgeTop (colors : PatchColors) (x_scale y_scale left bottom : Int) : Int :=
  (BiInterpol colors left (bottom + 1) x_scale y_scale).1.Distance
    (BiInterpol colors (left + 1) (bottom + 1) x_scale y_scale).1

/-- `d_right` of `PatchDrawer::Draw`: `div_colors[2].Distance(div_colors[3])`. -/
def edgeRight (colors : PatchColors) (x_scale y_scale left bottom : Int) : Int :=
  (BiInterpol colors (left + 1) (bottom + 1) x_scale y_scale).1.Distance
    (BiInterpol colors (left + 1) bottom x_scale y_scale).1

/-- The corner-averaged colour of the contract: channel by channel, the mean of the
bilinear colours at the four corners (left, bottom), (left, bottom+1),
(left+1, bottom+1) and (left+1, bottom) of a sub-patch. -/
def cornerAverage (colors : PatchColors) (x_scale y_scale left bottom : Int) : ℚ × ℚ × ℚ :=
  let k0 := (BiInterpol colors left bottom x_scale y_scale).1
  let k1 := (BiInterpol colors left (bottom + 1) x_scale y_scale).1
  let k2 := (BiInterpol colors (left + 1) (bottom + 1) x_scale y_scale).1
  let k3 := (BiInterpol colors (left + 1) bottom x_scale y_scale).1
  (((k0.comp0 : ℚ) + k1.comp0 + k2.comp0 + k3.comp0) / 4,
    ((k0.comp1 : ℚ) + k1.comp1 + k2.comp1 + k3.comp1) / 4,
    ((k0.comp2 : ℚ) + k1.comp2 + k2.comp2 + k3.comp2) / 4)

/-- The value `Interpolate` returns when no intermediate value overflows. -/
def lerp (p1 p2 delta1 delta2 : Int) : Int := p1 + Int.tdiv ((p2 - p1) * delta1) delta2

/-- The value `BiInterpolImpl` returns when no intermediate value overflows. -/
def bilerp (c0 c1 c2 c3 x y x_scale y_scale : Int) : Int :=
  lerp (lerp c0 c3 x x_scale) (lerp c1 c2 x x_scale) y y_scale

/-- All three components are in 0..255. -/
def CoonColor.inByteRange (c : CoonColor) : Prop :=
  (0 ≤ c.comp0 ∧ c.comp0 ≤ 255) ∧ (0 ≤ c.comp1 ∧ c.comp1 ≤ 255) ∧ (0 ≤ c.comp2 ∧ c.comp2 ≤ 255)

/-- The four corner colours have all components in 0..255. -/
def PatchColors.inByteRange (colors : PatchColors) : Prop :=
  colors.k0.inByteRange ∧ colors.k1.inByteRange ∧ colors.k2.inByteRange ∧
    colors.k3.inByteRange

/-- The colour `BiInterpol` stores when no intermediate value overflows. -/
def bilinearColor (colors : PatchColors) (x y x_scale y_scale : Int) : CoonColor :=
  ⟨bilerp colors.k0.comp0 colors.k1.comp0 colors.k2.comp0 colors.k3.comp0 x y x_scale y_scale,
    bilerp colors.k0.comp1 colors.k1.comp1 colors.k2.comp1 colors.k3.comp1 x y x_scale y_scale,
    bilerp colors.k0.comp2 colors.k1.comp2 colors.k2.comp2 colors.k3.comp2 x y x_scale y_scale⟩

/-- The side condition of `Interpolate` in the words of its contract: the exact
intermediate values `p2 - p1`, `(p2 - p1) * delta1`, the truncated quotient by `delta2`
(which needs `delta2 ≠ 0`) and the final sum with `p1` are all representable as 32-bit
signed integers. -/
def interpolateRepresentable (p1 p2 delta1 delta2 : Int) : Prop :=
  inInt32 (p2 - p1) ∧ inInt32 ((p2 - p1) * delta1) ∧ delta2 ≠ 0 ∧
    inInt32 (Int.tdiv ((p2 - p1) * delta1) delta2) ∧
    inInt32 (Int.tdiv ((p2 - p1) * delta1) delta2 + p1)

instance (p1 p2 delta1 delta2 : Int) :
    Decidable (interpolateRepresentable p1 p2 delta1 delta2) := by
  unfold interpolateRepresentable
  exact inferInstance

/-! ## Further quantities of the radial shading and the curves -/

/-- The three ways `DrawRadialShading` computes `s` for a pixel. -/
inductive RadialBranch where
  /-- `FXSYS_IsFloatZero(b)`: `s = sqrt(-c / a)`. -/
  | bNearZero
  /-- `a_is_float_zero`: `s = -c / b`. -/
  | aNearZero
  /-- The general quadratic. -/
  | general
deriving DecidableEq, Repr

/-- The branch of the `if` chain of `DrawRadialShading` that computes `s` for the pixel
at `pos`. -/
def radialBranch (ops : FloatOps) (start_x start_y start_r dx dy dr a : ℚ) (pos : ℚ × ℚ) :
    RadialBranch :=
  let pos_dx := pos.1 - start_x
  let pos_dy := pos.2 - start_y
  let b := -2 * (pos_dx * dx + pos_dy * dy + start_r * dr)
  if ops.IsFloatZero b then RadialBranch.bNearZero
  else if ops.IsFloatZero a then RadialBranch.aNearZero
  else RadialBranch.general

/-- The value of the cubic `a t^3 + b t^2 + c t + d` of a coefficient set at `t`. -/
def CoonBezierCoeff.eval (s : CoonBezierCoeff) (t : ℚ) : ℚ :=
  s.a * t ^ 3 + s.b * t ^ 2 + s.c * t + s.d

/-- The corner colours black, white, white, black. -/
def stripeColors : PatchColors :=
  ⟨⟨0, 0, 0⟩, ⟨255, 255, 255⟩, ⟨255, 255, 255⟩, ⟨0, 0, 0⟩⟩

/-! ## `CFX_SubstFont` -/

/-- The two members of `CFX_SubstFont` that `UseChromeSerif` and `GetOriginalWeight`
touch. -/
structure CFX_SubstFont where
  weight_ : Int
  family_ : String
deriving DecidableEq

/-- `CFX_SubstFont::UseChromeSerif` (`int` arithmetic, the quotient truncates). -/
def CFX_SubstFont.UseChromeSerif (font : CFX_SubstFont) : CFX_SubstFont :=
  { weight_ := Int.tdiv (font.weight_ * 4) 5, family_ := "Chrome Serif" }

/-- `CFX_SubstFont::GetOriginalWeight`. -/
def CFX_SubstFont.GetOriginalWeight (font : CFX_SubstFont) : Int :=
  let weight := font.weight_
  if font.family_ = "Chrome Serif" then Int.tdiv (weight * 5) 4 else weight

/-! ## `DrawFuncShading` -/

/-- The body of the pixel loop of `DrawFuncShading`: the new value of the pixel and the
content of `result_array`, which is carried from pixel to pixel. `none` where a colour
component does not convert to `int32_t`. -/
def funcShadingPixel (ops : FloatOps) (funcs : List (Option ShadingFunction))
    (pCS : ColorSpace) (alpha : Int) (xmin xmax ymin ymax : ℚ) (pos : ℚ × ℚ)
    (result_array : List ℚ) (pix : Nat) : Option (Nat × List ℚ) :=
  if pos.1 < xmin ∨ pos.1 > xmax ∨ pos.2 < ymin ∨ pos.2 > ymax then some (pix, result_array)
  else
    let result_array := callFunctions [pos.1, pos.2] funcs [] result_array
    let rgb := pCS.GetRGBOrZerosOnError result_array
    (castInt32 (rgb.1 * 255)).bind fun r =>
      (castInt32 (rgb.2.1 * 255)).bind fun g =>
        (castInt32 (rgb.2.2 * 255)).map fun b => (ops.ArgbEncode alpha r g b, result_array)

/-- One scanline of a pixel loop that carries a state from pixel to pixel. -/
def foldScanline {σ : Type} (body : Nat → σ → Nat → Option (Nat × σ)) :
    Nat → σ → List Nat → Option (List Nat × σ)
  | _, state, [] => some ([], state)
  | column, state, pix :: rest =>
    (body column state pix).bind fun p =>
      (foldScanline body (column + 1) p.2 rest).map fun ps => (p.1 :: ps.1, ps.2)

/-- The row loop of a rasterizer that carries a state from pixel to pixel. -/
def foldBitmap {σ : Type} (body : Nat → Nat → σ → Nat → Option (Nat × σ)) :
    Nat → σ → List (List Nat) → Option (List (List Nat))
  | _, _, [] => some []
  | row, state, line :: rest =>
    (foldScanline (body row) 0 state line).bind fun l =>
      (foldBitmap body (row + 1) l.2 rest).map fun ls => l.1 :: ls

/-- `DrawFuncShading` on the scanlines of the bitmap. `transform` is the `Transform` of
`mtObject2Bitmap.GetInverse() * mtDomain2Target.GetInverse()`. The result is `none`
when a `CHECK_GE` fails or the code has no defined behaviour. -/
def DrawFuncShading (ops : FloatOps) (bitmap : List (List Nat)) (transform : ℚ × ℚ → ℚ × ℚ)
    (pDict : ShadingDict) (funcs : List (Option ShadingFunction)) (pCS : ColorSpace)
    (alpha : Int) : Option (List (List Nat)) :=
  let total_results := GetValidatedOutputsCount funcs pCS
  if total_results = 0 then some bitmap
  else
    let xmin := match pDict.Domain with
      | some pDomain => GetFloatAt pDomain 0
      | none => 0
    let xmax := match pDict.Domain with
      | some pDomain => GetFloatAt pDomain 1
      | none => 1
    let ymin := match pDict.Domain with
      | some pDomain => GetFloatAt pDomain 2
      | none => 0
    let ymax := match pDict.Domain with
      | some pDomain => GetFloatAt pDomain 3
      | none => 1
    if total_results < CountOutputsFromFunctions funcs then none
    else if total_results < pCS.ComponentCount then none
    else
      foldBitmap (fun row column result_array pix =>
        funcShadingPixel ops funcs pCS alpha xmin xmax ymin ymax
          (transform ((column : ℚ), (row : ℚ))) result_array pix) 0
        (List.replicate total_results 0) bitmap

/-- The sum of `OutputCount` over the non-hole functions, as an exact number. -/
def outputsSum : List (Option ShadingFunction) → Nat
  | [] => 0
  | none :: funcs => outputsSum funcs
  | some f :: funcs => f.OutputCount + outputsSum funcs

/-! ## Gouraud triangles -/

/-- `CPDF_MeshVertex`: a position in bitmap space and a colour. -/
structure MeshVertex where
  position : ℚ × ℚ
  rgb : ℚ × ℚ × ℚ
deriving DecidableEq

/-- The array `triangle[0..2]` of the mesh rasterizers. -/
structure Triangle where
  v0 : MeshVertex
  v1 : MeshVertex
  v2 : MeshVertex
deriving DecidableEq

/-- `GetScanlineIntersect(y, first, second, &x)`: `some x` when it returns true and
writes `x`, `none` when it returns false. -/
def GetScanlineIntersect (y : Int) (first second : ℚ × ℚ) : Option ℚ :=
  if first.2 = second.2 then none
  else if first.2 < second.2 ∧ ((y : ℚ) < first.2 ∨ (y : ℚ) > second.2) then none
  else if ¬ first.2 < second.2 ∧ ((y : ℚ) < second.2 ∨ (y : ℚ) > first.2) then none
  else some (first.1 + ((second.1 - first.1) * ((y : ℚ) - first.2) / (second.2 - first.2)))

/-- One pass of the edge loop of `DrawGouraud` for the edge from `vertex1` to
`vertex2`: the entry `(inter_x, r, g, b)` it stores, if the edge meets the scanline. -/
def edgeIntersect (y : Int) (vertex1 vertex2 : MeshVertex) : Option (ℚ × ℚ × ℚ × ℚ) :=
  (GetScanlineIntersect y vertex1.position vertex2.position).map fun inter_x =>
    let y_dist := ((y : ℚ) - vertex1.position.2) / (vertex2.position.2 - vertex1.position.2)
    (inter_x,
      vertex1.rgb.1 + ((vertex2.rgb.1 - vertex1.rgb.1) * y_dist),
      vertex1.rgb.2.1 + ((vertex2.rgb.2.1 - vertex1.rgb.2.1) * y_dist),
      vertex1.rgb.2.2 + ((vertex2.rgb.2.2 - vertex1.rgb.2.2) * y_dist))

/-- The edge loop of `DrawGouraud` for the scanline `y`: the entries stored for the edges
`triangle[i]` to `triangle[(i + 1) % 3]`, `i = 0, 1, 2`, in this order. Its length is
`nIntersects`. -/
def scanlineIntersections (y : Int) (triangle : Triangle) : List (ℚ × ℚ × ℚ × ℚ) :=
  (edgeIntersect y triangle.v0 triangle.v1).toList ++
    (edgeIntersect y triangle.v1 triangle.v2).toList ++
    (edgeIntersect y triangle.v2 triangle.v0).toList

/-- The test `nIntersects != 2` of `DrawGouraud`, and for a scanline that passes it the
choice of `start_index` and `end_index`: `none` when the scanline is skipped, else the
start entry and the end entry between which the pixels are interpolated. -/
def gouraudScanline (y : Int) (triangle : Triangle) :
    Option ((ℚ × ℚ × ℚ × ℚ) × (ℚ × ℚ × ℚ × ℚ)) :=
  match scanlineIntersections y triangle with
  | [e0, e1] => if e0.1 < e1.1 then some (e0, e1) else some (e1, e0)
  | _ => none

/-- `min_y` of `DrawGouraud`. -/
def Triangle.min_y (t : Triangle) : ℚ :=
  min (min t.v0.position.2 t.v1.position.2) t.v2.position.2

/-- `max_y` of `DrawGouraud`. -/
def Triangle.max_y (t : Triangle) : ℚ :=
  max (max t.v0.position.2 t.v1.position.2) t.v2.position.2

/-- The vertex reads of `DrawFreeGouraudShading`, as the stream answers them in order:
`some (vertex, flag)` for a `ReadVertex` that succeeds, `none` for one that fails. The
stream is at its end (`IsEOF`) when the list is empty. -/
abbrev VertexReads : Type := List (Option (MeshVertex × Nat))

/-- The `while` loop of `DrawFreeGouraudShading` from the state `triangle`: the
triangles handed to `DrawGouraud`, in order. -/
def freeGouraudLoop : VertexReads → Triangle → List Triangle
  | [], _ => []
  | none :: _, _ => []
  | some (vertex, 0) :: some (vertex1, _) :: some (vertex2, _) :: rest, triangle =>
    let triangle := { triangle with v0 := vertex }
    let triangle := { triangle with v1 := vertex1 }
    let triangle := { triangle with v2 := vertex2 }
    triangle :: freeGouraudLoop rest triangle
  | some (_, 0) :: _, _ => []
  | some (vertex, flag + 1) :: rest, triangle =>
    let triangle := if flag + 1 = 1 then { triangle with v0 := triangle.v1 } else triangle
    let triangle := { triangle with v1 := triangle.v2 }
    let triangle := { triangle with v2 := vertex }
    triangle :: freeGouraudLoop rest triangle

/-- `DrawFreeGouraudShading` after a successful `stream.Load()`: the triangles handed to
`DrawGouraud`, starting from the value-initialised `triangle` array. -/
def DrawFreeGouraudShading (reads : VertexReads) : List Triangle :=
  freeGouraudLoop reads ⟨⟨(0, 0), (0, 0, 0)⟩, ⟨(0, 0), (0, 0, 0)⟩, ⟨(0, 0), (0, 0, 0)⟩⟩

/-- A triangle with the vertices (0,0), (2,1), (0,2), all black. -/
def kiteTriangle : Triangle :=
  ⟨⟨(0, 0), (0, 0, 0)⟩, ⟨(2, 1), (0, 0, 0)⟩, ⟨(0, 2), (0, 0, 0)⟩⟩

/-! ## Patch records of `DrawCoonPatchMeshes` -/

/-- `patch_colors[i]` of a `std::array<CoonColor, 4>`; `none` outside the array. -/
def PatchColors.at? (colors : PatchColors) : Nat → Option CoonColor
  | 0 => some colors.k0
  | 1 => some colors.k1
  | 2 => some colors.k2
  | 3 => some colors.k3
  | _ => none

/-- `patch_colors[i] = c`; an index outside the array leaves the colours as they are. -/
def PatchColors.put (colors : PatchColors) (i : Nat) (c : CoonColor) : PatchColors :=
  match i with
  | 0 => { colors with k0 := c }
  | 1 => { colors with k1 := c }
  | 2 => { colors with k2 := c }
  | 3 => { colors with k3 := c }
  | _ => colors

/-- The part of `CPDF_MeshStream` (`cpdf_meshstream.h`) that the patch loop uses, over
any stream state `σ`: the three `CanRead...` tests and the three reads, each read giving
its value and the stream state after it. -/
structure MeshStreamOps (σ : Type) where
  CanReadFlag : σ → Bool
  ReadFlag : σ → Nat × σ
  CanReadCoords : σ → Bool
  ReadCoords : σ → (ℚ × ℚ) × σ
  CanReadColor : σ → Bool
  ReadColor : σ → (ℚ × ℚ × ℚ) × σ

/-- The `if (flag)` block of `DrawCoonPatchMeshes` for a non-zero flag: `tempCoords[i] =
coords[(flag * 3 + i) % 12]` for `i = 0..3`, copied over the start of `coords`, and
`tempColors = {patch_colors[flag], patch_colors[(flag + 1) % 4]}`, copied over the start
of `patch_colors`. `none` if one of the array accesses is out of bounds. -/
def reusePatchEdge (flag : Nat) (coords : List (ℚ × ℚ)) (colors : PatchColors) :
    Option (List (ℚ × ℚ) × PatchColors) := do
  let t0 ← coords[(flag * 3 + 0) % 12]?
  let t1 ← coords[(flag * 3 + 1) % 12]?
  let t2 ← coords[(flag * 3 + 2) % 12]?
  let t3 ← coords[(flag * 3 + 3) % 12]?
  let coords := (((coords.set 0 t0).set 1 t1).set 2 t2).set 3 t3
  let c0 ← colors.at? flag
  let c1 ← colors.at? ((flag + 1) % 4)
  let colors := (colors.put 0 c0).put 1 c1
  some (coords, colors)

/-- The loop `for (i = iStartPoint; i < point_count; i++)` with `n` iterations left
before `i` reaches `point_count`: it stops at the first failed `CanReadCoords`, and else
stores the transformed point at `coords[i]`. -/
def readCoordsLoop {σ : Type} (stream : MeshStreamOps σ) (transform : ℚ × ℚ → ℚ × ℚ) :
    Nat → Nat → σ → List (ℚ × ℚ) → σ × List (ℚ × ℚ)
  | 0, _, s, coords => (s, coords)
  | n + 1, i, s, coords =>
    if stream.CanReadCoords s then
      readCoordsLoop stream transform n (i + 1) (stream.ReadCoords s).2
        (coords.set i (transform (stream.ReadCoords s).1))
    else (s, coords)

/-- The loop `for (i = iStartColor; i < 4; i++)` with `n` iterations left before `i`
reaches 4: it stops at the first failed `CanReadColor`, and else stores the three
components `static_cast<int32_t>(rgb * 255)` at `patch_colors[i]`. `none` where a cast
is undefined. -/
def readColorsLoop {σ : Type} (stream : MeshStreamOps σ) :
    Nat → Nat → σ → PatchColors → Option (σ × PatchColors)
  | 0, _, s, colors => some (s, colors)
  | n + 1, i, s, colors =>
    if stream.CanReadColor s then do
      let rgb := (stream.ReadColor s).1
      let c0 ← castInt32 (rgb.1 * 255)
      let c1 ← castInt32 (rgb.2.1 * 255)
      let c2 ← castInt32 (rgb.2.2 * 255)
      readColorsLoop stream n (i + 1) (stream.ReadColor s).2 (colors.put i ⟨c0, c1, c2⟩)
    else some (s, colors)

/-- One iteration of the `while` loop of `DrawCoonPatchMeshes` after `ReadFlag`, up to
the end of the two read loops: the stream state, `coords` and `patch_colors` with which
the patch is then drawn. -/
def readPatchRecord {σ : Type} (stream : MeshStreamOps σ) (transform : ℚ × ℚ → ℚ × ℚ)
    (point_count flag : Nat) (s : σ) (coords : List (ℚ × ℚ)) (colors : PatchColors) :
    Option (σ × List (ℚ × ℚ) × PatchColors) := do
  let iStartPoint := if flag ≠ 0 then 4 else 0
  let iStartColor := if flag ≠ 0 then 2 else 0
  let reused ← if flag ≠ 0 then reusePatchEdge flag coords colors else some (coords, colors)
  let afterCoords :=
    readCoordsLoop stream transform (point_count - iStartPoint) iStartPoint s reused.1
  let afterColors ← readColorsLoop stream (4 - iStartColor) iStartColor afterCoords.1 reused.2
  some (afterColors.1, afterCoords.2, afterColors.2)

/-- The stream state after `k` calls of `ReadCoords` from the state `s`. -/
def MeshStreamOps.afterCoords {σ : Type} (stream : MeshStreamOps σ) : Nat → σ → σ
  | 0, s => s
  | k + 1, s => MeshStreamOps.afterCoords stream k (stream.ReadCoords s).2

/-- The colour that the colour loop of `DrawCoonPatchMeshes` stores for the value `rgb`
of `ReadColor`: the components `static_cast<int32_t>(rgb * 255)`; `none` where a cast
is undefined. -/
def colorFromRGB (rgb : ℚ × ℚ × ℚ) : Option CoonColor := do
  let c0 ← castInt32 (rgb.1 * 255)
  let c1 ← castInt32 (rgb.2.1 * 255)
  let c2 ← castInt32 (rgb.2.2 * 255)
  some ⟨c0, c1, c2⟩

/-- A mesh stream over the list of numbers still to be read: a flag takes one number
(its integer part modulo 4), a point two, a colour three. -/
def listMeshStream : MeshStreamOps (List ℚ) where
  CanReadFlag := fun s => decide (1 ≤ s.length)
  ReadFlag := fun s => ((⌊s.headD 0⌋.toNat) % 4, s.drop 1)
  CanReadCoords := fun s => decide (2 ≤ s.length)
  ReadCoords := fun s => ((s.headD 0, (s.drop 1).headD 0), s.drop 2)
  CanReadColor := fun s => decide (3 ≤ s.length)
  ReadColor := fun s => ((s.headD 0, (s.drop 1).headD 0, (s.drop 2).headD 0), s.drop 3)

/-- Sixteen points `(0,0), (1,0), ..., (15,0)`, so that a point names its index. -/
def numberedCoords : List (ℚ × ℚ) :=
  [(0, 0), (1, 0), (2, 0), (3, 0), (4, 0), (5, 0), (6, 0), (7, 0), (8, 0), (9, 0), (10, 0),
    (11, 0), (12, 0), (13, 0), (14, 0), (15, 0)]

/-- Four colours `(0,0,0), (1,1,1), (2,2,2), (3,3,3)`, so that a colour names its index. -/
def numberedColors : PatchColors :=
  ⟨⟨0, 0, 0⟩, ⟨1, 1, 1⟩, ⟨2, 2, 2⟩, ⟨3, 3, 3⟩⟩


/-- The numbers of one patch record after its flag: the eight points `(20,0), ..., (27,0)`
and the two colours `(1,0,0)` and `(0,1,0)`. -/
def sampleRecord : List ℚ :=
  [20, 0, 21, 0, 22, 0, 23, 0, 24, 0, 25, 0, 26, 0, 27, 0, 1, 0, 0, 0, 1, 0]

/-! ## UTF-8 encoding and decoding of wide strings

The tests `TEST(WideString, FromUTF8...)` and `TEST(WideString, UTF8EncodeDecode...)` of
`widestring_unittest.cpp` exercise `FX_UTF8Encode` and `WideString::FromUTF8`, whose
bodies are not part of the sources at hand. A wide string is the list of its code units,
a byte string the list of its bytes, all as natural numbers; a wide character holds one
code point (the 32-bit `wchar_t`). -/

/-- `pdfium::kMaximumSupplementaryCodePoint`, the last code point U+10FFFF. -/
def kMaximumSupplementaryCodePoint : Nat := 0x10ffff

/-- `pdfium::kMinimumSupplementaryCodePoint`, the first code point past the BMP. -/
def kMinimumSupplementaryCodePoint : Nat := 0x10000

/-- `pdfium::IsHighSurrogate`: the code units from `kMinimumHighSurrogateCodeUnit`
(0xd800) to `kMaximumHighSurrogateCodeUnit` (0xdbff), as the test loops name them. -/
def IsHighSurrogate (w : Nat) : Bool := decide (0xd800 ≤ w ∧ w ≤ 0xdbff)

/-- `pdfium::IsLowSurrogate`: the code units from `kMinimumLowSurrogateCodeUnit` (0xdc00)
to `kMaximumLowSurrogateCodeUnit` (0xdfff), as the test loops name them. -/
def IsLowSurrogate (w : Nat) : Bool := decide (0xdc00 ≤ w ∧ w ≤ 0xdfff)

/-- Modelled from the spec: the bytes that `FX_UTF8Encode` appends for one code point.
The body of `FX_UTF8Encode` is missing from the sources and the specification does not
describe it; this is the UTF-8 scheme that the tests of `widestring_unittest.cpp`
presuppose: one byte below 0x80, else a prefix byte 0xc0, 0xe0 or 0xf0 carrying the top
bits and one, two or three continuation bytes 0x80 + six bits each; nothing for a value
above U+10FFFF. -/
def encodeCodePoint (code_point : Nat) : List Nat :=
  if code_point > kMaximumSupplementaryCodePoint then []
  else if code_point < 0x80 then [code_point]
  else if code_point < 0x800 then [0xc0 + code_point / 64, 0x80 + code_point % 64]
  else if code_point < 0x10000 then
    [0xe0 + code_point / 4096, 0x80 + code_point % 4096 / 64, 0x80 + code_point % 64]
  else
    [0xf0 + code_point / 262144, 0x80 + code_point % 262144 / 4096,
      0x80 + code_point % 4096 / 64, 0x80 + code_point % 64]

/-- Modelled from the spec: `FX_UTF8Encode(wsStr)`, missing from the sources and not
described by the specification: the encodings of the code units of the wide string, one
after the other. -/
def FX_UTF8Encode (wsStr : List Nat) : List Nat :=
  wsStr.flatMap encodeCodePoint

/-- Modelled from the spec: the state of the decoder behind `WideString::FromUTF8`,
missing from the sources: the number of continuation bytes still expected, the code
point collected so far, and the wide string decoded so far. -/
structure UTF8Decoder where
  pending_bytes : Nat
  pending_code_point : Nat
  buffer : List Nat
deriving DecidableEq, Repr

/-- Modelled from the spec: the decoder appends a finished code point to the wide
string, unless it is above U+10FFFF (test `FromUTF8ErrorRecovery`, "Code point greater
than U+10FFFF"). This helper is missing from the sources. -/
def UTF8Decoder.AppendCodePoint (d : UTF8Decoder) (code_point : Nat) : UTF8Decoder :=
  if code_point > kMaximumSupplementaryCodePoint then d
  else { d with buffer := d.buffer ++ [code_point] }

/-- Modelled from the spec: one byte of input to the decoder behind
`WideString::FromUTF8`, missing from the sources and not described by the specification;
the behaviour on ill-formed input is the one the test `FromUTF8ErrorRecovery` expects. A
byte below 0x80 is a code point of its own and drops an unfinished sequence; a
continuation byte (0x80..0xbf) adds its six bits if one is expected and is dropped
otherwise; a prefix byte 0xc0..0xdf, 0xe0..0xef, 0xf0..0xf7 starts a sequence with one,
two, three continuation bytes; a byte from 0xf8 on drops an unfinished sequence. -/
def UTF8Decoder.ProcessByte (d : UTF8Decoder) (byte : Nat) : UTF8Decoder :=
  if byte < 0x80 then
    UTF8Decoder.AppendCodePoint { d with pending_bytes := 0 } byte
  else if byte < 0xc0 then
    if d.pending_bytes > 0 then
      let pending := d.pending_bytes - 1
      let code_point := d.pending_code_point + byte % 64 * 64 ^ pending
      let d := { d with pending_bytes := pending, pending_code_point := code_point }
      if pending = 0 then UTF8Decoder.AppendCodePoint d code_point else d
    else d
  else if byte < 0xe0 then
    { d with pending_bytes := 1, pending_code_point := byte % 32 * 64 }
  else if byte < 0xf0 then
    { d with pending_bytes := 2, pending_code_point := byte % 16 * 4096 }
  else if byte < 0xf8 then
    { d with pending_bytes := 3, pending_code_point := byte % 8 * 262144 }
  else
    { d with pending_bytes := 0 }

/-- Modelled from the spec: `WideString::FromUTF8(str)`, missing from the sources and not
described by the specification: a fresh decoder is fed every byte of `str` in order and
its wide string is the result. -/
def FromUTF8 (str : List Nat) : List Nat :=
  (str.foldl UTF8Decoder.ProcessByte ⟨0, 0, []⟩).buffer

/-! ## The calls made by `PatchDrawer::Draw` -/

/-- The point of a `CoonBezier` at parameter `t`. -/
def CoonBezier.eval (s : CoonBezier) (t : ℚ) : ℚ × ℚ := (s.x.eval t, s.y.eval t)

/-- The arguments of one call of `PatchDrawer::Draw`. -/
structure DrawCall where
  x_scale : Int
  y_scale : Int
  left : Int
  bottom : Int
  C1 : CoonBezier
  C2 : CoonBezier
  D1 : CoonBezier
  D2 : CoonBezier
deriving DecidableEq

/-- The recursive calls that a call of `PatchDrawer::Draw` makes in the branch `action`,
in the order of the source, each with the arguments the source passes. -/
def recursiveCalls (action : DrawAction) (call : DrawCall) : List DrawCall :=
  match action with
  | DrawAction.abort => []
  | DrawAction.fill _ => []
  | DrawAction.splitY =>
    let m1 := CoonBezier.InitFromBezierInterpolation call.D1 call.D2 call.C1 call.C2
    let y_scale := call.y_scale * 2
    let bottom := call.bottom * 2
    [⟨call.x_scale, y_scale, call.left, bottom, call.C1, m1, call.D1.first_half,
        call.D2.first_half⟩,
      ⟨call.x_scale, y_scale, call.left, bottom + 1, m1, call.C2, call.D1.second_half,
        call.D2.second_half⟩]
  | DrawAction.splitX =>
    let m2 := CoonBezier.InitFromBezierInterpolation call.C1 call.C2 call.D1 call.D2
    let x_scale := call.x_scale * 2
    let left := call.left * 2
    [⟨x_scale, call.y_scale, left, call.bottom, call.C1.first_half, call.C2.first_half,
        call.D1, m2⟩,
      ⟨x_scale, call.y_scale, left + 1, call.bottom, call.C1.second_half,
        call.C2.second_half, m2, call.D2⟩]
  | DrawAction.splitBoth =>
    let m1 := CoonBezier.InitFromBezierInterpolation call.D1 call.D2 call.C1 call.C2
    let m2 := CoonBezier.InitFromBezierInterpolation call.C1 call.C2 call.D1 call.D2
    let m1f := m1.first_half
    let m1s := m1.second_half
    let m2f := m2.first_half
    let m2s := m2.second_half
    let x_scale := call.x_scale * 2
    let y_scale := call.y_scale * 2
    let left := call.left * 2
    let bottom := call.bottom * 2
    [⟨x_scale, y_scale, left, bottom, call.C1.first_half, m1f, call.D1.first_half, m2f⟩,
      ⟨x_scale, y_scale, left, bottom + 1, m1f, call.C2.first_half, call.D1.second_half,
        m2s⟩,
      ⟨x_scale, y_scale, left + 1, bottom, call.C1.second_half, m1s, m2f,
        call.D2.first_half⟩,
      ⟨x_scale, y_scale, left + 1, bottom + 1, m1s, call.C2.second_half, m2s,
        call.D2.second_half⟩]

/-- Running a list of calls one after the other with `draw` and joining their events;
`none` as soon as one of them gives `none`. -/
def runCalls
    (draw : Int → Int → Int → Int → CoonBezier → CoonBezier → CoonBezier → CoonBezier →
      Option (List DrawEvent)) :
    List DrawCall → Option (List DrawEvent)
  | [] => some []
  | call :: rest =>
    (draw call.x_scale call.y_scale call.left call.bottom call.C1 call.C2 call.D1
      call.D2).bind fun e =>
    (runCalls draw rest).bind fun es => some (e ++ es)

/-- The branch that the call `call` of `PatchDrawer::Draw` takes, for the smallness test
`small` and the corner colours `colors`. -/
def DrawCall.action (small : SmallTest) (colors : PatchColors) (call : DrawCall) :
    DrawAction :=
  drawAction colors
    (small call.x_scale call.y_scale call.left call.bottom call.C1 call.C2 call.D1 call.D2)
    call.x_scale call.y_scale call.left call.bottom

/-- The calls of `PatchDrawer::Draw` in the run started by `call`, down to `depth`
levels of recursion below it: the call itself, then the calls in the runs of its
recursive calls. -/
def drawCallsWith (small : SmallTest) (colors : PatchColors) : Nat → DrawCall → List DrawCall
  | 0 => fun call => [call]
  | depth + 1 => fun call =>
    call :: (recursiveCalls (call.action small colors) call).flatMap
      (drawCallsWith small colors depth)

/-- The initial call `patch.Draw(1, 1, 0, 0, C1, C2, D1, D2)` of `DrawCoonPatchMeshes`,
with the four boundary curves initialised from the points `coords[0..11]`. -/
def rootCall (coords : Nat → ℚ × ℚ) : DrawCall :=
  { x_scale := 1
    y_scale := 1
    left := 0
    bottom := 0
    C1 := CoonBezier.InitFromPoints (coords 0).1 (coords 0).2 (coords 11).1 (coords 11).2
      (coords 10).1 (coords 10).2 (coords 9).1 (coords 9).2
    C2 := CoonBezier.InitFromPoints (coords 3).1 (coords 3).2 (coords 4).1 (coords 4).2
      (coords 5).1 (coords 5).2 (coords 6).1 (coords 6).2
    D1 := CoonBezier.InitFromPoints (coords 0).1 (coords 0).2 (coords 1).1 (coords 1).2
      (coords 2).1 (coords 2).2 (coords 3).1 (coords 3).2
    D2 := CoonBezier.InitFromPoints (coords 9).1 (coords 9).2 (coords 8).1 (coords 8).2
      (coords 7).1 (coords 7).2 (coords 6).1 (coords 6).2 }

/-- The four boundary curves of a call meet at their corners: `D1` runs from the start
of `C1` to the start of `C2`, and `D2` from the end of `C1` to the end of `C2`. -/
def DrawCall.meetAtCorners (call : DrawCall) : Prop :=
  call.D1.eval 0 = call.C1.eval 0 ∧ call.D1.eval 1 = call.C2.eval 0 ∧
    call.D2.eval 0 = call.C1.eval 1 ∧ call.D2.eval 1 = call.C2.eval 1

/-- The grid position of a call is inside its grid: both scales are powers of two,
`0 <= left < x_scale` and `0 <= bottom < y_scale`. -/
def DrawCall.inGrid (call : DrawCall) : Prop :=
  (∃ i : Nat, call.x_scale = 2 ^ i) ∧ (∃ j : Nat, call.y_scale = 2 ^ j) ∧
    0 ≤ call.left ∧ call.left < call.x_scale ∧ 0 ≤ call.bottom ∧ call.bottom < call.y_scale

/-- `GetScanlineIntersect(y, first, second, &x)` with the out-parameter made explicit:
the returned flag and the content of `x` after the call, `x` being its content before
the call. -/
def GetScanlineIntersectInto (y : Int) (first second : ℚ × ℚ) (x : ℚ) : Bool × ℚ :=
  match GetScanlineIntersect y first second with
  | some inter_x => (true, inter_x)
  | none => (false, x)

/-- The twelve boundary points of the unit square, three per side, around the square from
the origin as `coords[0..11]` are laid out; other indices give the origin. -/
def squareCoords (i : Nat) : ℚ × ℚ :=
  [(0, 0), (0, 1 / 3), (0, 2 / 3), (0, 1), (1 / 3, 1), (2 / 3, 1), (1, 1), (1, 2 / 3),
    (1, 1 / 3), (1, 0), (2 / 3, 0), (1 / 3, 0)].getD i (0, 0)

/-- Four coefficient sets meet at their corners: `D1(0) = C1(0)`, `D1(1) = C2(0)`,
`D2(0) = C1(1)` and `D2(1) = C2(1)`. -/
def CoonBezierCoeff.cornersMeet (C1 C2 D1 D2 : CoonBezierCoeff) : Prop :=
  D1.eval 0 = C1.eval 0 ∧ D1.eval 1 = C2.eval 0 ∧ D2.eval 0 = C1.eval 1 ∧
    D2.eval 1 = C2.eval 1

/-- The second recursive call of the initial call on the unit square when it splits
along x: the right half, at `left = 1` of `x_scale = 2`. -/
def sampleRightHalf : DrawCall :=
  { x_scale := 2
    y_scale := 1
    left := 1
    bottom := 0
    C1 := (rootCall squareCoords).C1.second_half
    C2 := (rootCall squareCoords).C2.second_half
    D1 := CoonBezier.InitFromBezierInterpolation (rootCall squareCoords).C1
      (rootCall squareCoords).C2 (rootCall squareCoords).D1 (rootCall squareCoords).D2
    D2 := (rootCall squareCoords).D2 }

/-- The grid of a call is no finer than 256 by 256: the scales are powers of two up to
`2^8`, `0 <= left < x_scale` and `0 <= bottom < y_scale`. -/
def DrawCall.inByteGrid (call : DrawCall) : Prop :=
  ∃ i j : Nat, i ≤ 8 ∧ j ≤ 8 ∧ call.x_scale = 2 ^ i ∧ call.y_scale = 2 ^ j ∧
    0 ≤ call.left ∧ call.left < call.x_scale ∧ 0 ≤ call.bottom ∧ call.bottom < call.y_scale

/-! ## EDIFACT encodation (`BC_EdifactEncoder.cpp`)

Wide strings are lists of code units (natural numbers). -/

/-- The value `v = (c1 << 18) + (c2 << 12) + (c3 << 6) + c4` that
`EncodeToEdifactCodewords` packs from the first four characters of `sb`, characters
past the end counting as 0. -/
def edifactValue (sb : List Nat) : Nat :=
  let len := sb.length
  let c1 := sb.getD 0 0
  let c2 := if len ≥ 2 then sb.getD 1 0 else 0
  let c3 := if len ≥ 3 then sb.getD 2 0 else 0
  let c4 := if len ≥ 4 then sb.getD 3 0 else 0
  c1 * 2 ^ 18 + c2 * 2 ^ 12 + c3 * 2 ^ 6 + c4

/-- `EncodeToEdifactCodewords(sb)`: the empty string for an empty `sb`, else the first
`min(len, 3)` of the three bytes `(v >> 16) & 255`, `(v >> 8) & 255`, `v & 255`. `none`
where `v` does not fit `int32_t` (the shifts and sums are undefined there). -/
def EncodeToEdifactCodewords (sb : List Nat) : Option (List Nat) :=
  let len := sb.length
  if len = 0 then some []
  else
    let v := edifactValue sb
    if v < 2 ^ 31 then
      let cw := [v / 2 ^ 16 % 256, v / 2 ^ 8 % 256, v % 256]
      some (cw.take (min len 3))
    else none

/-- `AppendEncodedChar(c, sb)`: the returned flag and `sb` after the call. -/
def AppendEncodedChar (c : Nat) (sb : List Nat) : Bool × List Nat :=
  if c ≥ 0x20 ∧ c ≤ 0x3f then (true, sb ++ [c])
  else if c ≥ 0x40 ∧ c ≤ 0x5e then (true, sb ++ [c - 64])
  else (false, sb)

/-- The two tests at the head of `HandleEOD(context, buffer)`: `some true` for the early
`return true` of an empty buffer, `some false` for the `return false` of more than four
characters, `none` when `HandleEOD` goes on to encode the buffer. -/
def HandleEODGuard (buffer : List Nat) : Option Bool :=
  let count := buffer.length
  if count = 0 then some true
  else if count > 4 then some false
  else none

/-- The part of `CBC_EncoderContext` (`BC_EncoderContext.h`) and of
`CBC_HighLevelEncoder` that `CBC_EdifactEncoder::Encode` uses, over any context state
`σ`: `hasMoreCharacters`, `getCurrentChar`, the increment `pos_++`, `writeCodewords`,
whether `LookAheadTest(msg_, pos_, GetEncodingMode())` gives a mode other than EDIFACT,
and `SignalEncoderChange(ASCII)`. -/
structure EdifactContextOps (σ : Type) where
  hasMoreCharacters : σ → Bool
  getCurrentChar : σ → Nat
  advance : σ → σ
  writeCodewords : σ → List Nat → σ
  lookAheadLeavesEdifact : σ → Bool
  SignalEncoderChange : σ → σ

/-- How a run of `CBC_EdifactEncoder::Encode` ends. Each outcome carries `packed`, the
buffers that were handed to `EncodeToEdifactCodewords` inside the loop, first to last
(a record of the calls, not a value of the program). -/
inductive EncodeOutcome (σ : Type) where
  /-- `Encode` executed one of its `return false`. -/
  | returnsFalse (packed : List (List Nat))
  /-- The packing in `EncodeToEdifactCodewords` left the range of `int32_t`. -/
  | undefinedPacking (packed : List (List Nat))
  /-- `Encode` reached `return HandleEOD(context, buffer)` with this context and
  buffer. -/
  | callsHandleEOD (context : σ) (buffer : List Nat) (packed : List (List Nat))
  /-- The bound on the number of loop iterations was reached. -/
  | outOfFuel (packed : List (List Nat))

/-- The buffers handed to `EncodeToEdifactCodewords` inside the loop. -/
def EncodeOutcome.packed {σ : Type} : EncodeOutcome σ → List (List Nat)
  | EncodeOutcome.returnsFalse packed => packed
  | EncodeOutcome.undefinedPacking packed => packed
  | EncodeOutcome.callsHandleEOD _ _ packed => packed
  | EncodeOutcome.outOfFuel packed => packed

/-- The `while` loop of `CBC_EdifactEncoder::Encode` from the state `context`, `buffer`,
followed by `buffer += 31` and the call of `HandleEOD`. The first argument bounds the
number of iterations. -/
def encodeLoop {σ : Type} (ops : EdifactContextOps σ) :
    Nat → σ → List Nat → List (List Nat) → EncodeOutcome σ
  | 0, _, _, packed => EncodeOutcome.outOfFuel packed
  | fuel + 1, context, buffer, packed =>
    if ops.hasMoreCharacters context then
      let c := ops.getCurrentChar context
      let appended := AppendEncodedChar c buffer
      if !appended.1 then EncodeOutcome.returnsFalse packed
      else
        let buffer := appended.2
        let context := ops.advance context
        let count := buffer.length
        if count ≥ 4 then
          match EncodeToEdifactCodewords buffer with
          | none => EncodeOutcome.undefinedPacking (packed ++ [buffer])
          | some encoded =>
            if encoded.isEmpty then EncodeOutcome.returnsFalse (packed ++ [buffer])
            else
              let context := ops.writeCodewords context encoded
              let rest := buffer.drop 4
              if ops.lookAheadLeavesEdifact context then
                EncodeOutcome.callsHandleEOD (ops.SignalEncoderChange context) (rest ++ [31])
                  (packed ++ [buffer])
              else encodeLoop ops fuel context rest (packed ++ [buffer])
        else encodeLoop ops fuel context buffer packed
    else EncodeOutcome.callsHandleEOD context (buffer ++ [31]) packed

/-- `CBC_EdifactEncoder::Encode(context)`: the loop started with an empty buffer. -/
def CBC_EdifactEncoder.Encode {σ : Type} (ops : EdifactContextOps σ) (fuel : Nat)
    (context : σ) : EncodeOutcome σ :=
  encodeLoop ops fuel context [] []

/-- A context over the message still to be read and the codewords written so far: there
are more characters while the message is not empty, and the look-ahead never leaves
EDIFACT. -/
def listEdifactContext : EdifactContextOps (List Nat × List Nat) where
  hasMoreCharacters := fun s => !s.1.isEmpty
  getCurrentChar := fun s => s.1.headD 0
  advance := fun s => (s.1.drop 1, s.2)
  writeCodewords := fun s cw => (s.1, s.2 ++ cw)
  lookAheadLeavesEdifact := fun _ => false
  SignalEncoderChange := fun s => s

/-! ## `CBC_EANCode::Preprocess` (`cbc_eancode.cpp`) -/

/-- The part of `CBC_OneDimEANWriter` (`BC_OnedEANWriter.h`) that `Preprocess` uses:
`FilterContents` on the wide string and `CalcChecksum` on the byte string. -/
structure EANWriterOps where
  FilterContents : List Nat → List Nat
  CalcChecksum : List Nat → Int

/-- Modelled from the spec: `WideString::InsertAtFront(c)`, whose body is missing from
the sources; `TEST(WideString, InsertAtFrontAndInsertAtBack)` builds "FRED" by
inserting D, E, R, F at the front: the character is put before the first one. -/
def WideString.InsertAtFront (s : List Nat) (c : Nat) : List Nat := c :: s

/-- Modelled from the spec: `WideString::First(count)`, whose body is missing from the
sources; by `TEST(WideString, First)` it is the first `count` characters, and the empty
string when `count` is more than the length. -/
def WideString.First (s : List Nat) (count : Nat) : List Nat :=
  if count ≤ s.length then s.take count else []

/-- The loop `for (i = 0; i < max_length - length; i++) InsertAtFront(L'0')` with `n`
iterations left. -/
def insertZerosLoop : Nat → List Nat → List Nat
  | 0, encoded_contents => encoded_contents
  | n + 1, encoded_contents =>
    insertZerosLoop n (WideString.InsertAtFront encoded_contents 0x30)

/-- `CBC_EANCode::Preprocess(contents)`, with the writer and the value `max_length` of
the virtual `GetMaxLength()` as parameters. `ToUTF8` is `FX_UTF8Encode`; the character
`'0' + checksum` appended to the byte string is taken modulo 256. -/
def CBC_EANCode.Preprocess (pWriter : EANWriterOps) (max_length : Nat)
    (contents : List Nat) : List Nat :=
  let encoded_contents := pWriter.FilterContents contents
  let length := encoded_contents.length
  if length ≤ max_length then
    let encoded_contents := insertZerosLoop (max_length - length) encoded_contents
    let str := FX_UTF8Encode encoded_contents
    let checksum := pWriter.CalcChecksum str
    let str := str ++ [((0x30 + checksum) % 256).toNat]
    FromUTF8 str
  else WideString.First encoded_contents (max_length + 1)

/-- A writer for the witnesses: `FilterContents` keeps the ASCII digits, and
`CalcChecksum` is the sum of the digit values modulo 10. -/
def sampleEANWriter : EANWriterOps where
  FilterContents := fun contents => contents.filter fun c => decide (0x30 ≤ c ∧ c ≤ 0x39)
  CalcChecksum := fun str => ((str.map fun c => c - 0x30).sum % 10 : Nat)

/-! ## `CJX_EventPseudoModel::Property` (`cjx_eventpseudomodel.cpp`) -/

/-- `XFA_Event`, with the values that the `switch` of `Property` lists. -/
inductive XFA_Event where
  | CancelAction
  | Change
  | CommitKey
  | FullText
  | Keydown
  | Modifier
  | NewContentType
  | NewText
  | PreviousContentType
  | PreviousText
  | Reenter
  | SelectionEnd
  | SelectionStart
  | Shift
  | SoapFaultCode
  | SoapFaultString
  | Target
deriving DecidableEq, Repr

/-- The fields of `CXFA_EventParam` (`cxfa_eventparam.h`) that `Property` reads or
writes. Wide strings are lists of code units. -/
structure CXFA_EventParam where
  cancel_action_ : Bool
  change_ : List Nat
  commit_key_ : Int
  full_text_ : List Nat
  key_down_ : Bool
  modifier_ : Bool
  new_content_type_ : List Nat
  prev_content_type_ : List Nat
  prev_text_ : List Nat
  reenter_ : Bool
  sel_end_ : Int
  sel_start_ : Int
  shift_ : Bool
  soap_fault_code_ : List Nat
  soap_fault_string_ : List Nat
deriving DecidableEq

/-- The helpers of `fxv8` (`fxjs/fxv8.h`) that the three property functions use, over
any type `υ` of script values: the three conversions of a script value and the three
constructors of one. -/
structure ScriptValueOps (υ : Type) where
  ReentrantToWideStringHelper : υ → List Nat
  ReentrantToInt32Helper : υ → Int
  ReentrantToBooleanHelper : υ → Bool
  NewStringHelper : List Nat → υ
  NewNumberHelper : Int → υ
  NewBooleanHelper : Bool → υ

/-- `StringProperty(pIsolate, pReturn, wsValue, bSetting)`: the contents of `*pReturn`
and of `*wsValue` after the call. -/
def StringProperty {υ : Type} (ops : ScriptValueOps υ) (pReturn : υ) (wsValue : List Nat)
    (bSetting : Bool) : υ × List Nat :=
  if bSetting then (pReturn, ops.ReentrantToWideStringHelper pReturn)
  else (ops.NewStringHelper (FX_UTF8Encode wsValue), wsValue)

/-- `IntegerProperty(pIsolate, pReturn, iValue, bSetting)`: the contents of `*pReturn`
and of `*iValue` after the call. -/
def IntegerProperty {υ : Type} (ops : ScriptValueOps υ) (pReturn : υ) (iValue : Int)
    (bSetting : Bool) : υ × Int :=
  if bSetting then (pReturn, ops.ReentrantToInt32Helper pReturn)
  else (ops.NewNumberHelper iValue, iValue)

/-- `BooleanProperty(pIsolate, pReturn, bValue, bSetting)`: the contents of `*pReturn`
and of `*bValue` after the call. -/
def BooleanProperty {υ : Type} (ops : ScriptValueOps υ) (pReturn : υ) (bValue : Bool)
    (bSetting : Bool) : υ × Bool :=
  if bSetting then (pReturn, ops.ReentrantToBooleanHelper pReturn)
  else (ops.NewBooleanHelper bValue, bValue)

/-- `pdfium::checked_cast<int32_t>(n)` of a size: `none` where the check fails. -/
def checkedCastInt32 (n : Nat) : Option Int :=
  if n < 2 ^ 31 then some (n : Int) else none

/-- `CJX_EventPseudoModel::Property(pIsolate, pValue, dwFlag, bSetting)` on the event
parameter `pEventParam` of the script context (`none` for a null pointer): the event
parameter and the content of `*pValue` after the call. The result is `none` where the
call does not return: at `NOTREACHED()` and at a failed `checked_cast`. -/
def CJX_EventPseudoModel.Property {υ : Type} (ops : ScriptValueOps υ)
    (pEventParam : Option CXFA_EventParam) (pValue : υ) (dwFlag : XFA_Event)
    (bSetting : Bool) : Option (Option CXFA_EventParam × υ) :=
  if bSetting = true ∧ dwFlag ≠ XFA_Event.CancelAction ∧
      dwFlag ≠ XFA_Event.SelectionStart ∧ dwFlag ≠ XFA_Event.SelectionEnd ∧
      dwFlag ≠ XFA_Event.Change then
    some (pEventParam, pValue)
  else
    match pEventParam with
    | none => some (none, pValue)
    | some e =>
      match dwFlag with
      | XFA_Event.CancelAction =>
        let r := BooleanProperty ops pValue e.cancel_action_ bSetting
        some (some { e with cancel_action_ := r.2 }, r.1)
      | XFA_Event.Change =>
        let r := StringProperty ops pValue e.change_ bSetting
        some (some { e with change_ := r.2 }, r.1)
      | XFA_Event.CommitKey =>
        let r := IntegerProperty ops pValue e.commit_key_ bSetting
        some (some { e with commit_key_ := r.2 }, r.1)
      | XFA_Event.FullText =>
        let r := StringProperty ops pValue e.full_text_ bSetting
        some (some { e with full_text_ := r.2 }, r.1)
      | XFA_Event.Keydown =>
        let r := BooleanProperty ops pValue e.key_down_ bSetting
        some (some { e with key_down_ := r.2 }, r.1)
      | XFA_Event.Modifier =>
        let r := BooleanProperty ops pValue e.modifier_ bSetting
        some (some { e with modifier_ := r.2 }, r.1)
      | XFA_Event.NewContentType =>
        let r := StringProperty ops pValue e.new_content_type_ bSetting
        some (some { e with new_content_type_ := r.2 }, r.1)
      | XFA_Event.NewText => none
      | XFA_Event.PreviousContentType =>
        let r := StringProperty ops pValue e.prev_content_type_ bSetting
        some (some { e with prev_content_type_ := r.2 }, r.1)
      | XFA_Event.PreviousText =>
        let r := StringProperty ops pValue e.prev_text_ bSetting
        some (some { e with prev_text_ := r.2 }, r.1)
      | XFA_Event.Reenter =>
        let r := BooleanProperty ops pValue e.reenter_ bSetting
        some (some { e with reenter_ := r.2 }, r.1)
      | XFA_Event.SelectionEnd =>
        let r := IntegerProperty ops pValue e.sel_end_ bSetting
        let sel_end := max 0 r.2
        (checkedCastInt32 e.prev_text_.length).map fun length =>
          let sel_end := min sel_end length
          let sel_start := min e.sel_start_ sel_end
          (some { e with sel_end_ := sel_end, sel_start_ := sel_start }, r.1)
      | XFA_Event.SelectionStart =>
        let r := IntegerProperty ops pValue e.sel_start_ bSetting
        let sel_start := max 0 r.2
        (checkedCastInt32 e.prev_text_.length).map fun length =>
          let sel_start := min sel_start length
          let sel_end := max sel_start e.sel_end_
          (some { e with sel_start_ := sel_start, sel_end_ := sel_end }, r.1)
      | XFA_Event.Shift =>
        let r := BooleanProperty ops pValue e.shift_ bSetting
        some (some { e with shift_ := r.2 }, r.1)
      | XFA_Event.SoapFaultCode =>
        let r := StringProperty ops pValue e.soap_fault_code_ bSetting
        some (some { e with soap_fault_code_ := r.2 }, r.1)
      | XFA_Event.SoapFaultString =>
        let r := StringProperty ops pValue e.soap_fault_string_ bSetting
        some (some { e with soap_fault_string_ := r.2 }, r.1)
      | XFA_Event.Target => some (some e, pValue)

/-- The selection invariant of an event parameter:
`0 <= sel_start <= sel_end <= length(prev_text)`. -/
def CXFA_EventParam.selectionValid (e : CXFA_EventParam) : Prop :=
  0 ≤ e.sel_start_ ∧ e.sel_start_ ≤ e.sel_end_ ∧ e.sel_end_ ≤ (e.prev_text_.length : Int)

/-- Script values for the witnesses: integers, read back as numbers, as the boolean
"not zero" and as the one-character string of their value. -/
def intScriptValues : ScriptValueOps Int where
  ReentrantToWideStringHelper := fun v => [v.toNat]
  ReentrantToInt32Helper := fun v => v
  ReentrantToBooleanHelper := fun v => decide (v ≠ 0)
  NewStringHelper := fun s => (s.length : Int)
  NewNumberHelper := fun n => n
  NewBooleanHelper := fun b => if b then 1 else 0

/-- An event parameter for the witnesses: previous text "abcde" with the selection
from 1 to 3. -/
def sampleEventParam : CXFA_EventParam :=
  { cancel_action_ := false
    change_ := []
    commit_key_ := 0
    full_text_ := []
    key_down_ := false
    modifier_ := false
    new_content_type_ := []
    prev_content_type_ := []
    prev_text_ := [0x61, 0x62, 0x63, 0x64, 0x65]
    reenter_ := false
    sel_end_ := 3
    sel_start_ := 1
    shift_ := false
    soap_fault_code_ := []
    soap_fault_string_ := [] }

/-! # Theorems -/

/-! ## Truncating division -/

theorem tdiv_bounds_nonneg {a b : Int} (ha : 0 ≤ a) (hb : 0 < b) :
    b * Int.tdiv a b ≤ a ∧ a < b * Int.tdiv a b + b := by
  have h1 := Int.tmod_nonneg b ha
  have h2 := Int.tmod_lt_of_pos a hb
  rw [Int.tmod_def] at h1 h2
  constructor <;> omega

theorem tdiv_bounds_nonpos {a b : Int} (ha : a ≤ 0) (hb : 0 < b) :
    a ≤ b * Int.tdiv a b ∧ b * Int.tdiv a b - b < a := by
  have h := tdiv_bounds_nonneg (a := -a) (by omega) hb
  rw [Int.neg_tdiv] at h
  have e : b * -(a.tdiv b) = -(b * a.tdiv b) := by ring
  rw [e] at h
  constructor <;> omega

theorem tdiv_nonpos_of_nonpos {a b : Int} (ha : a ≤ 0) (hb : 0 < b) : Int.tdiv a b ≤ 0 := by
  have h := Int.tdiv_nonneg (a := -a) (b := b) (by omega) (le_of_lt hb)
  rw [Int.neg_tdiv] at h
  omega

/-- Raising the dividend by at most `k` times the divisor raises the truncated quotient
by at most `k`. -/
theorem tdiv_le_add {a c b k : Int} (hb : 0 < b) (hk : 0 ≤ k) (h : c ≤ a + k * b) :
    Int.tdiv c b ≤ Int.tdiv a b + k := by
  by_contra hc
  have hc' : Int.tdiv a b + k + 1 ≤ Int.tdiv c b := by omega
  have hm : b * (Int.tdiv a b + k + 1) ≤ b * Int.tdiv c b :=
    Int.mul_le_mul_of_nonneg_left hc' (le_of_lt hb)
  have e : b * (Int.tdiv a b + k + 1) = b * Int.tdiv a b + k * b + b := by ring
  rw [e] at hm
  rcases le_or_lt 0 c with h0' | h0'
  · have s' := tdiv_bounds_nonneg h0' hb
    rcases le_or_lt 0 a with h0 | h0
    · have s := tdiv_bounds_nonneg h0 hb
      omega
    · have s := tdiv_bounds_nonpos (le_of_lt h0) hb
      omega
  · have s' := tdiv_bounds_nonpos (le_of_lt h0') hb
    rcases le_or_lt a 0 with h0 | h0
    · have s := tdiv_bounds_nonpos h0 hb
      omega
    · have hq : 0 ≤ Int.tdiv a b := Int.tdiv_nonneg (le_of_lt h0) (le_of_lt hb)
      have hq' := tdiv_nonpos_of_nonpos (le_of_lt h0') hb
      omega

/-- A truncated quotient of a 32-bit value leaves the 32-bit range only for
`INT_MIN / -1`. -/
theorem tdiv_inInt32_iff {a b : Int} (ha : inInt32 a) (hb : b ≠ 0) :
    inInt32 (Int.tdiv a b) ↔ ¬ (a = kInt32Min ∧ b = -1) := by
  unfold inInt32 kInt32Min kInt32Max at *
  have h := Int.natAbs_tdiv a b
  by_cases h1 : b = 1
  · subst h1
    simp only [Int.tdiv_one]
    omega
  · by_cases h2 : b = -1
    · subst h2
      have e : Int.tdiv a (-1) = -a := by
        rw [Int.tdiv_neg, Int.tdiv_one]
      rw [e]
      omega
    · have h3 : 2 ≤ Int.natAbs b := by omega
      have h4 : (Int.natAbs a).div (Int.natAbs b) ≤ Int.natAbs a / 2 := by
        show Int.natAbs a / Int.natAbs b ≤ Int.natAbs a / 2
        exact Nat.div_le_div_left h3 (by decide)
      rw [← h] at h4
      omega

/-! ## `Interpolate` and `BiInterpol` -/

/-- The checked computation of `Interpolate` is valid exactly when every exact
intermediate value is representable, and then it holds the exact result. -/
theorem interpolateChecked_eq (p1 p2 delta1 delta2 : Int) :
    interpolateChecked p1 p2 delta1 delta2 =
      if interpolateRepresentable p1 p2 delta1 delta2 then
        some (p1 + Int.tdiv ((p2 - p1) * delta1) delta2)
      else none := by
  unfold interpolateChecked interpolateRepresentable SafeInt32.sub SafeInt32.mul SafeInt32.div
    SafeInt32.add
  by_cases h1 : inInt32 (p2 - p1)
  · rw [Option.some_bind, if_pos h1, Option.some_bind]
    by_cases h2 : inInt32 ((p2 - p1) * delta1)
    · rw [if_pos h2, Option.some_bind]
      by_cases h3 : delta2 = 0
      · rw [if_pos h3, Option.none_bind, if_neg (fun h => h.2.2.1 h3)]
      · rw [if_neg h3]
        have h4 := tdiv_inInt32_iff h2 h3
        by_cases h5 : (p2 - p1) * delta1 = kInt32Min ∧ delta2 = -1
        · rw [if_pos h5, Option.none_bind, if_neg (fun h => (h4.mp h.2.2.2.1) h5)]
        · rw [if_neg h5, Option.some_bind]
          by_cases h7 : inInt32 (Int.tdiv ((p2 - p1) * delta1) delta2 + p1)
          · rw [if_pos h7, if_pos ⟨h1, h2, h3, h4.mpr h5, h7⟩, add_comm]
          · rw [if_neg h7, if_neg (fun h => h7 h.2.2.2.2)]
    · rw [if_neg h2, Option.none_bind, Option.none_bind, if_neg (fun h => h2 h.2.1)]
  · rw [Option.some_bind, if_neg h1, Option.none_bind, Option.none_bind, Option.none_bind,
      if_neg (fun h => h1 h.1)]

/-- The overflow flag after `BiInterpolImpl` is the flag before, or-ed with the flag a
fresh run would set; the value does not depend on the incoming flag. -/
theorem BiInterpolImpl_flag (c0 c1 c2 c3 x y x_scale y_scale : Int) (overflow : Bool) :
    BiInterpolImpl c0 c1 c2 c3 x y x_scale y_scale overflow =
      ((BiInterpolImpl c0 c1 c2 c3 x y x_scale y_scale false).1,
        overflow || (BiInterpolImpl c0 c1 c2 c3 x y x_scale y_scale false).2) := by
  unfold BiInterpolImpl Interpolate
  cases overflow <;>
    cases (interpolateChecked c0 c3 x x_scale) <;>
    cases (interpolateChecked c1 c2 x x_scale) <;>
    simp

/-- C6. `Interpolate` sets the overflow flag exactly when one of the exact intermediate
values (the difference, the product, the quotient, also a zero divisor, or the final
sum) is not representable in 32 bits, returning 0; otherwise it leaves the flag as it
was and returns `p1 + trunc((p2 - p1) * delta1 / delta2)`. `BiInterpol` returns false
exactly when the computation of one of the three channels sets the flag. -/
theorem Interpolate_overflow_iff (p1 p2 delta1 delta2 : Int) (overflow : Bool)
    (colors : PatchColors) (x y x_scale y_scale : Int) :
    Interpolate p1 p2 delta1 delta2 overflow =
        (if interpolateRepresentable p1 p2 delta1 delta2 then
          (p1 + Int.tdiv ((p2 - p1) * delta1) delta2, overflow)
        else (0, true)) ∧
      ((BiInterpol colors x y x_scale y_scale).2 = false ↔
        ((BiInterpolImpl colors.k0.comp0 colors.k1.comp0 colors.k2.comp0 colors.k3.comp0
            x y x_scale y_scale false).2 = true ∨
          (BiInterpolImpl colors.k0.comp1 colors.k1.comp1 colors.k2.comp1 colors.k3.comp1
            x y x_scale y_scale false).2 = true ∨
          (BiInterpolImpl colors.k0.comp2 colors.k1.comp2 colors.k2.comp2 colors.k3.comp2
            x y x_scale y_scale false).2 = true)) := by
  constructor
  · unfold Interpolate
    rw [interpolateChecked_eq]
    by_cases h : interpolateRepresentable p1 p2 delta1 delta2 <;> simp [h]
  · unfold BiInterpol
    simp only
    rw [BiInterpolImpl_flag _ _ _ _ _ _ _ _ (BiInterpolImpl colors.k0.comp1 colors.k1.comp1
      colors.k2.comp1 colors.k3.comp1 x y x_scale y_scale _).2]
    rw [BiInterpolImpl_flag _ _ _ _ _ _ _ _ (BiInterpolImpl colors.k0.comp0 colors.k1.comp0
      colors.k2.comp0 colors.k3.comp0 x y x_scale y_scale _).2]
    generalize (BiInterpolImpl colors.k0.comp0 colors.k1.comp0 colors.k2.comp0 colors.k3.comp0
      x y x_scale y_scale false).2 = f0
    generalize (BiInterpolImpl colors.k0.comp1 colors.k1.comp1 colors.k2.comp1 colors.k3.comp1
      x y x_scale y_scale false).2 = f1
    generalize (BiInterpolImpl colors.k0.comp2 colors.k1.comp2 colors.k2.comp2 colors.k3.comp2
      x y x_scale y_scale false).2 = f2
    cases f0 <;> cases f1 <;> cases f2 <;> simp

/-! ## Step table -/

/-- Entry `k` of the rest of the loop started at index `i` is made from the array that
results from evaluating the functions at the inputs of the indices `i .. i + k`. -/
theorem shadingStepsLoop_get (ops : FloatOps) (t_min t_max : ℚ)
    (funcs : List (Option ShadingFunction)) (pCS : ColorSpace) (alpha : Int)
    (results_count : Nat) (count : Nat) :
    ∀ (i : Nat) (result_array : List ℚ) (k : Nat), k < count →
      callFunctions [stepInputFloat ops t_min t_max i] funcs [] result_array =
        stepResult ops t_min t_max funcs results_count i →
      (shadingStepsLoop ops t_min (ops.toFloat (t_max - t_min)) funcs pCS alpha count i
          result_array)[k]? =
        some (stepColor ops pCS alpha
          (stepResult ops t_min t_max funcs results_count (i + k))) := by
  have hin : ∀ i : Nat,
      ops.toFloat (ops.toFloat (ops.toFloat (ops.toFloat (t_max - t_min) * (i : ℚ)) /
        (kShadingSteps : ℚ)) + t_min) = stepInputFloat ops t_min t_max i := by
    intro i
    unfold stepInputFloat kShadingSteps
    push_cast
    rfl
  induction count with
  | zero => intro i r k hk; omega
  | succ n ih =>
    intro i r k hk hr
    cases k with
    | zero =>
      simp only [shadingStepsLoop, hin, hr, List.getElem?_cons_zero, Nat.add_zero]
    | succ k =>
      simp only [shadingStepsLoop, hin, hr, List.getElem?_cons_succ]
      rw [ih (i + 1) _ k (by omega) (by rfl)]
      congr 3
      omega

/-- A pixel loop over a bitmap of a single pixel runs its body once. -/
theorem mapBitmap_single (body : Nat → Nat → Nat → Option Nat) (pix : Nat) :
    mapBitmap body 0 [[pix]] = (body 0 0 pix).map fun p => [[p]] := by
  unfold mapBitmap mapScanline mapBitmap mapScanline
  cases body 0 0 pix <;> rfl

/-- The sample function replaces the single value of the result array by its input. -/
theorem sample_callFunctions (t v : ℚ) :
    callFunctions [t] [some sampleFunction] [] [v] = [t] := by
  simp [callFunctions, sampleFunction]

/-- With the sample function the result array after entry `i` holds the input of
entry `i`. -/
theorem sample_stepResult (ops : FloatOps) (t_min t_max : ℚ) (i : Nat) :
    stepResult ops t_min t_max [some sampleFunction] 1 i = [stepInputFloat ops t_min t_max i] := by
  induction i with
  | zero =>
    unfold stepResult
    exact sample_callFunctions _ _
  | succ n ih =>
    unfold stepResult
    rw [ih]
    exact sample_callFunctions _ _

/-- In exact arithmetic the computed input is `t_min + (t_max - t_min) * i / 256`. -/
theorem stepInputFloat_exact (ops : FloatOps) (hexact : ∀ x, ops.toFloat x = x)
    (t_min t_max : ℚ) (i : Nat) :
    stepInputFloat ops t_min t_max i = stepInput t_min t_max i := by
  unfold stepInputFloat stepInput
  simp only [hexact]
  ring

/-- The sample step table on the domain `[0, 1]`: its last entry is the grey level 254
with alpha 255. -/
theorem sample_steps_last :
    ∃ steps : List Nat,
      GetShadingSteps sampleOps 0 1 [some sampleFunction] sampleColorSpace 255 1 = some steps ∧
      steps.getD 255 7 = 4294901502 := by
  refine ⟨shadingStepsLoop sampleOps 0 (sampleOps.toFloat (1 - 0)) [some sampleFunction]
    sampleColorSpace 255 kShadingSteps 0 (List.replicate 1 0), ?_, ?_⟩
  · unfold GetShadingSteps
    rw [if_neg (by decide), if_neg (by decide)]
  · have h := shadingStepsLoop_get sampleOps 0 1 [some sampleFunction] sampleColorSpace 255 1
      kShadingSteps 0 (List.replicate 1 0) 255 (by decide) (by rfl)
    rw [List.getD_eq_getElem?_getD, h, Nat.zero_add, sample_stepResult,
      stepInputFloat_exact sampleOps (fun _ => rfl)]
    have hr : round ((65025 : ℚ) / 256) = 254 := by
      norm_num [round_eq, Int.floor_eq_iff]
    simp only [Option.getD_some, stepColor, sampleColorSpace, sampleOps, stepInput,
      List.getD_cons_zero]
    norm_num [hr]
    rfl

/-- The sample function and colour space give one validated output. -/
theorem sample_outputs_count :
    GetValidatedOutputsCount [some sampleFunction] sampleColorSpace = 1 := by
  decide

/-- Evaluating `castInt32` at a non-negative value from its integer part. -/
theorem castInt32_eq_of_nonneg {f : ℚ} {n : Int} (h0 : 0 ≤ f) (hn : (n : ℚ) ≤ f)
    (hn' : f < (n : ℚ) + 1) (hr : inInt32 n) : castInt32 f = some n := by
  unfold castInt32
  have e : ⌊f⌋ = n := Int.floor_eq_iff.mpr ⟨hn, hn'⟩
  simp only [if_pos h0, e, if_pos hr]

/-- Evaluating `castInt32` at a non-positive value from its integer part. -/
theorem castInt32_eq_of_nonpos {f : ℚ} {n : Int} (h0 : f ≤ 0) (hn : f ≤ (n : ℚ))
    (hn' : (n : ℚ) - 1 < f) (hr : inInt32 n) : castInt32 f = some n := by
  unfold castInt32
  have e : ⌈f⌉ = n := Int.ceil_eq_iff.mpr ⟨hn', hn⟩
  rcases eq_or_lt_of_le h0 with h | h
  · subst h
    have : n = 0 := by
      have h1 : (n : ℚ) < 1 := by linarith
      have h2 : (0 : ℚ) ≤ n := hn
      have h1' : n < 1 := by exact_mod_cast h1
      have h2' : 0 ≤ n := by exact_mod_cast h2
      omega
    subst this
    simp [inInt32, kInt32Min, kInt32Max]
  · simp only [if_neg (not_le.mpr h), e, if_pos hr]

/-- Inside the 32-bit range `castInt32` is defined and is the truncation toward zero:
the integer between 0 and `f` that is less than 1 away from `f`. -/
theorem castInt32_truncates {f : ℚ} (hlo : -2147483648 ≤ f) (hhi : f < 2147483648) :
    ∃ n : Int, castInt32 f = some n ∧
      (0 ≤ f → (n : ℚ) ≤ f ∧ f < (n : ℚ) + 1) ∧
      (f ≤ 0 → f ≤ (n : ℚ) ∧ (n : ℚ) - 1 < f) := by
  rcases le_or_lt 0 f with h0 | h0
  · have h1 : (⌊f⌋ : ℚ) ≤ f := Int.floor_le f
    have h2 : f < (⌊f⌋ : ℚ) + 1 := Int.lt_floor_add_one f
    have h3 : (0 : Int) ≤ ⌊f⌋ := Int.floor_nonneg.mpr h0
    have h4 : ⌊f⌋ < 2147483648 := by
      rw [Int.floor_lt]; exact_mod_cast hhi
    refine ⟨⌊f⌋, castInt32_eq_of_nonneg h0 h1 h2 ?_, fun _ => ⟨h1, h2⟩, fun h => ?_⟩
    · unfold inInt32 kInt32Min kInt32Max; omega
    · have hf : f = 0 := le_antisymm h h0
      subst hf
      simp
  · have h1 : f ≤ (⌈f⌉ : ℚ) := Int.le_ceil f
    have h2 : (⌈f⌉ : ℚ) - 1 < f := by
      have := Int.ceil_lt_add_one f
      linarith
    have h3 : ⌈f⌉ ≤ 0 := Int.ceil_le.mpr (by exact_mod_cast le_of_lt h0)
    have h4 : (-2147483648 : Int) ≤ ⌈f⌉ := by
      have e : (((-2147483648 : Int) : ℚ)) ≤ (⌈f⌉ : ℚ) := by
        push_cast; linarith
      exact_mod_cast e
    refine ⟨⌈f⌉, castInt32_eq_of_nonpos (le_of_lt h0) h1 h2 ?_, fun h => ?_, fun _ => ⟨h1, h2⟩⟩
    · unfold inInt32 kInt32Min kInt32Max; omega
    · exact absurd h (not_le.mpr h0)

/-- C1 (as stated, refuted). On the axis from (0,0) to (510,0) the pixel at (511,0)
projects beyond the end point (`scale = 511/510 > 1`), yet with both `Extend` flags
false its index is 255 and it is assigned the last step-table colour: a one-pixel bitmap
that the matrix places at (511,0) is overwritten by `DrawAxialShading`. -/
theorem axial_beyond_end_is_painted :
    axialScale 0 0 510 0 260100 (511, 0) > 1 ∧
      axialPixel (List.range 256) false false 0 0 510 0 260100 (511, 0) 7 = some 255 ∧
      DrawAxialShading sampleOps [[7]] (fun p => (p.1 + 511, p.2))
          { Coords := some [0, 0, 510, 0], Domain := none, Extend := some [false, false] }
          [some sampleFunction] sampleColorSpace 255 = some [[4294901502]] := by
  have hidx : axialIndex 0 0 510 0 260100 (511, 0) = some 255 := by
    unfold axialIndex axialScale kShadingSteps
    rw [if_neg (by norm_num)]
    exact castInt32_eq_of_nonneg (by norm_num) (by norm_num) (by norm_num) (by decide)
  refine ⟨by norm_num [axialScale], ?_, ?_⟩
  · unfold axialPixel
    rw [hidx]
    decide
  · obtain ⟨steps, hs, hlast⟩ := sample_steps_last
    have e255 : Int.toNat 255 = 255 := rfl
    unfold DrawAxialShading
    simp only [sample_outputs_count, GetFloatAt, GetExtendAt]
    norm_num [hs, mapBitmap_single, axialPixel, hidx, shadePixel, kShadingSteps, e255,
      ← List.getD_eq_getElem?_getD, hlast]

/-- C1 (amended). In `DrawAxialShading`, a pixel whose scaled projection `scale * 255`
is at least 256 (that is `scale ≥ 256/255`) and still converts to a 32-bit integer
keeps its original buffer value when `Extend[1]` is false. -/
theorem axial_past_last_step_unmodified (shading_steps : List Nat) (bStartExtend : Bool)
    (start_x start_y x_span y_span axis_len_square : ℚ) (pos : ℚ × ℚ) (pix : Nat)
    (hlen : axis_len_square ≠ 0)
    (hscale : 256 ≤ axialScale start_x start_y x_span y_span axis_len_square pos * 255)
    (hfit : axialScale start_x start_y x_span y_span axis_len_square pos * 255 < 2147483648) :
    axialPixel shading_steps bStartExtend false start_x start_y x_span y_span axis_len_square
      pos pix = some pix := by
  have e255 : ((kShadingSteps : ℚ) - 1) = 255 := by norm_num [kShadingSteps]
  obtain ⟨n, hn, hpos, -⟩ := castInt32_truncates (f :=
    axialScale start_x start_y x_span y_span axis_len_square pos * 255) (by linarith) hfit
  have hb := hpos (by linarith)
  have hn256 : (256 : Int) ≤ n := by
    have : ((255 : Int) : ℚ) < (n : ℚ) := by push_cast; linarith
    have : (255 : Int) < n := by exact_mod_cast this
    omega
  unfold axialPixel axialIndex
  rw [if_neg hlen, e255, hn]
  simp only [Option.map_some']
  unfold shadePixel kShadingSteps
  rw [if_neg (by omega), if_pos (by push_cast; omega)]
  rfl

/-- Witness of the amended C1: the pixel at (512,0) on the axis from (0,0) to (510,0). -/
theorem axial_past_last_step_unmodified_witness :
    axialPixel (List.range 256) true false 0 0 510 0 260100 (512, 0) 7 = some 7 :=
  axial_past_last_step_unmodified (List.range 256) true 0 0 510 0 260100 (512, 0) 7
    (by norm_num) (by norm_num [axialScale]) (by norm_num [axialScale])

/-- C2 (as stated, refuted). On the axis from (0,0) to (340,0) the pixel at (1,0) has
`scale * 255 = 3/4`: its index is 0, while the nearest integer is 1. -/
theorem axial_index_is_not_rounded :
    axialIndex 0 0 340 0 115600 (1, 0) = some 0 ∧
      round (axialScale 0 0 340 0 115600 (1, 0) * 255) = 1 := by
  constructor
  · unfold axialIndex axialScale kShadingSteps
    rw [if_neg (by norm_num)]
    exact castInt32_eq_of_nonneg (by norm_num) (by norm_num) (by norm_num) (by decide)
  · norm_num [axialScale, round_eq, Int.floor_eq_iff]

/-- C2 (amended). In `DrawAxialShading`, on an axis of non-zero length and while
`scale * 255` is within the 32-bit range, the index computed before the `Extend` test
is `scale * 255` truncated toward zero: the integer `n` with `n ≤ scale * 255 < n + 1`
for a non-negative product and `n - 1 < scale * 255 ≤ n` for a non-positive one. -/
theorem axial_index_truncates (start_x start_y x_span y_span axis_len_square : ℚ)
    (pos : ℚ × ℚ) (hlen : axis_len_square ≠ 0)
    (hlo : -2147483648 ≤ axialScale start_x start_y x_span y_span axis_len_square pos * 255)
    (hhi : axialScale start_x start_y x_span y_span axis_len_square pos * 255 < 2147483648) :
    ∃ index : Int,
      axialIndex start_x start_y x_span y_span axis_len_square pos = some index ∧
      (0 ≤ axialScale start_x start_y x_span y_span axis_len_square pos * 255 →
        (index : ℚ) ≤ axialScale start_x start_y x_span y_span axis_len_square pos * 255 ∧
        axialScale start_x start_y x_span y_span axis_len_square pos * 255 < (index : ℚ) + 1) ∧
      (axialScale start_x start_y x_span y_span axis_len_square pos * 255 ≤ 0 →
        axialScale start_x start_y x_span y_span axis_len_square pos * 255 ≤ (index : ℚ) ∧
        (index : ℚ) - 1 < axialScale start_x start_y x_span y_span axis_len_square pos * 255) := by
  have e255 : ((kShadingSteps : ℚ) - 1) = 255 := by norm_num [kShadingSteps]
  unfold axialIndex
  rw [if_neg hlen, e255]
  exact castInt32_truncates hlo hhi

/-- Witness of the amended C2: the pixel at (1,0) on the axis from (0,0) to (340,0). -/
theorem axial_index_truncates_witness :
    ∃ index : Int,
      axialIndex 0 0 340 0 115600 (1, 0) = some index ∧
      (0 ≤ axialScale 0 0 340 0 115600 (1, 0) * 255 →
        (index : ℚ) ≤ axialScale 0 0 340 0 115600 (1, 0) * 255 ∧
        axialScale 0 0 340 0 115600 (1, 0) * 255 < (index : ℚ) + 1) ∧
      (axialScale 0 0 340 0 115600 (1, 0) * 255 ≤ 0 →
        axialScale 0 0 340 0 115600 (1, 0) * 255 ≤ (index : ℚ) ∧
        (index : ℚ) - 1 < axialScale 0 0 340 0 115600 (1, 0) * 255) :=
  axial_index_truncates 0 0 340 0 115600 (1, 0) (by norm_num) (by norm_num [axialScale])
    (by norm_num [axialScale])

/-! ## Radial shading -/

/-- The sample square root at 36. -/
theorem sqrtOnSquares_36 : sqrtOnSquares 36 = 6 := by
  have h : isqrtFrom 36 36 = 6 := by decide
  have h1 : isqrtFrom 1 1 = 1 := by decide
  simp [sqrtOnSquares, h, h1]

/-- C4 (as stated, refuted). Concentric circles shrinking from radius 2 to radius 1
(`a = -1`, decreasing), pixel at distance 3 from the centre (`b = 4`, `c = 5`, roots -1
and 5), start extendable: the smaller root -1 is out of range, and the code keeps it
instead of falling back to the larger root 5. -/
theorem radial_extended_start_keeps_smaller_root :
    min ((-4 - 6) / (2 * (-1) : ℚ)) ((-4 + 6) / (2 * (-1) : ℚ)) = -1 ∧
      max ((-4 - 6) / (2 * (-1) : ℚ)) ((-4 + 6) / (2 * (-1) : ℚ)) = 5 ∧
      radialRoot (-1) 4 6 true true false = -1 ∧
      radialParam sampleOps true true false 0 0 2 0 0 (-1) (-1) (3, 0) =
        RadialParam.value (-1) := by
  have hroot : radialRoot (-1) 4 6 true true false = -1 := by
    norm_num [radialRoot]
  refine ⟨by norm_num, by norm_num, hroot, ?_⟩
  unfold radialParam
  have e : ((4 : ℚ) * 4 - 4 * (-1 * (3 * 3 - 2 * 2))) = 36 := by norm_num
  norm_num [sampleOps, e, sqrtOnSquares_36, hroot]

/-- C4 (amended). In the general branch of `DrawRadialShading`, with the two roots
ordered `lo ≤ hi`: when the gradient is decreasing, `s` is the smaller root unless that
root is negative and the start is not extendable, in which case `s` is the larger
root; when it is not decreasing, `s` is the larger root unless that root exceeds 1 and
the end is not extendable, in which case `s` is the smaller root. -/
theorem radialRoot_choice (a b root : ℚ) (bDecreasing bStartExtend bEndExtend : Bool)
    (hroot : 0 ≤ root) :
    radialRoot a b root bDecreasing bStartExtend bEndExtend =
      if bDecreasing then
        if min ((-b - root) / (2 * a)) ((-b + root) / (2 * a)) < 0 ∧ bStartExtend = false then
          max ((-b - root) / (2 * a)) ((-b + root) / (2 * a))
        else min ((-b - root) / (2 * a)) ((-b + root) / (2 * a))
      else
        if 1 < max ((-b - root) / (2 * a)) ((-b + root) / (2 * a)) ∧ bEndExtend = false then
          min ((-b - root) / (2 * a)) ((-b + root) / (2 * a))
        else max ((-b - root) / (2 * a)) ((-b + root) / (2 * a)) := by
  have hnum : -b - root ≤ -b + root := by linarith
  rcases lt_or_le 0 a with ha | ha
  · have h12 : (-b - root) / (2 * a) ≤ (-b + root) / (2 * a) :=
      div_le_div_of_nonneg_right hnum (by linarith)
    rw [min_eq_left h12, max_eq_right h12]
    unfold radialRoot
    simp only [if_neg (not_le.mpr ha)]
    cases bDecreasing <;> cases bStartExtend <;> cases bEndExtend <;>
      simp only [Bool.false_eq_true, Bool.true_eq_false, or_false, or_true, and_true,
        and_false, if_true, if_false, ge_iff_le] <;>
      split_ifs <;> first | rfl | (exfalso; linarith)
  · have h21 : (-b + root) / (2 * a) ≤ (-b - root) / (2 * a) :=
      div_le_div_of_nonpos_of_le (by linarith) hnum
    rw [min_eq_right h21, max_eq_left h21]
    unfold radialRoot
    simp only [if_pos ha]
    cases bDecreasing <;> cases bStartExtend <;> cases bEndExtend <;>
      simp only [Bool.false_eq_true, Bool.true_eq_false, or_false, or_true, and_true,
        and_false, if_true, if_false, ge_iff_le] <;>
      split_ifs <;> first | rfl | (exfalso; linarith)

/-- Witness of the amended C4: the concentric shrinking circles of the refutation, with
the start not extendable, where the code does fall back to the larger root 5. -/
theorem radialRoot_choice_witness :
    radialRoot (-1) 4 6 true false false =
      if true then
        if min ((-4 - 6) / (2 * (-1) : ℚ)) ((-4 + 6) / (2 * (-1) : ℚ)) < 0 ∧ false = false then
          max ((-4 - 6) / (2 * (-1) : ℚ)) ((-4 + 6) / (2 * (-1) : ℚ))
        else min ((-4 - 6) / (2 * (-1) : ℚ)) ((-4 + 6) / (2 * (-1) : ℚ))
      else
        if 1 < max ((-4 - 6) / (2 * (-1) : ℚ)) ((-4 + 6) / (2 * (-1) : ℚ)) ∧ false = false then
          min ((-4 - 6) / (2 * (-1) : ℚ)) ((-4 + 6) / (2 * (-1) : ℚ))
        else max ((-4 - 6) / (2 * (-1) : ℚ)) ((-4 + 6) / (2 * (-1) : ℚ)) :=
  radialRoot_choice (-1) 4 6 true false false (by norm_num)

/-- In the general branch of `DrawRadialShading` a parameter with a negative
interpolated radius is not handed on: the pixel is skipped. -/
theorem radial_general_branch_skips_negative_radius (ops : FloatOps)
    (bDecreasing bStartExtend bEndExtend : Bool) (start_x start_y start_r dx dy dr a : ℚ)
    (pos : ℚ × ℚ) (s : ℚ)
    (hb : ops.IsFloatZero (-2 * ((pos.1 - start_x) * dx + (pos.2 - start_y) * dy +
      start_r * dr)) = false)
    (ha : ops.IsFloatZero a = false)
    (h : radialParam ops bDecreasing bStartExtend bEndExtend start_x start_y start_r dx dy dr a
      pos = RadialParam.value s) :
    0 ≤ start_r + s * dr := by
  unfold radialParam at h
  simp only [hb, ha, Bool.false_eq_true, if_false] at h
  split_ifs at h with h1 h2 h3
  · injection h with h'
    rw [← h']
    exact not_lt.mp h3

/-- The sample square root at 1. -/
theorem sqrtOnSquares_1 : sqrtOnSquares 1 = 1 := by
  have h1 : isqrtFrom 1 1 = 1 := by decide
  simp [sqrtOnSquares, h1]

/-- C5 (the code at the failing input). Start circle centre (0,0) radius 1, end circle
centre (1,0) radius 0, so `a = 0` and the `a`-near-zero branch computes `s`. For the
pixel at (3,0): `s = 2`, the interpolated radius `1 + 2 * (-1)` is negative, and with
the end extendable the pixel is not skipped but assigned the last step-table colour: a
one-pixel bitmap that the matrix places at (3,0) is overwritten by
`DrawRadialShading`. -/
theorem radial_linear_branch_paints_negative_radius :
    radialParam sampleOps false false true 0 0 1 1 0 (-1) 0 (3, 0) = RadialParam.value 2 ∧
      (1 : ℚ) + 2 * (-1) < 0 ∧
      radialPixel sampleOps (List.range 256) false false true 0 0 1 1 0 (-1) 0 (3, 0) 7 =
        some 255 ∧
      DrawRadialShading sampleOps [[7]] (fun p => (p.1 + 3, p.2))
          { Coords := some [0, 0, 1, 1, 0, 0], Domain := none, Extend := some [false, true] }
          [some sampleFunction] sampleColorSpace 255 = some [[4294901502]] := by
  have h : radialParam sampleOps false false true 0 0 1 1 0 (-1) 0 (3, 0) =
      RadialParam.value 2 := by
    unfold radialParam
    norm_num [sampleOps]
  have hc : castInt32 (2 * ((kShadingSteps : ℚ) - 1)) = some 510 := by
    unfold kShadingSteps
    exact castInt32_eq_of_nonneg (by norm_num) (by norm_num) (by norm_num) (by decide)
  refine ⟨h, by norm_num, ?_, ?_⟩
  · unfold radialPixel
    rw [h]
    simp only [hc, Option.map_some']
    decide
  · obtain ⟨steps, hs, hlast⟩ := sample_steps_last
    have hdec : radialDecreasing sampleOps 1 0 (-1) = some false := by
      have h1 : castInt32 1 = some 1 :=
        castInt32_eq_of_nonneg (by norm_num) (by norm_num) (by norm_num) (by decide)
      unfold radialDecreasing
      norm_num [sampleOps, sqrtOnSquares_1, h1]
    have hc510 : castInt32 510 = some 510 :=
      castInt32_eq_of_nonneg (by norm_num) (by norm_num) (by norm_num) (by decide)
    unfold DrawRadialShading
    simp only [sample_outputs_count, GetFloatAt, GetExtendAt]
    norm_num [hs, mapBitmap_single, radialPixel, shadePixel, kShadingSteps,
      ← List.getD_eq_getElem?_getD, hlast]
    rw [hdec]
    simp only [Option.some_bind, h]
    norm_num [hc510]

/-! ## `PatchDrawer::Draw`: one call -/

/-- A call whose colour computation overflowed yields only the overflow marker. -/
theorem DrawWith_abort (small : SmallTest)
    (colors : PatchColors) (fuel : Nat) (x_scale y_scale left bottom : Int)
    (C1 C2 D1 D2 : CoonBezier)
    (h : drawAction colors (small x_scale y_scale left bottom C1 C2 D1 D2) x_scale y_scale
      left bottom = DrawAction.abort) :
    DrawWith small colors (fuel + 1) x_scale y_scale left bottom C1 C2 D1 D2 =
      some [DrawEvent.overflow] := by
  rw [DrawWith]; beta_reduce; rw [h]; rfl

/-- A terminal call issues one fill. -/
theorem DrawWith_fill (small : SmallTest)
    (colors : PatchColors) (fuel : Nat) (x_scale y_scale left bottom : Int)
    (C1 C2 D1 D2 : CoonBezier) (color : CoonColor)
    (h : drawAction colors (small x_scale y_scale left bottom C1 C2 D1 D2) x_scale y_scale
      left bottom =
      DrawAction.fill color) :
    DrawWith small colors (fuel + 1) x_scale y_scale left bottom C1 C2 D1 D2 =
      some [DrawEvent.fill color (pathPoints C1 C2 D1 D2)] := by
  rw [DrawWith]; beta_reduce; rw [h]; rfl

/-- A call that splits along x makes two recursive calls. -/
theorem DrawWith_splitX (small : SmallTest)
    (colors : PatchColors) (fuel : Nat) (x_scale y_scale left bottom : Int)
    (C1 C2 D1 D2 : CoonBezier)
    (h : drawAction colors (small x_scale y_scale left bottom C1 C2 D1 D2) x_scale y_scale
      left bottom =
      DrawAction.splitX) :
    DrawWith small colors (fuel + 1) x_scale y_scale left bottom C1 C2 D1 D2 =
      (DrawWith small colors fuel (x_scale * 2) y_scale (left * 2) bottom C1.first_half
        C2.first_half D1 (CoonBezier.InitFromBezierInterpolation C1 C2 D1 D2)).bind fun e1 =>
      (DrawWith small colors fuel (x_scale * 2) y_scale (left * 2 + 1) bottom C1.second_half
        C2.second_half (CoonBezier.InitFromBezierInterpolation C1 C2 D1 D2) D2).bind fun e2 =>
      some (e1 ++ e2) := by
  rw [DrawWith]; beta_reduce; rw [h]; rfl

/-- A call that splits along y makes two recursive calls. -/
theorem DrawWith_splitY (small : SmallTest)
    (colors : PatchColors) (fuel : Nat) (x_scale y_scale left bottom : Int)
    (C1 C2 D1 D2 : CoonBezier)
    (h : drawAction colors (small x_scale y_scale left bottom C1 C2 D1 D2) x_scale y_scale
      left bottom =
      DrawAction.splitY) :
    DrawWith small colors (fuel + 1) x_scale y_scale left bottom C1 C2 D1 D2 =
      (DrawWith small colors fuel x_scale (y_scale * 2) left (bottom * 2) C1
        (CoonBezier.InitFromBezierInterpolation D1 D2 C1 C2) D1.first_half
        D2.first_half).bind fun e1 =>
      (DrawWith small colors fuel x_scale (y_scale * 2) left (bottom * 2 + 1)
        (CoonBezier.InitFromBezierInterpolation D1 D2 C1 C2) C2 D1.second_half
        D2.second_half).bind fun e2 =>
      some (e1 ++ e2) := by
  rw [DrawWith]; beta_reduce; rw [h]; rfl

/-- A call that splits along both axes makes four recursive calls. -/
theorem DrawWith_splitBoth (small : SmallTest)
    (colors : PatchColors) (fuel : Nat) (x_scale y_scale left bottom : Int)
    (C1 C2 D1 D2 : CoonBezier)
    (h : drawAction colors (small x_scale y_scale left bottom C1 C2 D1 D2) x_scale y_scale
      left bottom =
      DrawAction.splitBoth) :
    DrawWith small colors (fuel + 1) x_scale y_scale left bottom C1 C2 D1 D2 =
      (DrawWith small colors fuel (x_scale * 2) (y_scale * 2) (left * 2) (bottom * 2)
        C1.first_half (CoonBezier.InitFromBezierInterpolation D1 D2 C1 C2).first_half
        D1.first_half (CoonBezier.InitFromBezierInterpolation C1 C2 D1 D2).first_half).bind
        fun e1 =>
      (DrawWith small colors fuel (x_scale * 2) (y_scale * 2) (left * 2) (bottom * 2 + 1)
        (CoonBezier.InitFromBezierInterpolation D1 D2 C1 C2).first_half C2.first_half
        D1.second_half (CoonBezier.InitFromBezierInterpolation C1 C2 D1 D2).second_half).bind
        fun e2 =>
      (DrawWith small colors fuel (x_scale * 2) (y_scale * 2) (left * 2 + 1) (bottom * 2)
        C1.second_half (CoonBezier.InitFromBezierInterpolation D1 D2 C1 C2).second_half
        (CoonBezier.InitFromBezierInterpolation C1 C2 D1 D2).first_half D2.first_half).bind
        fun e3 =>
      (DrawWith small colors fuel (x_scale * 2) (y_scale * 2) (left * 2 + 1) (bottom * 2 + 1)
        (CoonBezier.InitFromBezierInterpolation D1 D2 C1 C2).second_half C2.second_half
        (CoonBezier.InitFromBezierInterpolation C1 C2 D1 D2).second_half D2.second_half).bind
        fun e4 =>
      some (e1 ++ e2 ++ e3 ++ e4) := by
  rw [DrawWith]; beta_reduce; rw [h]; rfl

/-- The branch taken by a call none of whose four colour computations overflows. -/
theorem drawAction_of_success (colors : PatchColors) (small : Bool)
    (x_scale y_scale left bottom : Int)
    (h0 : (BiInterpol colors left bottom x_scale y_scale).2 = true)
    (h1 : (BiInterpol colors left (bottom + 1) x_scale y_scale).2 = true)
    (h2 : (BiInterpol colors (left + 1) (bottom + 1) x_scale y_scale).2 = true)
    (h3 : (BiInterpol colors (left + 1) bottom x_scale y_scale).2 = true) :
    drawAction colors small x_scale y_scale left bottom =
      if small = true ∨ (edgeBottom colors x_scale y_scale left bottom < 4 ∧
          edgeLeft colors x_scale y_scale left bottom < 4 ∧
          edgeTop colors x_scale y_scale left bottom < 4 ∧
          edgeRight colors x_scale y_scale left bottom < 4) then
        DrawAction.fill (BiInterpol colors left bottom x_scale y_scale).1
      else if edgeBottom colors x_scale y_scale left bottom < 4 ∧
          edgeTop colors x_scale y_scale left bottom < 4 then DrawAction.splitY
      else if edgeLeft colors x_scale y_scale left bottom < 4 ∧
          edgeRight colors x_scale y_scale left bottom < 4 then DrawAction.splitX
      else DrawAction.splitBoth := by
  unfold drawAction edgeBottom edgeLeft edgeTop edgeRight kCoonColorThreshold
  simp only [h0, h1, h2, h3, Bool.not_true, Bool.false_eq_true, if_false]
  cases small
  · simp only [Bool.false_eq_true, if_false, false_or]
  · simp only [if_true, true_or]

/-- The root call on the stretched patch is not small. -/
theorem stretched_root_not_small :
    bSmall stretchedC1 stretchedC2 stretchedD1 stretchedD2 = false := by
  norm_num [bSmall, stretchedC1, stretchedC2, stretchedD1, stretchedD2, CoonBezier.Distance,
    CoonBezierCoeff.Distance, CoonBezier.InitFromPoints, CoonBezierCoeff.InitFromPoints]

/-- The first half of the stretched patch is small. -/
theorem stretched_first_half_small :
    bSmall stretchedC1.first_half stretchedC2.first_half stretchedD1
      (CoonBezier.InitFromBezierInterpolation stretchedC1 stretchedC2 stretchedD1
        stretchedD2) = true := by
  norm_num [bSmall, stretchedC1, stretchedC2, stretchedD1, stretchedD2, CoonBezier.Distance,
    CoonBezierCoeff.Distance, CoonBezier.InitFromPoints, CoonBezierCoeff.InitFromPoints,
    CoonBezier.first_half, CoonBezierCoeff.first_half, CoonBezier.InitFromBezierInterpolation,
    CoonBezierCoeff.InitFromBezierInterpolation]

/-- The second half of the stretched patch is not small. -/
theorem stretched_second_half_not_small :
    bSmall stretchedC1.second_half stretchedC2.second_half
      (CoonBezier.InitFromBezierInterpolation stretchedC1 stretchedC2 stretchedD1
        stretchedD2) stretchedD2 = false := by
  norm_num [bSmall, stretchedC1, stretchedC2, stretchedD1, stretchedD2, CoonBezier.Distance,
    CoonBezierCoeff.Distance, CoonBezier.InitFromPoints, CoonBezierCoeff.InitFromPoints,
    CoonBezier.second_half, CoonBezierCoeff.second_half,
    CoonBezier.InitFromBezierInterpolation, CoonBezierCoeff.InitFromBezierInterpolation]

/-- The unit square is small. -/
theorem unit_square_small : bSmall unitC1 unitC2 unitD1 unitD2 = true := by
  norm_num [bSmall, unitC1, unitC2, unitD1, unitD2, CoonBezier.Distance,
    CoonBezierCoeff.Distance, CoonBezier.InitFromPoints, CoonBezierCoeff.InitFromPoints]

/-- C7 (as stated, refuted). For the stretched patch with a channel running from 0 to
2^30, `Draw(1,1,0,0,...)` splits along x; the call for the first half issues a fill, and
the call for the second half then meets an overflow in `BiInterpol` (at x = 2 of 2) and
returns: an overflow was reported and yet a fill was rendered for the patch. -/
theorem draw_overflow_after_fill :
    Draw steepColors 2 1 1 0 0 stretchedC1 stretchedC2 stretchedD1 stretchedD2 =
        some [DrawEvent.fill ⟨0, 0, 0⟩
            (pathPoints stretchedC1.first_half stretchedC2.first_half stretchedD1
              (CoonBezier.InitFromBezierInterpolation stretchedC1 stretchedC2 stretchedD1
                stretchedD2)),
          DrawEvent.overflow] ∧
      (BiInterpol steepColors 2 1 2 1).2 = false := by
  constructor
  · unfold Draw
    rw [DrawWith_splitX (fun _ _ _ _ => bSmall) steepColors 1 1 1 0 0 _ _ _ _
      (by beta_reduce; rw [stretched_root_not_small]; decide)]
    rw [DrawWith_fill (fun _ _ _ _ => bSmall) steepColors 0 (1 * 2) 1 (0 * 2) 0 _ _ _ _ ⟨0, 0, 0⟩
      (by beta_reduce; rw [stretched_first_half_small]; decide)]
    rw [DrawWith_abort (fun _ _ _ _ => bSmall) steepColors 0 (1 * 2) 1 (0 * 2 + 1) 0 _ _ _ _
      (by beta_reduce; rw [stretched_second_half_not_small]; decide)]
    rfl
  · decide

/-- C7 (amended). If a `BiInterpol` call made by a call of `PatchDrawer::Draw` itself
reports overflow (the one for `div_colors[0]`, or for a patch that is not small one of
the other three), then that call issues no `DrawPath` fill and makes no recursive call:
all it leaves is the overflow return. -/
theorem draw_call_overflow_renders_nothing
    (small : SmallTest)
    (colors : PatchColors) (fuel : Nat) (x_scale y_scale left bottom : Int)
    (C1 C2 D1 D2 : CoonBezier)
    (h : (BiInterpol colors left bottom x_scale y_scale).2 = false ∨
      (small x_scale y_scale left bottom C1 C2 D1 D2 = false ∧
        ((BiInterpol colors left (bottom + 1) x_scale y_scale).2 = false ∨
          (BiInterpol colors (left + 1) (bottom + 1) x_scale y_scale).2 = false ∨
          (BiInterpol colors (left + 1) bottom x_scale y_scale).2 = false))) :
    DrawWith small colors (fuel + 1) x_scale y_scale left bottom C1 C2 D1 D2 =
      some [DrawEvent.overflow] := by
  apply DrawWith_abort
  unfold drawAction
  rcases h with h | ⟨hs, h⟩
  · simp [h]
  · rw [hs]
    cases h0 : (BiInterpol colors left bottom x_scale y_scale).2
    · simp [h0]
    · cases h1 : (BiInterpol colors left (bottom + 1) x_scale y_scale).2
      · simp [h0, h1]
      · cases h2 : (BiInterpol colors (left + 1) (bottom + 1) x_scale y_scale).2
        · simp [h0, h1, h2]
        · cases h3 : (BiInterpol colors (left + 1) bottom x_scale y_scale).2
          · simp [h0, h1, h2, h3]
          · rw [h1, h2, h3] at h
            simp at h

/-- Witness of the amended C7: the second half of the stretched patch. -/
theorem draw_call_overflow_renders_nothing_witness :
    DrawWith (fun _ _ _ _ => bSmall) steepColors (0 + 1) 2 1 1 0 stretchedC1.second_half
        stretchedC2.second_half
        (CoonBezier.InitFromBezierInterpolation stretchedC1 stretchedC2 stretchedD1
          stretchedD2) stretchedD2 =
      some [DrawEvent.overflow] :=
  draw_call_overflow_renders_nothing (fun _ _ _ _ => bSmall) steepColors 0 2 1 1 0 _ _ _ _
    (Or.inr ⟨stretched_second_half_not_small, Or.inr (Or.inl (by decide))⟩)

/-- C10 (as stated, refuted). The unit-square patch with corner colours black, white,
white, white is small, so the root call fills it: the colour passed to `DrawPath` is
black (0,0,0), while the average of the four corner colours is 191.25 per channel. -/
theorem terminal_fill_is_not_corner_average :
    Draw cornerColors 1 1 1 0 0 unitC1 unitC2 unitD1 unitD2 =
        some [DrawEvent.fill ⟨0, 0, 0⟩ (pathPoints unitC1 unitC2 unitD1 unitD2)] ∧
      cornerAverage cornerColors 1 1 0 0 = (765 / 4, 765 / 4, 765 / 4) := by
  constructor
  · unfold Draw
    rw [DrawWith_fill (fun _ _ _ _ => bSmall) cornerColors 0 1 1 0 0 _ _ _ _ ⟨0, 0, 0⟩
      (by beta_reduce; rw [unit_square_small]; decide)]
  · have e0 : BiInterpol cornerColors 0 0 1 1 = (⟨0, 0, 0⟩, true) := by decide
    have e1 : BiInterpol cornerColors 0 (0 + 1) 1 1 = (⟨255, 255, 255⟩, true) := by decide
    have e2 : BiInterpol cornerColors (0 + 1) (0 + 1) 1 1 = (⟨255, 255, 255⟩, true) := by
      decide
    have e3 : BiInterpol cornerColors (0 + 1) 0 1 1 = (⟨255, 255, 255⟩, true) := by decide
    unfold cornerAverage
    rw [e0, e1, e2, e3]
    norm_num

/-- C10 (amended). Every terminal sub-patch in `PatchDrawer::Draw` is filled with the
bilinear colour at its corner (left, bottom), that is `div_colors[0]`: whenever a call
fills, the colour passed to `DrawPath` is `BiInterpol(patch_colors, left, bottom,
x_scale, y_scale)` and the fill is all the call does. -/
theorem terminal_fill_is_first_corner
    (small : SmallTest)
    (colors : PatchColors) (fuel : Nat) (x_scale y_scale left bottom : Int)
    (C1 C2 D1 D2 : CoonBezier) (color : CoonColor)
    (h : drawAction colors (small x_scale y_scale left bottom C1 C2 D1 D2) x_scale y_scale
      left bottom =
      DrawAction.fill color) :
    color = (BiInterpol colors left bottom x_scale y_scale).1 ∧
      DrawWith small colors (fuel + 1) x_scale y_scale left bottom C1 C2 D1 D2 =
        some [DrawEvent.fill (BiInterpol colors left bottom x_scale y_scale).1
          (pathPoints C1 C2 D1 D2)] := by
  have hc : color = (BiInterpol colors left bottom x_scale y_scale).1 := by
    unfold drawAction at h
    simp only at h
    split_ifs at h <;> (injection h with h'; exact h'.symm)
  refine ⟨hc, ?_⟩
  rw [DrawWith_fill small colors fuel x_scale y_scale left bottom C1 C2 D1 D2 color h, hc]

/-- Witness of the amended C10: the unit-square patch. -/
theorem terminal_fill_is_first_corner_witness :
    (⟨0, 0, 0⟩ : CoonColor) = (BiInterpol cornerColors 0 0 1 1).1 ∧
      DrawWith (fun _ _ _ _ => bSmall) cornerColors (0 + 1) 1 1 0 0 unitC1 unitC2 unitD1 unitD2 =
        some [DrawEvent.fill (BiInterpol cornerColors 0 0 1 1).1
          (pathPoints unitC1 unitC2 unitD1 unitD2)] :=
  terminal_fill_is_first_corner (fun _ _ _ _ => bSmall) cornerColors 0 1 1 0 0 unitC1 unitC2
    unitD1 unitD2
    ⟨0, 0, 0⟩ (by beta_reduce; rw [unit_square_small]; decide)

/-! ## `PatchDrawer::Draw`: termination for byte-range colours -/

/-- An interpolated value lies between its two end values. -/
theorem lerp_mem {lo hi p1 p2 d1 d2 : Int} (h1 : lo ≤ p1 ∧ p1 ≤ hi) (h2 : lo ≤ p2 ∧ p2 ≤ hi)
    (hd1 : 0 ≤ d1) (hd12 : d1 ≤ d2) (hd2 : 0 < d2) :
    lo ≤ lerp p1 p2 d1 d2 ∧ lerp p1 p2 d1 d2 ≤ hi := by
  unfold lerp
  rcases le_or_lt p1 p2 with h | h
  · have ha : 0 ≤ (p2 - p1) * d1 := Int.mul_nonneg (by omega) hd1
    have hq0 : 0 ≤ Int.tdiv ((p2 - p1) * d1) d2 := Int.tdiv_nonneg ha (le_of_lt hd2)
    have hle : (p2 - p1) * d1 ≤ (p2 - p1) * d2 :=
      Int.mul_le_mul_of_nonneg_left hd12 (by omega)
    have hq := tdiv_le_add (a := 0) (c := (p2 - p1) * d1) (k := p2 - p1) hd2 (by omega)
      (by omega)
    simp only [Int.zero_tdiv] at hq
    omega
  · have ha : (p2 - p1) * d1 ≤ 0 := Int.mul_nonpos_of_nonpos_of_nonneg (by omega) hd1
    have hq0 := tdiv_nonpos_of_nonpos ha hd2
    have hle : (p1 - p2) * d1 ≤ (p1 - p2) * d2 :=
      Int.mul_le_mul_of_nonneg_left hd12 (by omega)
    have e : (p2 - p1) * d1 = -((p1 - p2) * d1) := by ring
    have hq := tdiv_le_add (a := (p2 - p1) * d1) (c := 0) (k := p1 - p2) hd2 (by omega)
      (by omega)
    simp only [Int.zero_tdiv] at hq
    omega

/-- With byte-range end values and scales up to 256 `Interpolate` does not overflow. -/
theorem Interpolate_eq_lerp {p1 p2 d1 d2 : Int} (overflow : Bool)
    (h1 : 0 ≤ p1 ∧ p1 ≤ 255) (h2 : 0 ≤ p2 ∧ p2 ≤ 255)
    (hd1 : 0 ≤ d1) (hd12 : d1 ≤ d2) (hd2 : 0 < d2) (hd2' : d2 ≤ 256) :
    Interpolate p1 p2 d1 d2 overflow = (lerp p1 p2 d1 d2, overflow) := by
  have hm := lerp_mem h1 h2 hd1 hd12 hd2
  unfold lerp at hm
  have hprod : -65280 ≤ (p2 - p1) * d1 ∧ (p2 - p1) * d1 ≤ 65280 := by
    constructor <;> nlinarith
  have hrep : interpolateRepresentable p1 p2 d1 d2 := by
    unfold interpolateRepresentable inInt32 kInt32Min kInt32Max
    refine ⟨by omega, by omega, by omega, by omega, by omega⟩
  unfold Interpolate
  rw [interpolateChecked_eq, if_pos hrep]
  rfl

/-- One more step of the numerator moves an interpolated value by at most 1 when
its two end values are no further apart than the denominator. -/
theorem lerp_step_delta {p1 p2 d1 d2 : Int} (hd2 : 0 < d2) (h : p2 - p1 ≤ d2)
    (h' : p1 - p2 ≤ d2) :
    lerp p1 p2 (d1 + 1) d2 - lerp p1 p2 d1 d2 ≤ 1 ∧
      -1 ≤ lerp p1 p2 (d1 + 1) d2 - lerp p1 p2 d1 d2 := by
  unfold lerp
  have e : (p2 - p1) * (d1 + 1) = (p2 - p1) * d1 + (p2 - p1) := by ring
  have q1 := tdiv_le_add (a := (p2 - p1) * d1) (c := (p2 - p1) * (d1 + 1)) (k := 1) hd2
    (by omega) (by omega)
  have q2 := tdiv_le_add (a := (p2 - p1) * (d1 + 1)) (c := (p2 - p1) * d1) (k := 1) hd2
    (by omega) (by omega)
  omega

/-- Moving each end value by at most 1 moves an interpolated value by at most 3. -/
theorem lerp_step_ends {p1 p2 p1' p2' y ys : Int} (hys : 0 < ys) (hy0 : 0 ≤ y) (hy : y ≤ ys)
    (h1 : p1' - p1 ≤ 1 ∧ -1 ≤ p1' - p1) (h2 : p2' - p2 ≤ 1 ∧ -1 ≤ p2' - p2) :
    lerp p1' p2' y ys - lerp p1 p2 y ys ≤ 3 ∧ -3 ≤ lerp p1' p2' y ys - lerp p1 p2 y ys := by
  unfold lerp
  have hu : (p2' - p1') * y ≤ (p2 - p1) * y + 2 * ys := by nlinarith
  have hl : (p2 - p1) * y ≤ (p2' - p1') * y + 2 * ys := by nlinarith
  have q1 := tdiv_le_add (a := (p2 - p1) * y) (c := (p2' - p1') * y) (k := 2) hys
    (by omega) (by omega)
  have q2 := tdiv_le_add (a := (p2' - p1') * y) (c := (p2 - p1) * y) (k := 2) hys
    (by omega) (by omega)
  omega

/-- A bilinear value of byte-range corner values is in the byte range. -/
theorem bilerp_mem {c0 c1 c2 c3 x y xs ys : Int}
    (h0 : 0 ≤ c0 ∧ c0 ≤ 255) (h1 : 0 ≤ c1 ∧ c1 ≤ 255) (h2 : 0 ≤ c2 ∧ c2 ≤ 255)
    (h3 : 0 ≤ c3 ∧ c3 ≤ 255) (hx0 : 0 ≤ x) (hx : x ≤ xs) (hxs : 0 < xs)
    (hy0 : 0 ≤ y) (hy : y ≤ ys) (hys : 0 < ys) :
    0 ≤ bilerp c0 c1 c2 c3 x y xs ys ∧ bilerp c0 c1 c2 c3 x y xs ys ≤ 255 := by
  unfold bilerp
  exact lerp_mem (lerp_mem h0 h3 hx0 hx hxs) (lerp_mem h1 h2 hx0 hx hxs) hy0 hy hys

/-- At `x_scale ≥ 255` one step in x moves a bilinear value by at most 3. -/
theorem bilerp_step_x {c0 c1 c2 c3 x y u v : Int}
    (h0 : 0 ≤ c0 ∧ c0 ≤ 255) (h1 : 0 ≤ c1 ∧ c1 ≤ 255) (h2 : 0 ≤ c2 ∧ c2 ≤ 255)
    (h3 : 0 ≤ c3 ∧ c3 ≤ 255) (hu : 255 ≤ u)
    (hy0 : 0 ≤ y) (hy : y ≤ v) (hv : 0 < v) :
    bilerp c0 c1 c2 c3 (x + 1) y u v - bilerp c0 c1 c2 c3 x y u v ≤ 3 ∧
      -3 ≤ bilerp c0 c1 c2 c3 (x + 1) y u v - bilerp c0 c1 c2 c3 x y u v := by
  unfold bilerp
  exact lerp_step_ends hv hy0 hy
    (lerp_step_delta (by omega) (by omega) (by omega))
    (lerp_step_delta (by omega) (by omega) (by omega))

/-- At `y_scale ≥ 255` one step in y moves a bilinear value by at most 1. -/
theorem bilerp_step_y {c0 c1 c2 c3 x y u v : Int}
    (h0 : 0 ≤ c0 ∧ c0 ≤ 255) (h1 : 0 ≤ c1 ∧ c1 ≤ 255) (h2 : 0 ≤ c2 ∧ c2 ≤ 255)
    (h3 : 0 ≤ c3 ∧ c3 ≤ 255) (hx0 : 0 ≤ x) (hx : x ≤ u) (hu : 0 < u) (hv : 255 ≤ v) :
    bilerp c0 c1 c2 c3 x (y + 1) u v - bilerp c0 c1 c2 c3 x y u v ≤ 1 ∧
      -1 ≤ bilerp c0 c1 c2 c3 x (y + 1) u v - bilerp c0 c1 c2 c3 x y u v := by
  unfold bilerp
  have m1 := lerp_mem h0 h3 hx0 hx hu
  have m2 := lerp_mem h1 h2 hx0 hx hu
  exact lerp_step_delta (by omega) (by omega) (by omega)

/-- With byte-range corner values and scales up to 256 `BiInterpolImpl` does not
overflow. -/
theorem BiInterpolImpl_eq_bilerp {c0 c1 c2 c3 x y xs ys : Int} (overflow : Bool)
    (h0 : 0 ≤ c0 ∧ c0 ≤ 255) (h1 : 0 ≤ c1 ∧ c1 ≤ 255) (h2 : 0 ≤ c2 ∧ c2 ≤ 255)
    (h3 : 0 ≤ c3 ∧ c3 ≤ 255) (hx0 : 0 ≤ x) (hx : x ≤ xs) (hxs : 0 < xs) (hxs' : xs ≤ 256)
    (hy0 : 0 ≤ y) (hy : y ≤ ys) (hys : 0 < ys) (hys' : ys ≤ 256) :
    BiInterpolImpl c0 c1 c2 c3 x y xs ys overflow = (bilerp c0 c1 c2 c3 x y xs ys, overflow) := by
  unfold BiInterpolImpl bilerp
  simp only [Interpolate_eq_lerp _ h0 h3 hx0 hx hxs hxs',
    Interpolate_eq_lerp _ h1 h2 hx0 hx hxs hxs']
  exact Interpolate_eq_lerp _ (lerp_mem h0 h3 hx0 hx hxs) (lerp_mem h1 h2 hx0 hx hxs) hy0 hy
    hys hys'

/-- With byte-range corner colours and scales up to 256 `BiInterpol` succeeds. -/
theorem BiInterpol_eq_bilinearColor {colors : PatchColors} {x y u v : Int}
    (hc : colors.inByteRange) (hx0 : 0 ≤ x) (hx : x ≤ u) (hu : 0 < u) (hu' : u ≤ 256)
    (hy0 : 0 ≤ y) (hy : y ≤ v) (hv : 0 < v) (hv' : v ≤ 256) :
    BiInterpol colors x y u v = (bilinearColor colors x y u v, true) := by
  obtain ⟨⟨a0, a1, a2⟩, ⟨b0, b1, b2⟩, ⟨c0, c1, c2⟩, ⟨d0, d1, d2⟩⟩ := hc
  unfold BiInterpol bilinearColor
  simp only [BiInterpolImpl_eq_bilerp _ a0 b0 c0 d0 hx0 hx hu hu' hy0 hy hv hv',
    BiInterpolImpl_eq_bilerp _ a1 b1 c1 d1 hx0 hx hu hu' hy0 hy hv hv',
    BiInterpolImpl_eq_bilerp _ a2 b2 c2 d2 hx0 hx hu hu' hy0 hy hv hv', Bool.not_false]

/-- Colours whose components differ by at most 3 are closer than the threshold. -/
theorem Distance_lt_four {c o : CoonColor}
    (h0 : c.comp0 - o.comp0 ≤ 3 ∧ -3 ≤ c.comp0 - o.comp0)
    (h1 : c.comp1 - o.comp1 ≤ 3 ∧ -3 ≤ c.comp1 - o.comp1)
    (h2 : c.comp2 - o.comp2 ≤ 3 ∧ -3 ≤ c.comp2 - o.comp2) :
    c.Distance o < 4 := by
  unfold CoonColor.Distance
  have a0 : |c.comp0 - o.comp0| ≤ 3 := abs_le.mpr ⟨h0.2, h0.1⟩
  have a1 : |c.comp1 - o.comp1| ≤ 3 := abs_le.mpr ⟨h1.2, h1.1⟩
  have a2 : |c.comp2 - o.comp2| ≤ 3 := abs_le.mpr ⟨h2.2, h2.1⟩
  have : max (max |c.comp0 - o.comp0| |c.comp1 - o.comp1|) |c.comp2 - o.comp2| ≤ 3 :=
    max_le (max_le a0 a1) a2
  omega

/-- At `x_scale = 256` the colour differences along the bottom and the top edge are
below the threshold. -/
theorem edges_x_converged {colors : PatchColors} {left bottom ys : Int}
    (hc : colors.inByteRange) (hl0 : 0 ≤ left) (hl : left < 256)
    (hb0 : 0 ≤ bottom) (hb : bottom < ys) (hys' : ys ≤ 256) :
    edgeBottom colors 256 ys left bottom < 4 ∧ edgeTop colors 256 ys left bottom < 4 := by
  have hys : 0 < ys := by omega
  unfold edgeBottom edgeTop
  rw [BiInterpol_eq_bilinearColor hc (x := left + 1) (y := bottom) (by omega) (by omega)
      (by omega) (by omega) hb0 (by omega) hys hys',
    BiInterpol_eq_bilinearColor hc (x := left) (y := bottom) hl0 (by omega)
      (by omega) (by omega) hb0 (by omega) hys hys',
    BiInterpol_eq_bilinearColor hc (x := left) (y := bottom + 1) hl0 (by omega)
      (by omega) (by omega) (by omega) (by omega) hys hys',
    BiInterpol_eq_bilinearColor hc (x := left + 1) (y := bottom + 1) (by omega) (by omega)
      (by omega) (by omega) (by omega) (by omega) hys hys']
  obtain ⟨⟨a0, a1, a2⟩, ⟨b0, b1, b2⟩, ⟨c0, c1, c2⟩, ⟨d0, d1, d2⟩⟩ := hc
  constructor
  · apply Distance_lt_four <;> unfold bilinearColor <;> simp only
    · exact bilerp_step_x a0 b0 c0 d0 (by omega) hb0 (by omega) hys
    · exact bilerp_step_x a1 b1 c1 d1 (by omega) hb0 (by omega) hys
    · exact bilerp_step_x a2 b2 c2 d2 (by omega) hb0 (by omega) hys
  · apply Distance_lt_four <;> unfold bilinearColor <;> simp only
    · have := bilerp_step_x (x := left) (y := bottom + 1) a0 b0 c0 d0 (u := 256) (by omega)
        (by omega) (by omega) hys
      omega
    · have := bilerp_step_x (x := left) (y := bottom + 1) a1 b1 c1 d1 (u := 256) (by omega)
        (by omega) (by omega) hys
      omega
    · have := bilerp_step_x (x := left) (y := bottom + 1) a2 b2 c2 d2 (u := 256) (by omega)
        (by omega) (by omega) hys
      omega

/-- At `y_scale = 256` the colour differences along the left and the right edge are
below the threshold. -/
theorem edges_y_converged {colors : PatchColors} {left bottom xs : Int}
    (hc : colors.inByteRange) (hl0 : 0 ≤ left) (hl : left < xs) (hxs' : xs ≤ 256)
    (hb0 : 0 ≤ bottom) (hb : bottom < 256) :
    edgeLeft colors xs 256 left bottom < 4 ∧ edgeRight colors xs 256 left bottom < 4 := by
  have hxs : 0 < xs := by omega
  unfold edgeLeft edgeRight
  rw [BiInterpol_eq_bilinearColor hc (x := left + 1) (y := bottom) (by omega) (by omega)
      hxs hxs' hb0 (by omega) (by omega) (by omega),
    BiInterpol_eq_bilinearColor hc (x := left) (y := bottom) hl0 (by omega)
      hxs hxs' hb0 (by omega) (by omega) (by omega),
    BiInterpol_eq_bilinearColor hc (x := left) (y := bottom + 1) hl0 (by omega)
      hxs hxs' (by omega) (by omega) (by omega) (by omega),
    BiInterpol_eq_bilinearColor hc (x := left + 1) (y := bottom + 1) (by omega) (by omega)
      hxs hxs' (by omega) (by omega) (by omega) (by omega)]
  obtain ⟨⟨a0, a1, a2⟩, ⟨b0, b1, b2⟩, ⟨c0, c1, c2⟩, ⟨d0, d1, d2⟩⟩ := hc
  constructor
  · apply Distance_lt_four <;> unfold bilinearColor <;> simp only
    · have := bilerp_step_y (x := left) (y := bottom) a0 b0 c0 d0 (v := 256) hl0 (by omega)
        hxs (by omega)
      omega
    · have := bilerp_step_y (x := left) (y := bottom) a1 b1 c1 d1 (v := 256) hl0 (by omega)
        hxs (by omega)
      omega
    · have := bilerp_step_y (x := left) (y := bottom) a2 b2 c2 d2 (v := 256) hl0 (by omega)
        hxs (by omega)
      omega
  · apply Distance_lt_four <;> unfold bilinearColor <;> simp only
    · have := bilerp_step_y (x := left + 1) (y := bottom) a0 b0 c0 d0 (v := 256) (by omega)
        (by omega) hxs (by omega)
      omega
    · have := bilerp_step_y (x := left + 1) (y := bottom) a1 b1 c1 d1 (v := 256) (by omega)
        (by omega) hxs (by omega)
      omega
    · have := bilerp_step_y (x := left + 1) (y := bottom) a2 b2 c2 d2 (v := 256) (by omega)
        (by omega) hxs (by omega)
      omega

/-- Powers of two up to the eighth. -/
theorem two_pow_bounds {i : Nat} (hi : i ≤ 8) :
    (1 : Int) ≤ 2 ^ i ∧ (2 : Int) ^ i ≤ 256 ∧ (i = 8 → (2 : Int) ^ i = 256) ∧
      (i < 8 → (2 : Int) ^ i ≤ 128) := by
  interval_cases i <;> norm_num

/-- Termination of the subdivision from any call inside the 256 by 256 grid. -/
theorem DrawWith_terminates_from
    (small : SmallTest)
    (colors : PatchColors) (hc : colors.inByteRange) :
    ∀ (fuel i j : Nat) (left bottom : Int) (C1 C2 D1 D2 : CoonBezier),
      i ≤ 8 → j ≤ 8 → 0 ≤ left → left < 2 ^ i → 0 ≤ bottom → bottom < 2 ^ j →
      17 ≤ fuel + i + j →
      ∃ events, DrawWith small colors fuel (2 ^ i) (2 ^ j) left bottom C1 C2 D1 D2 =
          some events ∧ DrawEvent.overflow ∉ events := by
  intro fuel
  induction fuel with
  | zero =>
    intro i j left bottom C1 C2 D1 D2 hi hj _ _ _ _ hf
    omega
  | succ fuel ih =>
    intro i j left bottom C1 C2 D1 D2 hi hj hl0 hl hb0 hb hf
    obtain ⟨hx1, hx256, hx8, hxlt⟩ := two_pow_bounds hi
    obtain ⟨hy1, hy256, hy8, hylt⟩ := two_pow_bounds hj
    have s0 := BiInterpol_eq_bilinearColor hc (x := left) (y := bottom) (u := 2 ^ i)
      (v := 2 ^ j) hl0 (by omega) (by omega) hx256 hb0 (by omega) (by omega) hy256
    have s1 := BiInterpol_eq_bilinearColor hc (x := left) (y := bottom + 1) (u := 2 ^ i)
      (v := 2 ^ j) hl0 (by omega) (by omega) hx256 (by omega) (by omega) (by omega) hy256
    have s2 := BiInterpol_eq_bilinearColor hc (x := left + 1) (y := bottom + 1) (u := 2 ^ i)
      (v := 2 ^ j) (by omega) (by omega) (by omega) hx256 (by omega) (by omega) (by omega)
      hy256
    have s3 := BiInterpol_eq_bilinearColor hc (x := left + 1) (y := bottom) (u := 2 ^ i)
      (v := 2 ^ j) (by omega) (by omega) (by omega) hx256 hb0 (by omega) (by omega) hy256
    have hact := drawAction_of_success colors (small (2 ^ i) (2 ^ j) left bottom C1 C2 D1 D2)
      (2 ^ i) (2 ^ j) left bottom
      (by rw [s0]) (by rw [s1]) (by rw [s2]) (by rw [s3])
    have hxconv : i = 8 → edgeBottom colors (2 ^ i) (2 ^ j) left bottom < 4 ∧
        edgeTop colors (2 ^ i) (2 ^ j) left bottom < 4 := by
      intro h8
      have e := hx8 h8
      rw [e] at hl ⊢
      exact edges_x_converged hc hl0 hl hb0 hb hy256
    have hyconv : j = 8 → edgeLeft colors (2 ^ i) (2 ^ j) left bottom < 4 ∧
        edgeRight colors (2 ^ i) (2 ^ j) left bottom < 4 := by
      intro h8
      have e := hy8 h8
      rw [e] at hb ⊢
      exact edges_y_converged hc hl0 hl hx256 hb0 hb
    have hpx : (2 : Int) ^ (i + 1) = 2 ^ i * 2 := pow_succ 2 i
    have hpy : (2 : Int) ^ (j + 1) = 2 ^ j * 2 := pow_succ 2 j
    by_cases hfill : small (2 ^ i) (2 ^ j) left bottom C1 C2 D1 D2 = true ∨
        (edgeBottom colors (2 ^ i) (2 ^ j) left bottom < 4 ∧
          edgeLeft colors (2 ^ i) (2 ^ j) left bottom < 4 ∧
          edgeTop colors (2 ^ i) (2 ^ j) left bottom < 4 ∧
          edgeRight colors (2 ^ i) (2 ^ j) left bottom < 4)
    · rw [if_pos hfill] at hact
      rw [DrawWith_fill small colors fuel _ _ _ _ C1 C2 D1 D2 _ hact]
      exact ⟨_, rfl, by simp⟩
    · rw [if_neg hfill] at hact
      by_cases hY : edgeBottom colors (2 ^ i) (2 ^ j) left bottom < 4 ∧
          edgeTop colors (2 ^ i) (2 ^ j) left bottom < 4
      · rw [if_pos hY] at hact
        have hj8 : j < 8 := by
          by_contra hcon
          have := hyconv (by omega)
          exact hfill (Or.inr ⟨hY.1, this.1, hY.2, this.2⟩)
        rw [DrawWith_splitY small colors fuel _ _ _ _ C1 C2 D1 D2 hact, ← hpy]
        obtain ⟨t1, e1, n1⟩ := ih i (j + 1) left (bottom * 2) C1
          (CoonBezier.InitFromBezierInterpolation D1 D2 C1 C2) D1.first_half D2.first_half
          hi (by omega) hl0 hl (by omega) (by omega) (by omega)
        obtain ⟨t2, e2, n2⟩ := ih i (j + 1) left (bottom * 2 + 1)
          (CoonBezier.InitFromBezierInterpolation D1 D2 C1 C2) C2 D1.second_half
          D2.second_half hi (by omega) hl0 hl (by omega) (by omega) (by omega)
        rw [e1, e2]
        exact ⟨t1 ++ t2, rfl, by simp [n1, n2]⟩
      · rw [if_neg hY] at hact
        have hi8 : i < 8 := by
          by_contra hcon
          exact hY (hxconv (by omega))
        by_cases hX : edgeLeft colors (2 ^ i) (2 ^ j) left bottom < 4 ∧
            edgeRight colors (2 ^ i) (2 ^ j) left bottom < 4
        · rw [if_pos hX] at hact
          rw [DrawWith_splitX small colors fuel _ _ _ _ C1 C2 D1 D2 hact, ← hpx]
          obtain ⟨t1, e1, n1⟩ := ih (i + 1) j (left * 2) bottom C1.first_half C2.first_half D1
            (CoonBezier.InitFromBezierInterpolation C1 C2 D1 D2)
            (by omega) hj (by omega) (by omega) hb0 hb (by omega)
          obtain ⟨t2, e2, n2⟩ := ih (i + 1) j (left * 2 + 1) bottom C1.second_half
            C2.second_half (CoonBezier.InitFromBezierInterpolation C1 C2 D1 D2) D2
            (by omega) hj (by omega) (by omega) hb0 hb (by omega)
          rw [e1, e2]
          exact ⟨t1 ++ t2, rfl, by simp [n1, n2]⟩
        · rw [if_neg hX] at hact
          have hj8 : j < 8 := by
            by_contra hcon
            exact hX (hyconv (by omega))
          rw [DrawWith_splitBoth small colors fuel _ _ _ _ C1 C2 D1 D2 hact, ← hpx, ← hpy]
          obtain ⟨t1, e1, n1⟩ := ih (i + 1) (j + 1) (left * 2) (bottom * 2) C1.first_half
            (CoonBezier.InitFromBezierInterpolation D1 D2 C1 C2).first_half D1.first_half
            (CoonBezier.InitFromBezierInterpolation C1 C2 D1 D2).first_half
            (by omega) (by omega) (by omega) (by omega) (by omega) (by omega) (by omega)
          obtain ⟨t2, e2, n2⟩ := ih (i + 1) (j + 1) (left * 2) (bottom * 2 + 1)
            (CoonBezier.InitFromBezierInterpolation D1 D2 C1 C2).first_half C2.first_half
            D1.second_half (CoonBezier.InitFromBezierInterpolation C1 C2 D1 D2).second_half
            (by omega) (by omega) (by omega) (by omega) (by omega) (by omega) (by omega)
          obtain ⟨t3, e3, n3⟩ := ih (i + 1) (j + 1) (left * 2 + 1) (bottom * 2) C1.second_half
            (CoonBezier.InitFromBezierInterpolation D1 D2 C1 C2).second_half
            (CoonBezier.InitFromBezierInterpolation C1 C2 D1 D2).first_half D2.first_half
            (by omega) (by omega) (by omega) (by omega) (by omega) (by omega) (by omega)
          obtain ⟨t4, e4, n4⟩ := ih (i + 1) (j + 1) (left * 2 + 1) (bottom * 2 + 1)
            (CoonBezier.InitFromBezierInterpolation D1 D2 C1 C2).second_half C2.second_half
            (CoonBezier.InitFromBezierInterpolation C1 C2 D1 D2).second_half D2.second_half
            (by omega) (by omega) (by omega) (by omega) (by omega) (by omega) (by omega)
          rw [e1, e2, e3, e4]
          exact ⟨t1 ++ t2 ++ t3 ++ t4, rfl, by simp [n1, n2, n3, n4]⟩

/-- C8. For every patch whose four corner colours have all components in 0..255, and
whatever the geometry and the outcome of the smallness tests, `Draw(1,1,0,0,...)`
terminates within a recursion depth of 17 and no `BiInterpol` call overflows on the
way: at `x_scale = 256` the bottom and top colour differences, and at `y_scale = 256`
the left and right ones, are below the threshold, so neither scale is doubled beyond
256. -/
theorem draw_terminates_for_byte_colors
    (small : SmallTest)
    (colors : PatchColors) (C1 C2 D1 D2 : CoonBezier) (fuel : Nat)
    (hc : colors.inByteRange) (hfuel : 17 ≤ fuel) :
    (∃ events, DrawWith small colors fuel 1 1 0 0 C1 C2 D1 D2 = some events ∧
        DrawEvent.overflow ∉ events) ∧
      (∃ events, Draw colors fuel 1 1 0 0 C1 C2 D1 D2 = some events ∧
        DrawEvent.overflow ∉ events) ∧
      (∀ left bottom y_scale : Int, 0 ≤ left → left < 256 → 0 ≤ bottom → bottom < y_scale →
        y_scale ≤ 256 →
        edgeBottom colors 256 y_scale left bottom < kCoonColorThreshold ∧
          edgeTop colors 256 y_scale left bottom < kCoonColorThreshold) ∧
      (∀ left bottom x_scale : Int, 0 ≤ left → left < x_scale → x_scale ≤ 256 → 0 ≤ bottom →
        bottom < 256 →
        edgeLeft colors x_scale 256 left bottom < kCoonColorThreshold ∧
          edgeRight colors x_scale 256 left bottom < kCoonColorThreshold) := by
  have key : ∀ sm : SmallTest,
      ∃ events, DrawWith sm colors fuel 1 1 0 0 C1 C2 D1 D2 = some events ∧
        DrawEvent.overflow ∉ events := by
    intro sm
    have h := DrawWith_terminates_from sm colors hc fuel 0 0 0 0 C1 C2 D1 D2 (by omega)
      (by omega) (by omega) (by norm_num) (by omega) (by norm_num) (by omega)
    simpa using h
  refine ⟨key small, key (fun _ _ _ _ => bSmall), ?_, ?_⟩
  · intro left bottom y_scale hl0 hl hb0 hb hys
    exact edges_x_converged hc hl0 hl hb0 hb hys
  · intro left bottom x_scale hl0 hl hxs hb0 hb
    exact edges_y_converged hc hl0 hl hxs hb0 hb

/-- The sample colours black, white, white, white are in the byte range. -/
theorem cornerColors_inByteRange : cornerColors.inByteRange := by
  unfold PatchColors.inByteRange CoonColor.inByteRange cornerColors
  decide

/-- Witness of C8: the stretched geometry with byte-range corner colours. -/
theorem draw_terminates_for_byte_colors_witness :
    ∃ events, Draw cornerColors 17 1 1 0 0 stretchedC1 stretchedC2 stretchedD1 stretchedD2 =
      some events ∧ DrawEvent.overflow ∉ events :=
  (draw_terminates_for_byte_colors (fun _ _ _ _ => bSmall) cornerColors stretchedC1
    stretchedC2 stretchedD1
    stretchedD2 17 cornerColors_inByteRange (le_refl 17)).2.1

/-! ## Meshes, fonts and strings -/

/-! ## Bilinear colour at the centre -/

/-- C16. For the corner colours black, white, white, black, `CoonColor::BiInterpol` at
the centre of the root patch (`x = 1`, `y = 1`, `x_scale = y_scale = 2`) succeeds and
yields 127 in every channel; each intermediate `Interpolate` is representable. -/
theorem BiInterpol_centre_of_stripes :
    BiInterpol stripeColors 1 1 2 2 = (⟨127, 127, 127⟩, true) ∧
      BiInterpolImpl 0 255 255 0 1 1 2 2 false = (127, false) ∧
      Interpolate 0 0 1 2 false = (0, false) ∧
      Interpolate 255 255 1 2 false = (255, false) ∧
      Interpolate 0 255 1 2 false = (127, false) := by
  decide

/-! ## Halving a cubic -/

/-- C20. Over exact arithmetic, for every coefficient set `C` and every `t`:
`C.first_half()(t) = C(t/2)` and `C.second_half()(t) = C((1+t)/2)`; so `first_half`
starts at `C(0)`, `second_half` ends at `C(1)`, and both meet at `C(1/2)`. -/
theorem halves_reparametrize (C : CoonBezierCoeff) (t : ℚ) :
    C.first_half.eval t = C.eval (t / 2) ∧
      C.second_half.eval t = C.eval ((1 + t) / 2) ∧
      C.first_half.eval 0 = C.eval 0 ∧
      C.second_half.eval 1 = C.eval 1 ∧
      C.first_half.eval 1 = C.eval (1 / 2) ∧
      C.second_half.eval 0 = C.eval (1 / 2) := by
  unfold CoonBezierCoeff.eval CoonBezierCoeff.first_half CoonBezierCoeff.second_half
  refine ⟨?_, ?_, ?_, ?_, ?_, ?_⟩ <;> simp only <;> ring

/-! ## `CFX_SubstFont` -/

/-- Weights that are multiples of 5 survive the adjustment of `UseChromeSerif` and its
inverse. -/
theorem chrome_serif_roundtrip_of_multiple (k : Int) (family : String) :
    (CFX_SubstFont.UseChromeSerif ⟨5 * k, family⟩).GetOriginalWeight = 5 * k := by
  unfold CFX_SubstFont.UseChromeSerif CFX_SubstFont.GetOriginalWeight
  simp only [if_true]
  have e1 : 5 * k * 4 = 5 * (4 * k) := by ring
  have e2 : 4 * k * 5 = 4 * (5 * k) := by ring
  rw [e1, Int.mul_tdiv_cancel_left _ (by decide), e2, Int.mul_tdiv_cancel_left _ (by decide)]

/-- C18 (the code at the failing input). A font of weight 704: `UseChromeSerif` stores
`704 * 4 / 5 = 563`, and `GetOriginalWeight` then returns `563 * 5 / 4 = 703`, not the
original 704. The same happens at weight 1, which comes back as 0. -/
theorem chrome_serif_weight_not_restored :
    (CFX_SubstFont.UseChromeSerif ⟨704, "Arial"⟩).weight_ = 563 ∧
      (CFX_SubstFont.UseChromeSerif ⟨704, "Arial"⟩).GetOriginalWeight = 703 ∧
      (CFX_SubstFont.UseChromeSerif ⟨1, "Arial"⟩).GetOriginalWeight = 0 := by
  decide

/-! ## Radial shading: the decreasing test and the branches -/

/-- The sample square root at 25/4. -/
theorem sqrtOnSquares_25_4 : sqrtOnSquares (25 / 4) = 5 / 2 := by
  have hn : ((25 : ℚ) / 4).num = 25 := by norm_num
  have hd : ((25 : ℚ) / 4).den = 4 := by norm_num
  have h25 : isqrtFrom 25 25 = 5 := by decide
  have h4 : isqrtFrom 4 4 = 2 := by decide
  unfold sqrtOnSquares
  rw [hn, hd]
  norm_num [h25, h4]

/-- The sample distance between centres 3/2 and 2 apart along the axes. -/
theorem sample_hypot_three_halves_two : sampleOps.hypotf (3 / 2) 2 = 5 / 2 := by
  have e : ((3 : ℚ) / 2) * (3 / 2) + 2 * 2 = 25 / 4 := by norm_num
  simp only [sampleOps, e, sqrtOnSquares_25_4]

/-- C19 (as stated, refuted). Centres 5/2 apart (`dx = 3/2`, `dy = 2`) and `dr = -11/5`:
the distance 5/2 is not below `|dr| = 11/5`, yet its integer part 2 is, and the
gradient is classified as decreasing. -/
theorem radial_decreasing_uses_integer_part :
    sampleOps.hypotf (3 / 2) 2 = 5 / 2 ∧
      ((5 : ℚ) / 2) * (5 / 2) = (3 / 2) * (3 / 2) + 2 * 2 ∧
      ¬ ((5 : ℚ) / 2 < |(-11 / 5 : ℚ)|) ∧
      radialDecreasing sampleOps (3 / 2) 2 (-11 / 5) = some true := by
  have hh := sample_hypot_three_halves_two
  have hc : castInt32 (5 / 2) = some 2 :=
    castInt32_eq_of_nonneg (by norm_num) (by norm_num) (by norm_num) (by decide)
  refine ⟨hh, by norm_num, ?_, ?_⟩
  · rw [abs_of_neg (by norm_num)]
    norm_num
  · unfold radialDecreasing
    rw [if_pos (by norm_num), hh, hc]
    norm_num

/-- C19 (amended). `DrawRadialShading` classifies the gradient as decreasing exactly when
`dr < 0` and the integer part of the distance between the centres (the distance
truncated by `static_cast<int>`) is below `|dr|`. So every gradient with `dr < 0` and
distance below `|dr|` is decreasing, and a decreasing gradient has `dr < 0` and a
distance below `|dr| + 1`. -/
theorem radialDecreasing_iff (ops : FloatOps) (dx dy dr : ℚ)
    (hnonneg : 0 ≤ ops.hypotf dx dy) (hfit : ops.hypotf dx dy < 2147483648) :
    radialDecreasing ops dx dy dr =
        some (decide (dr < 0 ∧ ((⌊ops.hypotf dx dy⌋ : Int) : ℚ) < |dr|)) ∧
      (dr < 0 → ops.hypotf dx dy < |dr| → radialDecreasing ops dx dy dr = some true) ∧
      (radialDecreasing ops dx dy dr = some true → dr < 0 ∧ ops.hypotf dx dy < |dr| + 1) := by
  have h1 : ((⌊ops.hypotf dx dy⌋ : Int) : ℚ) ≤ ops.hypotf dx dy := Int.floor_le _
  have h2 : ops.hypotf dx dy < ((⌊ops.hypotf dx dy⌋ : Int) : ℚ) + 1 := Int.lt_floor_add_one _
  have hr : inInt32 ⌊ops.hypotf dx dy⌋ := by
    have h3 : (0 : Int) ≤ ⌊ops.hypotf dx dy⌋ := Int.floor_nonneg.mpr hnonneg
    have h4 : ⌊ops.hypotf dx dy⌋ < 2147483648 := by
      rw [Int.floor_lt]; exact_mod_cast hfit
    unfold inInt32 kInt32Min kInt32Max; omega
  have hc : castInt32 (ops.hypotf dx dy) = some ⌊ops.hypotf dx dy⌋ :=
    castInt32_eq_of_nonneg hnonneg h1 h2 hr
  have hmain : radialDecreasing ops dx dy dr =
      some (decide (dr < 0 ∧ ((⌊ops.hypotf dx dy⌋ : Int) : ℚ) < |dr|)) := by
    unfold radialDecreasing
    by_cases hd : dr < 0
    · rw [if_pos hd, hc, abs_of_neg hd]
      simp [hd]
    · rw [if_neg hd]
      simp [hd]
  refine ⟨hmain, ?_, ?_⟩
  · intro hd hlt
    rw [hmain]
    have : ((⌊ops.hypotf dx dy⌋ : Int) : ℚ) < |dr| := lt_of_le_of_lt h1 hlt
    simp [hd, this]
  · intro h
    rw [hmain] at h
    simp only [Option.some.injEq, decide_eq_true_eq] at h
    exact ⟨h.1, by linarith [h.2]⟩

/-- Witness of the amended C19: the centres 5/2 apart with `dr = -11/5`. -/
theorem radialDecreasing_iff_witness :
    radialDecreasing sampleOps (3 / 2) 2 (-11 / 5) =
        some (decide ((-11 / 5 : ℚ) < 0 ∧
          ((⌊sampleOps.hypotf (3 / 2) 2⌋ : Int) : ℚ) < |(-11 / 5 : ℚ)|)) ∧
      ((-11 / 5 : ℚ) < 0 → sampleOps.hypotf (3 / 2) 2 < |(-11 / 5 : ℚ)| →
        radialDecreasing sampleOps (3 / 2) 2 (-11 / 5) = some true) ∧
      (radialDecreasing sampleOps (3 / 2) 2 (-11 / 5) = some true →
        (-11 / 5 : ℚ) < 0 ∧ sampleOps.hypotf (3 / 2) 2 < |(-11 / 5 : ℚ)| + 1) :=
  radialDecreasing_iff sampleOps (3 / 2) 2 (-11 / 5)
    (by rw [sample_hypot_three_halves_two]; norm_num)
    (by rw [sample_hypot_three_halves_two]; norm_num)

/-- C15 (as stated, refuted). Equal radii 1, centres (0,0) and (1/1000, 0), which do not
coincide: `a = 1/1000000` passes the zero test, and for the pixel at (5,0) (`b = -1/100`)
the `a`-near-zero branch computes `s = -c / b = 2400`. -/
theorem radial_linear_branch_with_distinct_centres :
    radialBranch sampleOps 0 0 1 (1 / 1000) 0 0 (1 / 1000000) (5, 0) =
        RadialBranch.aNearZero ∧
      ((1 : ℚ) / 1000) * (1 / 1000) + 0 * 0 - 0 * 0 = 1 / 1000000 ∧
      radialParam sampleOps false false false 0 0 1 (1 / 1000) 0 0 (1 / 1000000) (5, 0) =
        RadialParam.value 2400 := by
  refine ⟨?_, by norm_num, ?_⟩
  · unfold radialBranch
    norm_num [sampleOps]
  · unfold radialParam
    norm_num [sampleOps]

/-- C15 (amended). In `DrawRadialShading` with `start_r == end_r`, the `a`-near-zero
branch is taken for a pixel only if the squared distance between the two centres passes
`FXSYS_IsFloatZero`; the centres must coincide only for a zero test that is exact, and
for a test with a tolerance the squared distance is below the tolerance. -/
theorem radial_linear_branch_equal_radii (ops : FloatOps)
    (start_x start_y start_r dx dy : ℚ) (pos : ℚ × ℚ)
    (h : radialBranch ops start_x start_y start_r dx dy 0 (dx * dx + dy * dy - 0 * 0) pos =
      RadialBranch.aNearZero) :
    ops.IsFloatZero (dx * dx + dy * dy) = true ∧
      ((∀ f : ℚ, ops.IsFloatZero f = true → f = 0) → dx = 0 ∧ dy = 0) ∧
      (∀ tol : ℚ, (∀ f : ℚ, ops.IsFloatZero f = true → f < tol) →
        dx * dx + dy * dy < tol) := by
  have hz : ops.IsFloatZero (dx * dx + dy * dy) = true := by
    unfold radialBranch at h
    simp only [mul_zero, sub_zero] at h
    split_ifs at h with h1 h2
    exact h2
  refine ⟨hz, ?_, ?_⟩
  · intro hexact
    have h0 := hexact _ hz
    constructor <;> nlinarith [mul_self_nonneg dx, mul_self_nonneg dy]
  · intro tol htol
    exact htol _ hz

/-- Witness of the amended C15: the centres 1/1000 apart. -/
theorem radial_linear_branch_equal_radii_witness :
    sampleOps.IsFloatZero ((1 / 1000) * (1 / 1000) + 0 * 0) = true ∧
      ((∀ f : ℚ, sampleOps.IsFloatZero f = true → f = 0) →
        (1 / 1000 : ℚ) = 0 ∧ (0 : ℚ) = 0) ∧
      (∀ tol : ℚ, (∀ f : ℚ, sampleOps.IsFloatZero f = true → f < tol) →
        (1 / 1000 : ℚ) * (1 / 1000) + 0 * 0 < tol) :=
  radial_linear_branch_equal_radii sampleOps 0 0 1 (1 / 1000) 0 (5, 0) (by
    unfold radialBranch
    norm_num [sampleOps])

/-! ## Validated output count -/

/-- Once the checked sum of `CountOutputsFromFunctions` is invalid it stays invalid. -/
theorem foldl_safeUInt32Add_none (g : Option Nat → Option ShadingFunction → Option Nat)
    (hsome : ∀ total f, g total (some f) = safeUInt32Add total f.OutputCount)
    (hnone : ∀ total, g total none = total) (funcs : List (Option ShadingFunction)) :
    funcs.foldl g none = none := by
  induction funcs with
  | nil => rfl
  | cons func funcs ih =>
    cases func with
    | none => simpa [hnone] using ih
    | some f => simpa [hsome, safeUInt32Add] using ih

/-- The checked sum of `CountOutputsFromFunctions` from a valid partial sum is valid as
long as the exact sum fits 32 bits. -/
theorem foldl_safeUInt32Add (g : Option Nat → Option ShadingFunction → Option Nat)
    (hsome : ∀ total f, g total (some f) = safeUInt32Add total f.OutputCount)
    (hnone : ∀ total, g total none = total) (funcs : List (Option ShadingFunction)) :
    ∀ t : Nat, t < 4294967296 → funcs.foldl g (some t) =
      if t + outputsSum funcs < 4294967296 then some (t + outputsSum funcs) else none := by
  induction funcs with
  | nil =>
    intro t ht
    simp [outputsSum, ht]
  | cons func funcs ih =>
    intro t ht
    cases func with
    | none =>
      simp only [List.foldl_cons, outputsSum, hnone]
      exact ih t ht
    | some f =>
      simp only [List.foldl_cons, outputsSum, hsome, safeUInt32Add, Option.some_bind]
      by_cases h : t + f.OutputCount < 4294967296
      · rw [if_pos h, ih _ h, Nat.add_assoc]
      · rw [if_neg h, foldl_safeUInt32Add_none g hsome hnone, if_neg (by omega)]

/-- `CountOutputsFromFunctions` is the exact sum when it fits 32 bits and 0 otherwise. -/
theorem CountOutputsFromFunctions_eq (funcs : List (Option ShadingFunction)) :
    CountOutputsFromFunctions funcs =
      if outputsSum funcs < 4294967296 then outputsSum funcs else 0 := by
  unfold CountOutputsFromFunctions
  rw [foldl_safeUInt32Add _ (fun _ _ => rfl) (fun _ => rfl) funcs 0 (by decide), Nat.zero_add]
  by_cases h : outputsSum funcs < 4294967296
  · rw [if_pos h, if_pos h]; rfl
  · rw [if_neg h, if_neg h]; rfl

/-- C14. `GetValidatedOutputsCount(funcs, cs)` is `max(S, cs.ComponentCount())` for the
sum `S` of `OutputCount` over the non-hole functions, except that it is 0 when `S` is 0
or does not fit 32 bits. When it is 0, `DrawAxialShading`, `DrawRadialShading` and
`DrawFuncShading` leave the bitmap as it is; when it is not 0 it is at least `S`, at
least `CountOutputsFromFunctions(funcs)` and at least the component count, so the
`CHECK_GE` tests of `GetShadingSteps` and `DrawFuncShading` pass. -/
theorem GetValidatedOutputsCount_spec (ops : FloatOps) (bitmap : List (List Nat))
    (transform : ℚ × ℚ → ℚ × ℚ) (pDict : ShadingDict)
    (funcs : List (Option ShadingFunction)) (pCS : ColorSpace) (alpha : Int)
    (t_min t_max : ℚ) :
    GetValidatedOutputsCount funcs pCS =
        (if outputsSum funcs = 0 ∨ 4294967296 ≤ outputsSum funcs then 0
        else max (outputsSum funcs) pCS.ComponentCount) ∧
      (GetValidatedOutputsCount funcs pCS = 0 →
        DrawAxialShading ops bitmap transform pDict funcs pCS alpha = some bitmap ∧
        DrawRadialShading ops bitmap transform pDict funcs pCS alpha = some bitmap ∧
        DrawFuncShading ops bitmap transform pDict funcs pCS alpha = some bitmap) ∧
      (GetValidatedOutputsCount funcs pCS ≠ 0 →
        outputsSum funcs ≤ GetValidatedOutputsCount funcs pCS ∧
        CountOutputsFromFunctions funcs ≤ GetValidatedOutputsCount funcs pCS ∧
        pCS.ComponentCount ≤ GetValidatedOutputsCount funcs pCS ∧
        (GetShadingSteps ops t_min t_max funcs pCS alpha
          (GetValidatedOutputsCount funcs pCS)).isSome = true) := by
  have hcount := CountOutputsFromFunctions_eq funcs
  have hval : GetValidatedOutputsCount funcs pCS =
      (if outputsSum funcs = 0 ∨ 4294967296 ≤ outputsSum funcs then 0
      else max (outputsSum funcs) pCS.ComponentCount) := by
    unfold GetValidatedOutputsCount
    simp only [hcount]
    by_cases h0 : outputsSum funcs = 0
    · simp [h0]
    · by_cases h1 : outputsSum funcs < 4294967296
      · have h2 : ¬ (outputsSum funcs = 0 ∨ 4294967296 ≤ outputsSum funcs) := by omega
        rw [if_pos h1, if_pos h0, if_neg h2]
      · have h2 : outputsSum funcs = 0 ∨ 4294967296 ≤ outputsSum funcs := by omega
        simp [h1, h2]
  refine ⟨hval, ?_, ?_⟩
  · intro hz
    refine ⟨?_, ?_, ?_⟩
    · unfold DrawAxialShading
      simp only [hz, if_true]
    · unfold DrawRadialShading
      simp only [hz, if_true]
    · unfold DrawFuncShading
      simp only [hz, if_true]
  · intro hnz
    have hsum : ¬ (outputsSum funcs = 0 ∨ 4294967296 ≤ outputsSum funcs) := by
      intro hc
      rw [hval, if_pos hc] at hnz
      exact hnz rfl
    have hlt : outputsSum funcs < 4294967296 := by omega
    rw [if_pos hlt] at hcount
    have hmax : GetValidatedOutputsCount funcs pCS = max (outputsSum funcs) pCS.ComponentCount := by
      rw [hval, if_neg hsum]
    have h1 : outputsSum funcs ≤ GetValidatedOutputsCount funcs pCS := by
      rw [hmax]; exact le_max_left _ _
    have h2 : pCS.ComponentCount ≤ GetValidatedOutputsCount funcs pCS := by
      rw [hmax]; exact le_max_right _ _
    refine ⟨h1, by rw [hcount]; exact h1, h2, ?_⟩
    unfold GetShadingSteps
    rw [if_neg (by rw [hcount]; omega), if_neg (by omega)]
    rfl

/-- Witness of C14: without functions the count is 0 and the three rasterizers leave the
bitmap as it is; with the sample function the count is not 0 and `GetShadingSteps`
passes its checks. -/
theorem GetValidatedOutputsCount_spec_witness :
    (DrawAxialShading sampleOps [[7]] id ⟨none, none, none⟩ [] sampleColorSpace 255 =
        some [[7]] ∧
      DrawRadialShading sampleOps [[7]] id ⟨none, none, none⟩ [] sampleColorSpace 255 =
        some [[7]] ∧
      DrawFuncShading sampleOps [[7]] id ⟨none, none, none⟩ [] sampleColorSpace 255 =
        some [[7]]) ∧
      (GetShadingSteps sampleOps 0 1 [some sampleFunction] sampleColorSpace 255
        (GetValidatedOutputsCount [some sampleFunction] sampleColorSpace)).isSome = true :=
  ⟨(GetValidatedOutputsCount_spec sampleOps [[7]] id ⟨none, none, none⟩ [] sampleColorSpace
      255 0 1).2.1 (by decide),
    ((GetValidatedOutputsCount_spec sampleOps [[7]] id ⟨none, none, none⟩
      [some sampleFunction] sampleColorSpace 255 0 1).2.2 (by decide)).2.2.2⟩

/-! ## Gouraud scanlines -/

/-- `GetScanlineIntersect` returns true exactly when the two ordinates differ and `y` lies
between them, ends included. -/
theorem GetScanlineIntersect_isSome_iff (y : Int) (first second : ℚ × ℚ) :
    (GetScanlineIntersect y first second).isSome = true ↔
      first.2 ≠ second.2 ∧ min first.2 second.2 ≤ (y : ℚ) ∧ (y : ℚ) ≤ max first.2 second.2 := by
  unfold GetScanlineIntersect
  rcases lt_trichotomy first.2 second.2 with h | h | h
  · rw [min_eq_left (le_of_lt h), max_eq_right (le_of_lt h)]
    rw [if_neg (ne_of_lt h)]
    by_cases h1 : (y : ℚ) < first.2
    · simp [h, h1]
    · by_cases h2 : (y : ℚ) > second.2
      · simp [h, h2]
      · have hnot : ¬ (first.2 < second.2 ∧ ((y : ℚ) < first.2 ∨ (y : ℚ) > second.2)) := by
          rintro ⟨-, h3 | h3⟩
          · exact h1 h3
          · exact h2 h3
        rw [if_neg hnot, if_neg (by rintro ⟨h3, -⟩; exact h3 h)]
        simp only [Option.isSome_some, true_iff]
        exact ⟨ne_of_lt h, not_lt.mp h1, not_lt.mp h2⟩
  · simp [h]
  · rw [min_eq_right (le_of_lt h), max_eq_left (le_of_lt h)]
    rw [if_neg (ne_of_gt h), if_neg (by rintro ⟨h3, -⟩; exact absurd h3 (not_lt.mpr (le_of_lt h)))]
    by_cases h1 : (y : ℚ) < second.2
    · simp [h1, not_lt.mpr (le_of_lt h)]
    · by_cases h2 : (y : ℚ) > first.2
      · simp [h2, not_lt.mpr (le_of_lt h)]
      · have hnot : ¬ (¬ first.2 < second.2 ∧ ((y : ℚ) < second.2 ∨ (y : ℚ) > first.2)) := by
          rintro ⟨-, h3 | h3⟩
          · exact h1 h3
          · exact h2 h3
        rw [if_neg hnot]
        simp only [Option.isSome_some, true_iff]
        exact ⟨ne_of_gt h, not_lt.mp h1, not_lt.mp h2⟩

/-- The number of entries an edge adds to the arrays of `DrawGouraud`. -/
theorem edgeIntersect_toList_length (y : Int) (vertex1 vertex2 : MeshVertex) :
    (edgeIntersect y vertex1 vertex2).toList.length =
      if vertex1.position.2 ≠ vertex2.position.2 ∧
          min vertex1.position.2 vertex2.position.2 ≤ (y : ℚ) ∧
          (y : ℚ) ≤ max vertex1.position.2 vertex2.position.2 then 1 else 0 := by
  have h := GetScanlineIntersect_isSome_iff y vertex1.position vertex2.position
  unfold edgeIntersect
  cases hg : GetScanlineIntersect y vertex1.position vertex2.position with
  | none =>
    rw [hg] at h
    simp only [Option.isSome_none, Bool.false_eq_true, false_iff] at h
    rw [if_neg h]
    rfl
  | some x =>
    rw [hg] at h
    simp only [Option.isSome_some, true_iff] at h
    rw [if_pos h]
    rfl

/-- A value is below, at or above a level, and in one way only. -/
theorem level_trichotomy (v Y : ℚ) :
    (v < Y ∧ v ≠ Y ∧ ¬ Y < v) ∨ (¬ v < Y ∧ v = Y ∧ ¬ Y < v) ∨ (¬ v < Y ∧ v ≠ Y ∧ Y < v) := by
  rcases lt_trichotomy v Y with h | h | h
  · exact Or.inl ⟨h, ne_of_lt h, not_lt.mpr (le_of_lt h)⟩
  · exact Or.inr (Or.inl ⟨by rw [h]; exact lt_irrefl _, h, by rw [h]; exact lt_irrefl _⟩)
  · exact Or.inr (Or.inr ⟨not_lt.mpr (le_of_lt h), ne_of_gt h, h⟩)

/-- An edge with end ordinates `p` and `q` meets the level `Y` unless both ends are
below it, both are above it, or both are on it. -/
theorem edge_meets_iff (p q Y : ℚ) :
    (p ≠ q ∧ min p q ≤ Y ∧ Y ≤ max p q) ↔
      ¬ ((p < Y ∧ q < Y) ∨ (Y < p ∧ Y < q) ∨ (p = Y ∧ q = Y)) := by
  simp only [min_le_iff, le_max_iff, ← not_lt]
  rcases level_trichotomy p Y with ⟨p1, p2, p3⟩ | ⟨p1, p2, p3⟩ | ⟨p1, p2, p3⟩ <;>
  rcases level_trichotomy q Y with ⟨q1, q2, q3⟩ | ⟨q1, q2, q3⟩ | ⟨q1, q2, q3⟩ <;>
  by_cases hpq : p = q <;>
  simp_all

/-- Counting the edges of a triangle with ordinates `a`, `b`, `c` that a level `Y`
between the lowest and the highest ordinate meets. -/
theorem edge_count (a b c Y : ℚ) (hlo : min (min a b) c ≤ Y) (hhi : Y ≤ max (max a b) c)
    (hne : min (min a b) c < max (max a b) c) :
    ((if a ≠ b ∧ min a b ≤ Y ∧ Y ≤ max a b then 1 else 0) +
      (if b ≠ c ∧ min b c ≤ Y ∧ Y ≤ max b c then 1 else 0) +
      (if c ≠ a ∧ min c a ≤ Y ∧ Y ≤ max c a then 1 else 0) : Nat) =
      if (min (min a b) c < Y ∧ Y < max (max a b) c ∧ (a = Y ∨ b = Y ∨ c = Y)) then 3 else 2 := by
  simp only [edge_meets_iff]
  simp only [min_le_iff, le_max_iff, min_lt_iff, lt_max_iff, ← not_lt] at hlo hhi hne ⊢
  rcases level_trichotomy a Y with ⟨a1, a2, a3⟩ | ⟨a1, a2, a3⟩ | ⟨a1, a2, a3⟩ <;>
  rcases level_trichotomy b Y with ⟨b1, b2, b3⟩ | ⟨b1, b2, b3⟩ | ⟨b1, b2, b3⟩ <;>
  rcases level_trichotomy c Y with ⟨c1, c2, c3⟩ | ⟨c1, c2, c3⟩ | ⟨c1, c2, c3⟩ <;>
  simp [a1, a2, a3, b1, b2, b3, c1, c2, c3] at hlo hhi hne ⊢

/-- `nIntersects` of a scanline, edge by edge. -/
theorem scanlineIntersections_length (y : Int) (triangle : Triangle) :
    (scanlineIntersections y triangle).length =
      (if triangle.v0.position.2 ≠ triangle.v1.position.2 ∧
          min triangle.v0.position.2 triangle.v1.position.2 ≤ (y : ℚ) ∧
          (y : ℚ) ≤ max triangle.v0.position.2 triangle.v1.position.2 then 1 else 0) +
      (if triangle.v1.position.2 ≠ triangle.v2.position.2 ∧
          min triangle.v1.position.2 triangle.v2.position.2 ≤ (y : ℚ) ∧
          (y : ℚ) ≤ max triangle.v1.position.2 triangle.v2.position.2 then 1 else 0) +
      (if triangle.v2.position.2 ≠ triangle.v0.position.2 ∧
          min triangle.v2.position.2 triangle.v0.position.2 ≤ (y : ℚ) ∧
          (y : ℚ) ≤ max triangle.v2.position.2 triangle.v0.position.2 then 1 else 0) := by
  unfold scanlineIntersections
  rw [List.length_append, List.length_append, edgeIntersect_toList_length,
    edgeIntersect_toList_length, edgeIntersect_toList_length]

/-- A scanline is skipped exactly when `nIntersects` is not 2. -/
theorem gouraudScanline_eq_none_iff (y : Int) (triangle : Triangle) :
    gouraudScanline y triangle = none ↔ (scanlineIntersections y triangle).length ≠ 2 := by
  unfold gouraudScanline
  rcases scanlineIntersections y triangle with _ | ⟨e0, _ | ⟨e1, _ | ⟨e2, l⟩⟩⟩
  · simp
  · simp
  · simp only [List.length_cons, List.length_nil, ne_eq, not_true_eq_false, iff_false]
    split_ifs <;> simp
  · simp

/-- C12 (as stated, refuted). The triangle (0,0), (2,1), (0,2) has vertical extent from
0 to 2; on the scanline `y = 1`, which passes through the vertex (2,1), all three edges
are reported as intersecting, `nIntersects` is 3 and the scanline is skipped. -/
theorem scanline_through_middle_vertex_is_skipped :
    kiteTriangle.min_y = 0 ∧ kiteTriangle.max_y = 2 ∧
      (GetScanlineIntersect 1 (0, 0) (2, 1)).isSome = true ∧
      (GetScanlineIntersect 1 (2, 1) (0, 2)).isSome = true ∧
      (GetScanlineIntersect 1 (0, 2) (0, 0)).isSome = true ∧
      (scanlineIntersections 1 kiteTriangle).length = 3 ∧
      gouraudScanline 1 kiteTriangle = none := by
  have hlen : (scanlineIntersections 1 kiteTriangle).length = 3 := by
    rw [scanlineIntersections_length]
    norm_num [kiteTriangle]
  refine ⟨by norm_num [Triangle.min_y, kiteTriangle], by norm_num [Triangle.max_y, kiteTriangle],
    ?_, ?_, ?_, hlen, ?_⟩
  · rw [GetScanlineIntersect_isSome_iff]; norm_num
  · rw [GetScanlineIntersect_isSome_iff]; norm_num
  · rw [GetScanlineIntersect_isSome_iff]; norm_num
  · rw [gouraudScanline_eq_none_iff, hlen]
    decide

/-- C12 (amended). In `DrawGouraud`, for every triangle with non-zero vertical extent and
every integer scanline `y` with `min_y <= y <= max_y`, exactly two of the three edges
are reported as intersecting the scanline, and the scanline passes the `nIntersects != 2`
test, unless `y` is the ordinate of a vertex lying strictly between `min_y` and `max_y`:
then all three edges are reported and the scanline is skipped. -/
theorem scanline_intersections_count (triangle : Triangle) (y : Int)
    (hne : triangle.min_y < triangle.max_y) (hlo : triangle.min_y ≤ (y : ℚ))
    (hhi : (y : ℚ) ≤ triangle.max_y) :
    (scanlineIntersections y triangle).length =
        (if triangle.min_y < (y : ℚ) ∧ (y : ℚ) < triangle.max_y ∧
            (triangle.v0.position.2 = (y : ℚ) ∨ triangle.v1.position.2 = (y : ℚ) ∨
              triangle.v2.position.2 = (y : ℚ)) then 3 else 2) ∧
      (gouraudScanline y triangle = none ↔
        (triangle.min_y < (y : ℚ) ∧ (y : ℚ) < triangle.max_y ∧
          (triangle.v0.position.2 = (y : ℚ) ∨ triangle.v1.position.2 = (y : ℚ) ∨
            triangle.v2.position.2 = (y : ℚ)))) := by
  have hlen : (scanlineIntersections y triangle).length =
      (if triangle.min_y < (y : ℚ) ∧ (y : ℚ) < triangle.max_y ∧
          (triangle.v0.position.2 = (y : ℚ) ∨ triangle.v1.position.2 = (y : ℚ) ∨
            triangle.v2.position.2 = (y : ℚ)) then 3 else 2) := by
    rw [scanlineIntersections_length]
    exact edge_count _ _ _ _ hlo hhi hne
  refine ⟨hlen, ?_⟩
  rw [gouraudScanline_eq_none_iff, hlen]
  split_ifs with h
  · simp [h]
  · simp [h]

/-- Witness of the amended C12: the scanline `y = 1` of the triangle (0,0), (2,1), (0,2). -/
theorem scanline_intersections_count_witness :
    gouraudScanline 1 kiteTriangle = none ↔
      (kiteTriangle.min_y < ((1 : Int) : ℚ) ∧ ((1 : Int) : ℚ) < kiteTriangle.max_y ∧
        (kiteTriangle.v0.position.2 = ((1 : Int) : ℚ) ∨
          kiteTriangle.v1.position.2 = ((1 : Int) : ℚ) ∨
          kiteTriangle.v2.position.2 = ((1 : Int) : ℚ))) :=
  (scanline_intersections_count kiteTriangle 1
    (by norm_num [Triangle.min_y, Triangle.max_y, kiteTriangle])
    (by norm_num [Triangle.min_y, kiteTriangle])
    (by norm_num [Triangle.max_y, kiteTriangle])).2

/-! ## Free-form Gouraud triangle meshes -/

/-- A list of length 16 is its sixteen entries. -/
theorem list_length_sixteen {α : Type} (l : List α) (h : l.length = 16) :
    ∃ p0 p1 p2 p3 p4 p5 p6 p7 p8 p9 p10 p11 p12 p13 p14 p15,
      l = [p0, p1, p2, p3, p4, p5, p6, p7, p8, p9, p10, p11, p12, p13, p14, p15] := by
  rcases l with _ | ⟨p0, _ | ⟨p1, _ | ⟨p2, _ | ⟨p3, _ | ⟨p4, _ | ⟨p5, _ | ⟨p6, _ | ⟨p7,
    _ | ⟨p8, _ | ⟨p9, _ | ⟨p10, _ | ⟨p11, _ | ⟨p12, _ | ⟨p13, _ | ⟨p14, _ | ⟨p15, t⟩⟩⟩⟩⟩⟩⟩⟩⟩⟩⟩⟩⟩⟩⟩⟩ <;>
    try (simp at h; done)
  simp at h
  subst h
  exact ⟨p0, p1, p2, p3, p4, p5, p6, p7, p8, p9, p10, p11, p12, p13, p14, p15, rfl⟩

/-- The coordinate loop started at index `i` leaves every entry below `i` as it was. -/
theorem readCoordsLoop_below {σ : Type} (stream : MeshStreamOps σ)
    (transform : ℚ × ℚ → ℚ × ℚ) (n : Nat) :
    ∀ (i : Nat) (s : σ) (coords : List (ℚ × ℚ)) (j : Nat), j < i →
      (readCoordsLoop stream transform n i s coords).2[j]? = coords[j]? := by
  induction n with
  | zero => intro i s coords j _; rfl
  | succ n ih =>
    intro i s coords j hj
    unfold readCoordsLoop
    split_ifs
    · rw [ih (i + 1) _ _ j (by omega), List.getElem?_set_ne (by omega)]
    · rfl

/-- The coordinate loop keeps the length of `coords`. -/
theorem readCoordsLoop_length {σ : Type} (stream : MeshStreamOps σ)
    (transform : ℚ × ℚ → ℚ × ℚ) (n : Nat) :
    ∀ (i : Nat) (s : σ) (coords : List (ℚ × ℚ)),
      (readCoordsLoop stream transform n i s coords).2.length = coords.length := by
  induction n with
  | zero => intro i s coords; rfl
  | succ n ih =>
    intro i s coords
    unfold readCoordsLoop
    split_ifs
    · rw [ih, List.length_set]
    · rfl

/-- Storing at an index from 2 on leaves `patch_colors[0]` and `patch_colors[1]`. -/
theorem PatchColors.put_keeps (colors : PatchColors) (i : Nat) (c : CoonColor) (hi : 2 ≤ i) :
    (colors.put i c).k0 = colors.k0 ∧ (colors.put i c).k1 = colors.k1 := by
  match i, hi with
  | 2, _ => exact ⟨rfl, rfl⟩
  | 3, _ => exact ⟨rfl, rfl⟩
  | _ + 4, _ => exact ⟨rfl, rfl⟩

/-- The colour loop started at an index from 2 on leaves the first two colours. -/
theorem readColorsLoop_keeps {σ : Type} (stream : MeshStreamOps σ) (n : Nat) :
    ∀ (i : Nat) (s : σ) (colors : PatchColors) (r : σ × PatchColors), 2 ≤ i →
      readColorsLoop stream n i s colors = some r →
        r.2.k0 = colors.k0 ∧ r.2.k1 = colors.k1 := by
  induction n with
  | zero =>
    intro i s colors r _ h
    simp only [readColorsLoop, Option.some.injEq] at h
    subst h
    exact ⟨rfl, rfl⟩
  | succ n ih =>
    intro i s colors r hi h
    unfold readColorsLoop at h
    split_ifs at h
    · simp only [Option.bind_eq_bind, Option.bind_eq_some] at h
      obtain ⟨c0, _, c1, _, c2, _, h⟩ := h
      have h1 := ih (i + 1) _ _ r (by omega) h
      have h2 := PatchColors.put_keeps colors i ⟨c0, c1, c2⟩ hi
      exact ⟨h1.1.trans h2.1, h1.2.trans h2.2⟩
    · simp only [Option.some.injEq] at h
      subst h
      exact ⟨rfl, rfl⟩

/-- The `if (flag)` block on a full `coords` array, for an edge flag 1, 2 or 3. -/
theorem reusePatchEdge_eq (flag : Nat) (coords : List (ℚ × ℚ)) (colors : PatchColors)
    (hflag : flag = 1 ∨ flag = 2 ∨ flag = 3) (hlen : coords.length = 16) :
    ∃ reused, reusePatchEdge flag coords colors = some reused ∧
      (∀ i, i < 4 → reused.1[i]? = coords[(flag * 3 + i) % 12]?) ∧
      reused.1.drop 4 = coords.drop 4 ∧
      some reused.2.k0 = colors.at? flag ∧
      some reused.2.k1 = colors.at? ((flag + 1) % 4) ∧
      reused.2.k2 = colors.k2 ∧ reused.2.k3 = colors.k3 := by
  obtain ⟨p0, p1, p2, p3, p4, p5, p6, p7, p8, p9, p10, p11, p12, p13, p14, p15, rfl⟩ :=
    list_length_sixteen coords hlen
  rcases hflag with rfl | rfl | rfl
  all_goals
    refine ⟨_, rfl, ?_, rfl, rfl, rfl, rfl, rfl⟩
    intro i hi
    interval_cases i <;> rfl

/-- The coordinate loop reads points as long as `CanReadCoords` allows: if the first `m`
of its `n` iterations can read and it either runs out of iterations or cannot read the
next point, it leaves the stream after `m` reads, stores the transformed `k`-th point at
index `i + k`, and leaves every other entry as it was. -/
theorem readCoordsLoop_spec {σ : Type} (stream : MeshStreamOps σ)
    (transform : ℚ × ℚ → ℚ × ℚ) (n : Nat) :
    ∀ (i : Nat) (s : σ) (coords : List (ℚ × ℚ)) (m : Nat), m ≤ n →
      (∀ k, k < m → stream.CanReadCoords (stream.afterCoords k s) = true) →
      (m = n ∨ stream.CanReadCoords (stream.afterCoords m s) = false) →
      (readCoordsLoop stream transform n i s coords).1 = stream.afterCoords m s ∧
        (∀ k, k < m → (readCoordsLoop stream transform n i s coords).2[i + k]? =
          (coords[i + k]?).map
            (fun _ => transform (stream.ReadCoords (stream.afterCoords k s)).1)) ∧
        (∀ j, j < i ∨ i + m ≤ j →
          (readCoordsLoop stream transform n i s coords).2[j]? = coords[j]?) := by
  induction n with
  | zero =>
    intro i s coords m hm _ _
    have : m = 0 := by omega
    subst this
    exact ⟨rfl, fun k hk => by omega, fun j _ => rfl⟩
  | succ n ih =>
    intro i s coords m hm hcan hstop
    cases m with
    | zero =>
      have hfalse : stream.CanReadCoords s = false := by
        rcases hstop with h | h
        · omega
        · exact h
      unfold readCoordsLoop
      rw [if_neg (by rw [hfalse]; simp)]
      exact ⟨rfl, fun k hk => by omega, fun j _ => rfl⟩
    | succ m =>
      have h0 : stream.CanReadCoords s = true := hcan 0 (by omega)
      unfold readCoordsLoop
      rw [if_pos h0]
      obtain ⟨r1, r2, r3⟩ := ih (i + 1) (stream.ReadCoords s).2
        (coords.set i (transform (stream.ReadCoords s).1)) m (by omega)
        (fun k hk => hcan (k + 1) (by omega))
        (by rcases hstop with h | h
            · left; omega
            · right; exact h)
      refine ⟨r1, ?_, ?_⟩
      · intro k hk
        cases k with
        | zero =>
          show (readCoordsLoop stream transform n (i + 1) (stream.ReadCoords s).2
            (coords.set i (transform (stream.ReadCoords s).1))).2[i]? = _
          rw [r3 i (Or.inl (by omega)), List.getElem?_set_self']
          rfl
        | succ k =>
          have e : i + (k + 1) = i + 1 + k := by omega
          rw [e, r2 k (by omega), List.getElem?_set_ne (by omega)]
          rfl
      · intro j hj
        rw [r3 j (by omega), List.getElem?_set_ne (by omega)]

/-- The iterations of the coordinate loop that can read: some `m` of the `n` do, and
then the loop runs out of iterations or `CanReadCoords` fails. -/
theorem exists_coords_read {σ : Type} (stream : MeshStreamOps σ) (n : Nat) (s : σ) :
    ∃ m, m ≤ n ∧ (∀ k, k < m → stream.CanReadCoords (stream.afterCoords k s) = true) ∧
      (m = n ∨ stream.CanReadCoords (stream.afterCoords m s) = false) := by
  induction n with
  | zero => exact ⟨0, le_refl 0, fun k hk => by omega, Or.inl rfl⟩
  | succ n ih =>
    obtain ⟨m, hm, hcan, hstop⟩ := ih
    rcases hstop with rfl | hstop
    · by_cases h : stream.CanReadCoords (stream.afterCoords m s) = true
      · refine ⟨m + 1, le_refl _, fun k hk => ?_, Or.inl rfl⟩
        rcases Nat.lt_succ_iff_lt_or_eq.mp hk with hk | rfl
        · exact hcan k hk
        · exact h
      · exact ⟨m, by omega, hcan, Or.inr (by simpa using h)⟩
    · exact ⟨m, by omega, hcan, Or.inr hstop⟩

/-- The two iterations of the colour loop started at colour 2: it stores the colour of
the first value read at colour 2 and that of the second at colour 3, stops at the first
failed `CanReadColor`, and is undefined where a cast is. -/
theorem readColorsLoop_two {σ : Type} (stream : MeshStreamOps σ) (t : σ)
    (colors : PatchColors) :
    readColorsLoop stream 2 2 t colors =
      if stream.CanReadColor t = true then
        (colorFromRGB (stream.ReadColor t).1).bind fun c2 =>
          if stream.CanReadColor (stream.ReadColor t).2 = true then
            (colorFromRGB (stream.ReadColor (stream.ReadColor t).2).1).bind fun c3 =>
              some ((stream.ReadColor (stream.ReadColor t).2).2,
                ({ colors with k2 := c2, k3 := c3 } : PatchColors))
          else some ((stream.ReadColor t).2, ({ colors with k2 := c2 } : PatchColors))
      else some (t, colors) := by
  unfold readColorsLoop
  by_cases h0 : stream.CanReadColor t = true
  · rw [if_pos h0, if_pos h0]
    unfold colorFromRGB
    simp only [Option.bind_eq_bind, Option.pure_def, Option.bind_assoc]
    cases castInt32 ((stream.ReadColor t).1.1 * 255) with
    | none => rfl
    | some a0 =>
      cases castInt32 ((stream.ReadColor t).1.2.1 * 255) with
      | none => rfl
      | some a1 =>
        cases castInt32 ((stream.ReadColor t).1.2.2 * 255) with
        | none => rfl
        | some a2 =>
          simp only [Option.some_bind]
          unfold readColorsLoop
          by_cases h1 : stream.CanReadColor (stream.ReadColor t).2 = true
          · rw [if_pos h1, if_pos h1]
            simp only [Option.bind_eq_bind, Option.pure_def, Option.bind_assoc]
            cases castInt32 ((stream.ReadColor (stream.ReadColor t).2).1.1 * 255) with
            | none => rfl
            | some b0 =>
              cases castInt32 ((stream.ReadColor (stream.ReadColor t).2).1.2.1 * 255) with
              | none => rfl
              | some b1 =>
                cases castInt32 ((stream.ReadColor (stream.ReadColor t).2).1.2.2 * 255) with
                | none => rfl
                | some b2 => rfl
          · rw [if_neg h1, if_neg h1]
            rfl
  · rw [if_neg h0, if_neg h0]

/-- C11. In `DrawCoonPatchMeshes`, for an edge flag `f` of 1, 2 or 3 and the 16-entry
`coords` array, every index `(3f + i) mod 12` with `i < 4` is below 12 (they are
3,4,5,6 for `f = 1`, 6,7,8,9 for `f = 2` and 9,10,11,0 for `f = 3`) and `f` and
`(f + 1) mod 4` are below 4; the `if (flag)` block succeeds and makes points 0..3 the
previous points at these indices and colours 0..1 the previous colours `f` and
`(f + 1) mod 4`, leaving points 4.. and colours 2..3. The record is then read from the
stream, for 12 as for 16 points: with `m` the number of points the stream can supply
(up to `point_count - 4`), point `4 + k` becomes the transformed `k`-th point read for
`k < m`, the points from `4 + m` on stay, colour 2 becomes the first colour read after
the points and colour 3 the second, each as far as `CanReadColor` allows, and nothing is
read into points 0..3 and colours 0..1. The result is undefined only where the cast of
a colour read is. -/
theorem patch_edge_reuse {σ : Type} (stream : MeshStreamOps σ) (transform : ℚ × ℚ → ℚ × ℚ)
    (point_count flag : Nat) (s : σ) (coords : List (ℚ × ℚ)) (colors : PatchColors)
    (hflag : flag = 1 ∨ flag = 2 ∨ flag = 3) (hlen : coords.length = 16)
    (hcount : point_count = 12 ∨ point_count = 16) :
    (∀ i, i < 4 → (flag * 3 + i) % 12 < 12) ∧ flag < 4 ∧ (flag + 1) % 4 < 4 ∧
      (List.range 4).map (fun i => (flag * 3 + i) % 12) =
        (if flag = 1 then [3, 4, 5, 6] else if flag = 2 then [6, 7, 8, 9]
          else [9, 10, 11, 0]) ∧
      ∃ reused, reusePatchEdge flag coords colors = some reused ∧
        (∀ i, i < 4 → reused.1[i]? = coords[(flag * 3 + i) % 12]?) ∧
        reused.1.drop 4 = coords.drop 4 ∧
        some reused.2.k0 = colors.at? flag ∧
        some reused.2.k1 = colors.at? ((flag + 1) % 4) ∧
        reused.2.k2 = colors.k2 ∧ reused.2.k3 = colors.k3 ∧
        readPatchRecord stream transform point_count flag s coords colors =
          (readColorsLoop stream 2 2
            (readCoordsLoop stream transform (point_count - 4) 4 s reused.1).1 reused.2).map
            (fun r =>
              (r.1, (readCoordsLoop stream transform (point_count - 4) 4 s reused.1).2, r.2)) ∧
        (∀ result,
          readPatchRecord stream transform point_count flag s coords colors = some result →
            (∀ i, i < 4 → result.2.1[i]? = coords[(flag * 3 + i) % 12]?) ∧
            some result.2.2.k0 = colors.at? flag ∧
            some result.2.2.k1 = colors.at? ((flag + 1) % 4)) ∧
        ∃ m, m ≤ point_count - 4 ∧
          (∀ k, k < m → stream.CanReadCoords (stream.afterCoords k s) = true) ∧
          (m = point_count - 4 ∨ stream.CanReadCoords (stream.afterCoords m s) = false) ∧
          ((readPatchRecord stream transform point_count flag s coords colors).isSome = true ↔
            (stream.CanReadColor (stream.afterCoords m s) = true →
              (colorFromRGB (stream.ReadColor (stream.afterCoords m s)).1).isSome = true ∧
              (stream.CanReadColor (stream.ReadColor (stream.afterCoords m s)).2 = true →
                (colorFromRGB (stream.ReadColor
                  (stream.ReadColor (stream.afterCoords m s)).2).1).isSome = true))) ∧
          ∀ result,
            readPatchRecord stream transform point_count flag s coords colors = some result →
              result.2.1.length = 16 ∧
              (∀ k, k < m → result.2.1[4 + k]? =
                some (transform (stream.ReadCoords (stream.afterCoords k s)).1)) ∧
              (∀ j, 4 + m ≤ j → result.2.1[j]? = coords[j]?) ∧
              (stream.CanReadColor (stream.afterCoords m s) = false →
                result.1 = stream.afterCoords m s ∧ result.2.2.k2 = colors.k2 ∧
                  result.2.2.k3 = colors.k3) ∧
              (stream.CanReadColor (stream.afterCoords m s) = true →
                some result.2.2.k2 =
                    colorFromRGB (stream.ReadColor (stream.afterCoords m s)).1 ∧
                  (stream.CanReadColor (stream.ReadColor (stream.afterCoords m s)).2 = false →
                    result.1 = (stream.ReadColor (stream.afterCoords m s)).2 ∧
                      result.2.2.k3 = colors.k3) ∧
                  (stream.CanReadColor (stream.ReadColor (stream.afterCoords m s)).2 = true →
                    some result.2.2.k3 = colorFromRGB (stream.ReadColor
                        (stream.ReadColor (stream.afterCoords m s)).2).1 ∧
                      result.1 = (stream.ReadColor
                        (stream.ReadColor (stream.afterCoords m s)).2).2)) := by
  obtain ⟨reused, hre, hpts, hdrop, hk0, hk1, hk2, hk3⟩ :=
    reusePatchEdge_eq flag coords colors hflag hlen
  have hne : flag ≠ 0 := by omega
  have hrec : readPatchRecord stream transform point_count flag s coords colors =
      (readColorsLoop stream 2 2
        (readCoordsLoop stream transform (point_count - 4) 4 s reused.1).1 reused.2).map
        (fun r =>
          (r.1, (readCoordsLoop stream transform (point_count - 4) 4 s reused.1).2, r.2)) := by
    unfold readPatchRecord
    simp only [hne, ne_eq, not_false_eq_true, if_true, hre, Option.bind_eq_bind,
      Option.some_bind]
    cases readColorsLoop stream 2 2
      (readCoordsLoop stream transform (point_count - 4) 4 s reused.1).1 reused.2 <;> rfl
  have hrlen : reused.1.length = 16 := by
    have h1 := congrArg List.length hdrop
    simp only [List.length_drop, hlen] at h1
    omega
  have hge : ∀ j, 4 ≤ j → reused.1[j]? = coords[j]? := by
    intro j hj
    have h1 : (reused.1.drop 4)[j - 4]? = (coords.drop 4)[j - 4]? := by rw [hdrop]
    rw [List.getElem?_drop, List.getElem?_drop] at h1
    have e : 4 + (j - 4) = j := by omega
    rw [e] at h1
    exact h1
  obtain ⟨m, hm, hcan, hstop⟩ := exists_coords_read stream (point_count - 4) s
  obtain ⟨c1, c2, c3⟩ := readCoordsLoop_spec stream transform (point_count - 4) 4 s reused.1 m
    hm hcan hstop
  have clen := readCoordsLoop_length stream transform (point_count - 4) 4 s reused.1
  have hrec0 := hrec
  rw [c1, readColorsLoop_two] at hrec
  refine ⟨fun i _ => Nat.mod_lt _ (by decide), by omega, Nat.mod_lt _ (by decide), ?_,
    reused, hre, hpts, hdrop, hk0, hk1, hk2, hk3, ?_, ?_, m, hm, hcan, hstop, ?_, ?_⟩
  · rcases hflag with rfl | rfl | rfl <;> decide
  · exact hrec0
  · intro result hres
    rw [hrec0, Option.map_eq_some'] at hres
    obtain ⟨r, hr, rfl⟩ := hres
    have hkeep := readColorsLoop_keeps stream 2 2 _ reused.2 r (le_refl 2) hr
    refine ⟨fun i hi => ?_, ?_, ?_⟩
    · rw [← hpts i hi]
      exact c3 i (Or.inl hi)
    · rw [← hk0]; exact congrArg some hkeep.1
    · rw [← hk1]; exact congrArg some hkeep.2
  · rw [hrec, Option.isSome_map']
    by_cases h0 : stream.CanReadColor (stream.afterCoords m s) = true
    · rw [if_pos h0]
      cases hc2 : colorFromRGB (stream.ReadColor (stream.afterCoords m s)).1 with
      | none => simp [h0]
      | some a =>
        by_cases h1 : stream.CanReadColor (stream.ReadColor (stream.afterCoords m s)).2 = true
        · cases hc3 : colorFromRGB (stream.ReadColor
              (stream.ReadColor (stream.afterCoords m s)).2).1 with
          | none => simp [h0, h1, hc3]
          | some b => simp [h0, h1, hc3]
        · simp [h0, h1]
    · rw [if_neg h0]
      simp [h0]
  · intro result hres
    rw [hrec, Option.map_eq_some'] at hres
    obtain ⟨r, hr, rfl⟩ := hres
    simp only
    refine ⟨by rw [clen, hrlen], ?_, ?_, ?_, ?_⟩
    · intro k hk
      have hlt : 4 + k < reused.1.length := by omega
      rw [c2 k hk, List.getElem?_eq_getElem hlt]
      rfl
    · intro j hj
      rw [c3 j (Or.inr hj), hge j (by omega)]
    · intro h0
      rw [if_neg (by rw [h0]; simp)] at hr
      cases hr
      exact ⟨rfl, hk2, hk3⟩
    · intro h0
      rw [if_pos h0, Option.bind_eq_some] at hr
      obtain ⟨a, ha, hr⟩ := hr
      refine ⟨?_, ?_, ?_⟩
      · split_ifs at hr with h1
        · rw [Option.bind_eq_some] at hr
          obtain ⟨b, _, hr⟩ := hr
          cases hr
          exact ha.symm
        · cases hr
          exact ha.symm
      · intro h1
        rw [if_neg (by rw [h1]; simp)] at hr
        cases hr
        exact ⟨rfl, hk3⟩
      · intro h1
        rw [if_pos h1, Option.bind_eq_some] at hr
        obtain ⟨b, hb, hr⟩ := hr
        cases hr
        exact ⟨hb.symm, rfl⟩

/-- The sample record is read in full: eight points, then two colours. -/
theorem sample_patch_record :
    readPatchRecord listMeshStream id 12 1 sampleRecord numberedCoords
        numberedColors =
      some ([], [(3, 0), (4, 0), (5, 0), (6, 0), (20, 0), (21, 0), (22, 0), (23, 0), (24, 0),
        (25, 0), (26, 0), (27, 0), (12, 0), (13, 0), (14, 0), (15, 0)],
        ⟨⟨1, 1, 1⟩, ⟨2, 2, 2⟩, ⟨255, 0, 0⟩, ⟨0, 255, 0⟩⟩) := by
  have h255 : castInt32 255 = some 255 :=
    castInt32_eq_of_nonneg (by norm_num) (by norm_num) (by norm_num) (by decide)
  have h0 : castInt32 0 = some 0 :=
    castInt32_eq_of_nonneg (by norm_num) (by norm_num) (by norm_num) (by decide)
  simp [readPatchRecord, reusePatchEdge, readCoordsLoop, readColorsLoop, listMeshStream,
    numberedCoords, numberedColors, sampleRecord, PatchColors.at?, PatchColors.put, h255, h0]

/-- Witness of C11: flag 1 on sixteen numbered points and four numbered colours, with a
stream that holds the eight points and two colours of the record: the record is read,
the patch has 16 points, of which points 0..3 are the previous points 3, 4, 5, 6, and
its colours 0..1 are the previous colours 1, 2. -/
theorem patch_edge_reuse_witness :
    ∃ result,
      readPatchRecord listMeshStream id 12 1 sampleRecord numberedCoords numberedColors =
        some result ∧
      result.2.1.length = 16 ∧
      (∀ i, i < 4 → result.2.1[i]? = numberedCoords[(1 * 3 + i) % 12]?) ∧
      some result.2.2.k0 = numberedColors.at? 1 ∧
      some result.2.2.k1 = numberedColors.at? ((1 + 1) % 4) := by
  obtain ⟨-, -, -, -, reused, -, -, -, -, -, -, -, -, hold, m, -, -, -, -, hall⟩ :=
    patch_edge_reuse listMeshStream id 12 1 sampleRecord numberedCoords numberedColors
      (Or.inl rfl) rfl (Or.inl rfl)
  exact ⟨_, sample_patch_record, (hall _ sample_patch_record).1,
    hold _ sample_patch_record⟩

/-! ## UTF-8 round trip -/

/-- The decoding vectors of `TEST(WideString, FromUTF8)` and
`TEST(WideString, FromUTF8Supplementary)`. -/
theorem FromUTF8_vectors :
    FromUTF8 [] = [] ∧
      FromUTF8 [0x78, 0xc2, 0x80, 0xc3, 0xbf, 0xed, 0x9f, 0xbf, 0xee, 0x80, 0x80, 0xef, 0xbc,
          0xac, 0xef, 0xbf, 0xbf, 0x79] =
        [0x78, 0x80, 0xff, 0xd7ff, 0xe000, 0xff2c, 0xffff, 0x79] ∧
      FromUTF8 [0xf0, 0x90, 0x80, 0x80, 0xf0, 0x9f, 0x8e, 0xa8, 0xf4, 0x8f, 0xbf, 0xbf] =
        [0x10000, 0x1f3a8, 0x10ffff] := by
  decide

/-- The vectors of `TEST(WideString, FromUTF8ErrorRecovery)`. -/
theorem FromUTF8_error_recovery :
    FromUTF8 [0x28, 0xc2, 0x41, 0x29] = [0x28, 0x41, 0x29] ∧
      FromUTF8 [0x28, 0xc2, 0xc2, 0x29] = [0x28, 0x29] ∧
      FromUTF8 [0x28, 0xc2, 0xff, 0x80, 0x29] = [0x28, 0x29] ∧
      FromUTF8 [0x28, 0x80, 0x80, 0x29] = [0x28, 0x29] ∧
      FromUTF8 [0x28, 0xff, 0x80, 0x80, 0x29] = [0x28, 0x29] ∧
      FromUTF8 [0x28, 0xf8, 0x80, 0x80, 0x80, 0x80, 0x29] = [0x28, 0x29] ∧
      FromUTF8 [0x28, 0xf8, 0x88, 0x80, 0x80, 0x80, 0x29] = [0x28, 0x29] ∧
      FromUTF8 [0x28, 0xf4, 0x90, 0x80, 0x80, 0x29] = [0x28, 0x29] := by
  decide

/-- Feeding the encoding of one code point up to U+10FFFF to the decoder, from any
state, appends that code point and leaves no sequence unfinished. -/
theorem decode_encodeCodePoint (d : UTF8Decoder) (c : Nat)
    (hc : c ≤ kMaximumSupplementaryCodePoint) :
    ∃ p, (encodeCodePoint c).foldl UTF8Decoder.ProcessByte d = ⟨0, p, d.buffer ++ [c]⟩ := by
  unfold kMaximumSupplementaryCodePoint at hc
  unfold encodeCodePoint
  rw [if_neg (by unfold kMaximumSupplementaryCodePoint; omega)]
  by_cases h1 : c < 0x80
  · rw [if_pos h1]
    refine ⟨d.pending_code_point, ?_⟩
    simp only [List.foldl_cons, List.foldl_nil, UTF8Decoder.ProcessByte, if_pos h1,
      UTF8Decoder.AppendCodePoint, kMaximumSupplementaryCodePoint]
    rw [if_neg (by omega)]
  · rw [if_neg h1]
    by_cases h2 : c < 0x800
    · rw [if_pos h2]
      refine ⟨c, ?_⟩
      have a1 : ¬ (0xc0 + c / 64 < 0x80) := by omega
      have a2 : ¬ (0xc0 + c / 64 < 0xc0) := by omega
      have a3 : 0xc0 + c / 64 < 0xe0 := by omega
      have b1 : ¬ (0x80 + c % 64 < 0x80) := by omega
      have b2 : 0x80 + c % 64 < 0xc0 := by omega
      have e : (0xc0 + c / 64) % 32 * 64 + (0x80 + c % 64) % 64 * 64 ^ (1 - 1) = c := by
        norm_num
        omega
      simp only [List.foldl_cons, List.foldl_nil, UTF8Decoder.ProcessByte, if_neg a1,
        if_neg a2, if_pos a3, if_neg b1, if_pos b2, UTF8Decoder.AppendCodePoint,
        kMaximumSupplementaryCodePoint, e, Nat.lt_irrefl, Nat.sub_self, if_true,
        Nat.one_pos, gt_iff_lt]
      rw [if_neg (by omega)]
    · rw [if_neg h2]
      by_cases h3 : c < 0x10000
      · rw [if_pos h3]
        refine ⟨c, ?_⟩
        have a1 : ¬ (0xe0 + c / 4096 < 0x80) := by omega
        have a2 : ¬ (0xe0 + c / 4096 < 0xc0) := by omega
        have a3 : ¬ (0xe0 + c / 4096 < 0xe0) := by omega
        have a4 : 0xe0 + c / 4096 < 0xf0 := by omega
        have b1 : ¬ (0x80 + c % 4096 / 64 < 0x80) := by omega
        have b2 : 0x80 + c % 4096 / 64 < 0xc0 := by omega
        have c1 : ¬ (0x80 + c % 64 < 0x80) := by omega
        have c2 : 0x80 + c % 64 < 0xc0 := by omega
        have e : (0xe0 + c / 4096) % 16 * 4096 + (0x80 + c % 4096 / 64) % 64 * 64 ^ (2 - 1) +
            (0x80 + c % 64) % 64 * 64 ^ (2 - 1 - 1) = c := by
          norm_num
          omega
        simp only [List.foldl_cons, List.foldl_nil, UTF8Decoder.ProcessByte, if_neg a1,
          if_neg a2, if_neg a3, if_pos a4, if_neg b1, if_pos b2, if_neg c1, if_pos c2,
          UTF8Decoder.AppendCodePoint, kMaximumSupplementaryCodePoint, e, gt_iff_lt,
          Nat.lt_irrefl, Nat.sub_self, if_true, Nat.one_pos, Nat.zero_lt_two,
          Nat.add_one_sub_one, Nat.one_ne_zero, if_false, Nat.reduceSub, Nat.reduceEqDiff,
          Nat.reduceLT]
        rw [if_neg (by omega)]
      · rw [if_neg h3]
        refine ⟨c, ?_⟩
        have a1 : ¬ (0xf0 + c / 262144 < 0x80) := by omega
        have a2 : ¬ (0xf0 + c / 262144 < 0xc0) := by omega
        have a3 : ¬ (0xf0 + c / 262144 < 0xe0) := by omega
        have a4 : ¬ (0xf0 + c / 262144 < 0xf0) := by omega
        have a5 : 0xf0 + c / 262144 < 0xf8 := by omega
        have b1 : ¬ (0x80 + c % 262144 / 4096 < 0x80) := by omega
        have b2 : 0x80 + c % 262144 / 4096 < 0xc0 := by omega
        have c1 : ¬ (0x80 + c % 4096 / 64 < 0x80) := by omega
        have c2 : 0x80 + c % 4096 / 64 < 0xc0 := by omega
        have d1 : ¬ (0x80 + c % 64 < 0x80) := by omega
        have d2 : 0x80 + c % 64 < 0xc0 := by omega
        have e : (0xf0 + c / 262144) % 8 * 262144 +
            (0x80 + c % 262144 / 4096) % 64 * 64 ^ (3 - 1) +
            (0x80 + c % 4096 / 64) % 64 * 64 ^ (3 - 1 - 1) +
            (0x80 + c % 64) % 64 * 64 ^ (3 - 1 - 1 - 1) = c := by
          norm_num
          omega
        simp only [List.foldl_cons, List.foldl_nil, UTF8Decoder.ProcessByte, if_neg a1,
          if_neg a2, if_neg a3, if_neg a4, if_pos a5, if_neg b1, if_pos b2, if_neg c1,
          if_pos c2, if_neg d1, if_pos d2,
          UTF8Decoder.AppendCodePoint, kMaximumSupplementaryCodePoint, e, gt_iff_lt,
          Nat.lt_irrefl, Nat.sub_self, if_true, Nat.one_pos, Nat.zero_lt_two,
          Nat.add_one_sub_one, Nat.one_ne_zero, if_false, Nat.reduceSub, Nat.reduceEqDiff,
          Nat.reduceLT]
        rw [if_neg (by omega)]

/-- Feeding the encoding of a wide string of code points up to U+10FFFF to the decoder,
from any state, appends the wide string. -/
theorem decode_FX_UTF8Encode (w : List Nat) :
    ∀ d : UTF8Decoder, (∀ c ∈ w, c ≤ kMaximumSupplementaryCodePoint) →
      ((FX_UTF8Encode w).foldl UTF8Decoder.ProcessByte d).buffer = d.buffer ++ w := by
  induction w with
  | nil => intro d _; simp [FX_UTF8Encode]
  | cons c w ih =>
    intro d h
    obtain ⟨p, hp⟩ := decode_encodeCodePoint d c (h c (List.mem_cons_self c w))
    have hfold : (FX_UTF8Encode (c :: w)).foldl UTF8Decoder.ProcessByte d =
        (FX_UTF8Encode w).foldl UTF8Decoder.ProcessByte ⟨0, p, d.buffer ++ [c]⟩ := by
      unfold FX_UTF8Encode
      rw [List.flatMap_cons, List.foldl_append, hp]
    rw [hfold, ih _ (fun x hx => h x (List.mem_cons_of_mem c hx))]
    simp

/-- `FromUTF8` undoes `FX_UTF8Encode` on every wide string of code points up to
U+10FFFF. -/
theorem FromUTF8_FX_UTF8Encode (w : List Nat)
    (h : ∀ c ∈ w, c ≤ kMaximumSupplementaryCodePoint) : FromUTF8 (FX_UTF8Encode w) = w := by
  unfold FromUTF8
  rw [decode_FX_UTF8Encode w _ h]
  rfl

/-- C17. UTF-8 decoding undoes UTF-8 encoding: `FromUTF8 (FX_UTF8Encode w) = w` for every
wide string `w` made of BMP code units that are not surrogates, for every wide string
made only of high surrogates, and for every wide string made only of low surrogates. -/
theorem utf8_encode_decode_consistency (w : List Nat)
    (h : (∀ c ∈ w, c < kMinimumSupplementaryCodePoint ∧ IsHighSurrogate c = false ∧
          IsLowSurrogate c = false) ∨
        (∀ c ∈ w, IsHighSurrogate c = true) ∨ (∀ c ∈ w, IsLowSurrogate c = true)) :
    FromUTF8 (FX_UTF8Encode w) = w := by
  apply FromUTF8_FX_UTF8Encode
  intro c hc
  unfold kMaximumSupplementaryCodePoint
  rcases h with h | h | h
  · have := (h c hc).1
    unfold kMinimumSupplementaryCodePoint at this
    omega
  · have := h c hc
    simp only [IsHighSurrogate, decide_eq_true_eq] at this
    omega
  · have := h c hc
    simp only [IsLowSurrogate, decide_eq_true_eq] at this
    omega

/-- Witness of C17: the wide string of `TEST(WideString, FromUTF8)`, made of BMP code
units that are not surrogates. -/
theorem utf8_encode_decode_consistency_witness :
    FromUTF8 (FX_UTF8Encode [0x78, 0x80, 0xff, 0xd7ff, 0xe000, 0xff2c, 0xffff, 0x79]) =
      [0x78, 0x80, 0xff, 0xd7ff, 0xe000, 0xff2c, 0xffff, 0x79] :=
  utf8_encode_decode_consistency [0x78, 0x80, 0xff, 0xd7ff, 0xe000, 0xff2c, 0xffff, 0x79]
    (Or.inl (by decide))

/-- The encoder gives the byte strings that `TEST(WideString, FromUTF8)` and
`TEST(WideString, FromUTF8Supplementary)` decode, and unpaired surrogates are encoded
and decoded like any other BMP code unit. -/
theorem FX_UTF8Encode_vectors :
    FX_UTF8Encode [0x78, 0x80, 0xff, 0xd7ff, 0xe000, 0xff2c, 0xffff, 0x79] =
        [0x78, 0xc2, 0x80, 0xc3, 0xbf, 0xed, 0x9f, 0xbf, 0xee, 0x80, 0x80, 0xef, 0xbc, 0xac,
          0xef, 0xbf, 0xbf, 0x79] ∧
      FX_UTF8Encode [0x10000, 0x1f3a8, 0x10ffff] =
        [0xf0, 0x90, 0x80, 0x80, 0xf0, 0x9f, 0x8e, 0xa8, 0xf4, 0x8f, 0xbf, 0xbf] ∧
      FromUTF8 (FX_UTF8Encode [0xd800, 0xdbff]) = [0xd800, 0xdbff] ∧
      FromUTF8 (FX_UTF8Encode [0xdc00, 0xdfff]) = [0xdc00, 0xdfff] := by
  decide

/-! ## Distance of a boundary curve -/

/-- `CoonBezierCoeff::Distance` is the distance between the two end values. -/
theorem coeff_Distance_eq (s : CoonBezierCoeff) :
    s.Distance = |s.eval 1 - s.eval 0| := by
  unfold CoonBezierCoeff.Distance CoonBezierCoeff.eval
  have e : s.a * 1 ^ 3 + s.b * 1 ^ 2 + s.c * 1 + s.d -
      (s.a * 0 ^ 3 + s.b * 0 ^ 2 + s.c * 0 + s.d) = s.a + s.b + s.c := by ring
  rw [e]
  simp only
  split_ifs with h
  · rw [abs_of_neg h]
  · rw [abs_of_nonneg (not_lt.mp h)]

/-- The end values of a coefficient set initialised from four control values. -/
theorem CoonBezierCoeff.InitFromPoints_ends (p0 p1 p2 p3 : ℚ) :
    (CoonBezierCoeff.InitFromPoints p0 p1 p2 p3).eval 0 = p0 ∧
      (CoonBezierCoeff.InitFromPoints p0 p1 p2 p3).eval 1 = p3 := by
  unfold CoonBezierCoeff.InitFromPoints CoonBezierCoeff.eval
  constructor <;> simp only <;> ring

/-- `CoonBezier::Distance` is the Manhattan distance between the two end points. -/
theorem curve_Distance_eq (s : CoonBezier) :
    s.Distance = |(s.eval 1).1 - (s.eval 0).1| + |(s.eval 1).2 - (s.eval 0).2| := by
  unfold CoonBezier.Distance CoonBezier.eval
  rw [coeff_Distance_eq, coeff_Distance_eq]

/-- C23. Over exact arithmetic, a curve initialised by `CoonBezier::InitFromPoints` from
the control points P0..P3 has `Distance() = |x3 - x0| + |y3 - y0|`, whatever the inner
control points are; for every curve `Distance()` is the Manhattan distance between its
end points, so the smallness test of `PatchDrawer::Draw` gives the same answer for two
sets of boundary curves with the same end points. -/
theorem Distance_is_end_point_distance (x0 y0 x1 y1 x2 y2 x3 y3 : ℚ) :
    (CoonBezier.InitFromPoints x0 y0 x1 y1 x2 y2 x3 y3).Distance = |x3 - x0| + |y3 - y0| ∧
      (∀ u1 v1 u2 v2 : ℚ,
        (CoonBezier.InitFromPoints x0 y0 u1 v1 u2 v2 x3 y3).Distance =
          (CoonBezier.InitFromPoints x0 y0 x1 y1 x2 y2 x3 y3).Distance) ∧
      (∀ C1 C2 D1 D2 E1 E2 F1 F2 : CoonBezier,
        (C1.eval 0 = E1.eval 0 ∧ C1.eval 1 = E1.eval 1) →
        (C2.eval 0 = E2.eval 0 ∧ C2.eval 1 = E2.eval 1) →
        (D1.eval 0 = F1.eval 0 ∧ D1.eval 1 = F1.eval 1) →
        (D2.eval 0 = F2.eval 0 ∧ D2.eval 1 = F2.eval 1) →
        bSmall C1 C2 D1 D2 = bSmall E1 E2 F1 F2) := by
  have hd : ∀ a0 b0 a1 b1 a2 b2 a3 b3 : ℚ,
      (CoonBezier.InitFromPoints a0 b0 a1 b1 a2 b2 a3 b3).Distance =
        |a3 - a0| + |b3 - b0| := by
    intro a0 b0 a1 b1 a2 b2 a3 b3
    rw [curve_Distance_eq]
    unfold CoonBezier.eval CoonBezier.InitFromPoints
    simp only
    rw [(CoonBezierCoeff.InitFromPoints_ends a0 a1 a2 a3).1,
      (CoonBezierCoeff.InitFromPoints_ends a0 a1 a2 a3).2,
      (CoonBezierCoeff.InitFromPoints_ends b0 b1 b2 b3).1,
      (CoonBezierCoeff.InitFromPoints_ends b0 b1 b2 b3).2]
  refine ⟨hd _ _ _ _ _ _ _ _, ?_, ?_⟩
  · intro u1 v1 u2 v2
    rw [hd, hd]
  · intro C1 C2 D1 D2 E1 E2 F1 F2 h1 h2 h3 h4
    unfold bSmall
    rw [curve_Distance_eq C1, curve_Distance_eq C2, curve_Distance_eq D1,
      curve_Distance_eq D2, curve_Distance_eq E1, curve_Distance_eq E2,
      curve_Distance_eq F1, curve_Distance_eq F2, h1.1, h1.2, h2.1, h2.2, h3.1,
      h3.2, h4.1, h4.2]

/-- A straight and a bent curve from (0,0) to (1,1/2) have the same end points. -/
theorem sample_curves_same_ends :
    (CoonBezier.InitFromPoints 0 0 (1 / 3) (1 / 6) (2 / 3) (1 / 3) 1 (1 / 2)).eval 0 =
        (CoonBezier.InitFromPoints 0 0 5 (-7) 9 9 1 (1 / 2)).eval 0 ∧
      (CoonBezier.InitFromPoints 0 0 (1 / 3) (1 / 6) (2 / 3) (1 / 3) 1 (1 / 2)).eval 1 =
        (CoonBezier.InitFromPoints 0 0 5 (-7) 9 9 1 (1 / 2)).eval 1 := by
  norm_num [CoonBezier.eval, CoonBezier.InitFromPoints, CoonBezierCoeff.InitFromPoints,
    CoonBezierCoeff.eval]

/-- Witness of C23: a straight and a bent curve from (0,0) to (1,1/2) have the same
`Distance()`, 3/2, and give the same smallness test. -/
theorem Distance_is_end_point_distance_witness :
    (CoonBezier.InitFromPoints 0 0 (1 / 3) (1 / 6) (2 / 3) (1 / 3) 1 (1 / 2)).Distance =
        |(1 : ℚ) - 0| + |(1 / 2 : ℚ) - 0| ∧
      (CoonBezier.InitFromPoints 0 0 5 (-7) 9 9 1 (1 / 2)).Distance =
        (CoonBezier.InitFromPoints 0 0 (1 / 3) (1 / 6) (2 / 3) (1 / 3) 1 (1 / 2)).Distance ∧
      bSmall (CoonBezier.InitFromPoints 0 0 (1 / 3) (1 / 6) (2 / 3) (1 / 3) 1 (1 / 2))
          (CoonBezier.InitFromPoints 0 0 (1 / 3) (1 / 6) (2 / 3) (1 / 3) 1 (1 / 2))
          (CoonBezier.InitFromPoints 0 0 (1 / 3) (1 / 6) (2 / 3) (1 / 3) 1 (1 / 2))
          (CoonBezier.InitFromPoints 0 0 (1 / 3) (1 / 6) (2 / 3) (1 / 3) 1 (1 / 2)) =
        bSmall (CoonBezier.InitFromPoints 0 0 5 (-7) 9 9 1 (1 / 2))
          (CoonBezier.InitFromPoints 0 0 5 (-7) 9 9 1 (1 / 2))
          (CoonBezier.InitFromPoints 0 0 5 (-7) 9 9 1 (1 / 2))
          (CoonBezier.InitFromPoints 0 0 5 (-7) 9 9 1 (1 / 2)) :=
  ⟨(Distance_is_end_point_distance 0 0 (1 / 3) (1 / 6) (2 / 3) (1 / 3) 1 (1 / 2)).1,
    (Distance_is_end_point_distance 0 0 (1 / 3) (1 / 6) (2 / 3) (1 / 3) 1 (1 / 2)).2.1
      5 (-7) 9 9,
    (Distance_is_end_point_distance 0 0 (1 / 3) (1 / 6) (2 / 3) (1 / 3) 1 (1 / 2)).2.2
      _ _ _ _ _ _ _ _ sample_curves_same_ends sample_curves_same_ends
      sample_curves_same_ends sample_curves_same_ends⟩

/-! ## `GetScanlineIntersect` -/

/-- The abscissa written by `GetScanlineIntersect`. -/
theorem GetScanlineIntersect_eq_some {y : Int} {first second : ℚ × ℚ} {x : ℚ}
    (h : GetScanlineIntersect y first second = some x) :
    x = first.1 + ((second.1 - first.1) * ((y : ℚ) - first.2) / (second.2 - first.2)) := by
  unfold GetScanlineIntersect at h
  split_ifs at h
  exact (Option.some.inj h).symm

/-- C24. `GetScanlineIntersect(y, first, second, x)` returns true if and only if
`first.y != second.y` and `min(first.y, second.y) <= y <= max(first.y, second.y)`. When
it returns true, over exact arithmetic the point `(x, y)` is on the line through `first`
and `second`, `x` lies between `first.x` and `second.x`, `x = first.x` when
`y = first.y` and `x = second.x` when `y = second.y`. When it returns false, `x` keeps
the content it had. -/
theorem GetScanlineIntersect_spec (y : Int) (first second : ℚ × ℚ) (x0 : ℚ) :
    ((GetScanlineIntersectInto y first second x0).1 = true ↔
        first.2 ≠ second.2 ∧ min first.2 second.2 ≤ (y : ℚ) ∧
          (y : ℚ) ≤ max first.2 second.2) ∧
      ((GetScanlineIntersectInto y first second x0).1 = true →
        GetScanlineIntersect y first second =
            some (GetScanlineIntersectInto y first second x0).2 ∧
          ((GetScanlineIntersectInto y first second x0).2 - first.1) * (second.2 - first.2) =
            (second.1 - first.1) * ((y : ℚ) - first.2) ∧
          min first.1 second.1 ≤ (GetScanlineIntersectInto y first second x0).2 ∧
          (GetScanlineIntersectInto y first second x0).2 ≤ max first.1 second.1 ∧
          ((y : ℚ) = first.2 → (GetScanlineIntersectInto y first second x0).2 = first.1) ∧
          ((y : ℚ) = second.2 → (GetScanlineIntersectInto y first second x0).2 = second.1)) ∧
      ((GetScanlineIntersectInto y first second x0).1 = false →
        GetScanlineIntersect y first second = none ∧
          (GetScanlineIntersectInto y first second x0).2 = x0) := by
  have hiff := GetScanlineIntersect_isSome_iff y first second
  cases hg : GetScanlineIntersect y first second with
  | none =>
    rw [hg] at hiff
    have e : GetScanlineIntersectInto y first second x0 = (false, x0) := by
      unfold GetScanlineIntersectInto; rw [hg]
    rw [e]
    refine ⟨?_, ?_, ?_⟩
    · rw [← hiff]; simp
    · intro h; exact absurd h (by simp)
    · intro _; exact ⟨rfl, rfl⟩
  | some x =>
    rw [hg] at hiff
    have e : GetScanlineIntersectInto y first second x0 = (true, x) := by
      unfold GetScanlineIntersectInto; rw [hg]
    rw [e]
    have hcond := hiff.mp rfl
    obtain ⟨hne, hlo, hhi⟩ := hcond
    have hx := GetScanlineIntersect_eq_some hg
    have hden : second.2 - first.2 ≠ 0 := fun h => hne (by linarith)
    have hline : (x - first.1) * (second.2 - first.2) =
        (second.1 - first.1) * ((y : ℚ) - first.2) := by
      rw [hx]; field_simp; ring
    refine ⟨⟨fun _ => ⟨hne, hlo, hhi⟩, fun _ => rfl⟩, ?_, ?_⟩
    · intro _
      refine ⟨rfl, hline, ?_, ?_, ?_, ?_⟩
      · simp only
        rcases lt_or_gt_of_ne hne with h | h
        · rw [min_eq_left (le_of_lt h), max_eq_right (le_of_lt h)] at *
          rcases le_total first.1 second.1 with hx1 | hx1
          · rw [min_eq_left hx1]
            have : 0 ≤ (x - first.1) * (second.2 - first.2) := by
              rw [hline]; exact mul_nonneg (by linarith) (by linarith)
            nlinarith
          · rw [min_eq_right hx1]
            have : (x - second.1) * (second.2 - first.2) =
                (second.1 - first.1) * ((y : ℚ) - second.2) := by
              have := hline; linarith
            have h2 : 0 ≤ (second.1 - first.1) * ((y : ℚ) - second.2) :=
              mul_nonneg_of_nonpos_of_nonpos (by linarith) (by linarith)
            nlinarith
        · rw [min_eq_right (le_of_lt h), max_eq_left (le_of_lt h)] at *
          rcases le_total first.1 second.1 with hx1 | hx1
          · rw [min_eq_left hx1]
            have h2 : 0 ≤ (second.1 - first.1) * (first.2 - (y : ℚ)) :=
              mul_nonneg (by linarith) (by linarith)
            nlinarith
          · rw [min_eq_right hx1]
            have : (x - second.1) * (second.2 - first.2) =
                (second.1 - first.1) * ((y : ℚ) - second.2) := by
              have := hline; linarith
            have h2 : 0 ≤ (first.1 - second.1) * ((y : ℚ) - second.2) :=
              mul_nonneg (by linarith) (by linarith)
            nlinarith
      · simp only
        rcases lt_or_gt_of_ne hne with h | h
        · rw [min_eq_left (le_of_lt h), max_eq_right (le_of_lt h)] at *
          rcases le_total first.1 second.1 with hx1 | hx1
          · rw [max_eq_right hx1]
            have : (x - second.1) * (second.2 - first.2) =
                (second.1 - first.1) * ((y : ℚ) - second.2) := by
              have := hline; linarith
            have h2 : 0 ≤ (second.1 - first.1) * (second.2 - (y : ℚ)) :=
              mul_nonneg (by linarith) (by linarith)
            nlinarith
          · rw [max_eq_left hx1]
            have h2 : 0 ≤ (first.1 - second.1) * ((y : ℚ) - first.2) :=
              mul_nonneg (by linarith) (by linarith)
            nlinarith
        · rw [min_eq_right (le_of_lt h), max_eq_left (le_of_lt h)] at *
          rcases le_total first.1 second.1 with hx1 | hx1
          · rw [max_eq_right hx1]
            have : (x - second.1) * (second.2 - first.2) =
                (second.1 - first.1) * ((y : ℚ) - second.2) := by
              have := hline; linarith
            have h2 : 0 ≤ (second.1 - first.1) * ((y : ℚ) - second.2) :=
              mul_nonneg (by linarith) (by linarith)
            nlinarith
          · rw [max_eq_left hx1]
            have h2 : 0 ≤ (first.1 - second.1) * (first.2 - (y : ℚ)) :=
              mul_nonneg (by linarith) (by linarith)
            nlinarith
      · intro hy
        simp only
        rw [hx, hy]; simp
      · intro hy
        simp only
        rw [hx, hy]; field_simp
    · intro h; exact absurd h (by simp)

/-- Witness of C24: the edge from (0,0) to (2,2) meets the scanline `y = 1` at `x = 1`. -/
theorem GetScanlineIntersect_spec_witness :
    (GetScanlineIntersectInto 1 (0, 0) (2, 2) 7).1 = true ∧
      GetScanlineIntersect 1 (0, 0) (2, 2) =
        some (GetScanlineIntersectInto 1 (0, 0) (2, 2) 7).2 ∧
      min (0 : ℚ) 2 ≤ (GetScanlineIntersectInto 1 (0, 0) (2, 2) 7).2 ∧
      (GetScanlineIntersectInto 1 (0, 0) (2, 2) 7).2 ≤ max (0 : ℚ) 2 :=
  have h : (GetScanlineIntersectInto 1 (0, 0) (2, 2) 7).1 = true :=
    (GetScanlineIntersect_spec 1 (0, 0) (2, 2) 7).1.mpr
      ⟨by norm_num, by norm_num, by norm_num⟩
  ⟨h, ((GetScanlineIntersect_spec 1 (0, 0) (2, 2) 7).2.1 h).1,
    ((GetScanlineIntersect_spec 1 (0, 0) (2, 2) 7).2.1 h).2.2.1,
    ((GetScanlineIntersect_spec 1 (0, 0) (2, 2) 7).2.1 h).2.2.2.1⟩

/-- The value at the witness of C24: the flag is true and `x` becomes 1. -/
theorem GetScanlineIntersectInto_sample :
    GetScanlineIntersectInto 1 (0, 0) (2, 2) 7 = (true, 1) ∧
      GetScanlineIntersectInto 3 (0, 0) (2, 2) 7 = (false, 7) := by
  constructor <;> norm_num [GetScanlineIntersectInto, GetScanlineIntersect]

/-! ## The calls of a run of `PatchDrawer::Draw` -/

/-- The recursive part of `PatchDrawer::Draw` runs the calls of `recursiveCalls` in
order. -/
theorem drawBranch_eq_runCalls
    (draw : Int → Int → Int → Int → CoonBezier → CoonBezier → CoonBezier → CoonBezier →
      Option (List DrawEvent))
    (action : DrawAction) (call : DrawCall)
    (h : action = DrawAction.splitY ∨ action = DrawAction.splitX ∨
      action = DrawAction.splitBoth) :
    drawBranch draw action call.x_scale call.y_scale call.left call.bottom call.C1 call.C2
        call.D1 call.D2 =
      runCalls draw (recursiveCalls action call) := by
  rcases h with rfl | rfl | rfl
  · simp only [drawBranch, recursiveCalls, runCalls]
    cases draw call.x_scale (call.y_scale * 2) call.left (call.bottom * 2) call.C1
      (CoonBezier.InitFromBezierInterpolation call.D1 call.D2 call.C1 call.C2)
      call.D1.first_half call.D2.first_half <;>
    cases draw call.x_scale (call.y_scale * 2) call.left (call.bottom * 2 + 1)
      (CoonBezier.InitFromBezierInterpolation call.D1 call.D2 call.C1 call.C2) call.C2
      call.D1.second_half call.D2.second_half <;>
    simp
  · simp only [drawBranch, recursiveCalls, runCalls]
    cases draw (call.x_scale * 2) call.y_scale (call.left * 2) call.bottom
      call.C1.first_half call.C2.first_half call.D1
      (CoonBezier.InitFromBezierInterpolation call.C1 call.C2 call.D1 call.D2) <;>
    cases draw (call.x_scale * 2) call.y_scale (call.left * 2 + 1) call.bottom
      call.C1.second_half call.C2.second_half
      (CoonBezier.InitFromBezierInterpolation call.C1 call.C2 call.D1 call.D2) call.D2 <;>
    simp
  · simp only [drawBranch, recursiveCalls, runCalls]
    cases draw (call.x_scale * 2) (call.y_scale * 2) (call.left * 2) (call.bottom * 2)
      call.C1.first_half
      (CoonBezier.InitFromBezierInterpolation call.D1 call.D2 call.C1 call.C2).first_half
      call.D1.first_half
      (CoonBezier.InitFromBezierInterpolation call.C1 call.C2 call.D1 call.D2).first_half <;>
    cases draw (call.x_scale * 2) (call.y_scale * 2) (call.left * 2) (call.bottom * 2 + 1)
      (CoonBezier.InitFromBezierInterpolation call.D1 call.D2 call.C1 call.C2).first_half
      call.C2.first_half call.D1.second_half
      (CoonBezier.InitFromBezierInterpolation call.C1 call.C2 call.D1 call.D2).second_half <;>
    cases draw (call.x_scale * 2) (call.y_scale * 2) (call.left * 2 + 1) (call.bottom * 2)
      call.C1.second_half
      (CoonBezier.InitFromBezierInterpolation call.D1 call.D2 call.C1 call.C2).second_half
      (CoonBezier.InitFromBezierInterpolation call.C1 call.C2 call.D1 call.D2).first_half
      call.D2.first_half <;>
    cases draw (call.x_scale * 2) (call.y_scale * 2) (call.left * 2 + 1)
      (call.bottom * 2 + 1)
      (CoonBezier.InitFromBezierInterpolation call.D1 call.D2 call.C1 call.C2).second_half
      call.C2.second_half
      (CoonBezier.InitFromBezierInterpolation call.C1 call.C2 call.D1 call.D2).second_half
      call.D2.second_half <;>
    simp

/-- A property of calls that holds for the first call of a run, and for the recursive
calls of every call that has it, holds for every call of the run. -/
theorem drawCallsWith_invariant (small : SmallTest) (colors : PatchColors)
    (P : DrawCall → Prop)
    (hstep : ∀ call, P call → ∀ c ∈ recursiveCalls (call.action small colors) call, P c) :
    ∀ (depth : Nat) (call : DrawCall), P call →
      ∀ c ∈ drawCallsWith small colors depth call, P c := by
  intro depth
  induction depth with
  | zero =>
    intro call hP c hc
    simp only [drawCallsWith, List.mem_singleton] at hc
    rw [hc]; exact hP
  | succ depth ih =>
    intro call hP c hc
    simp only [drawCallsWith, List.mem_cons, List.mem_flatMap] at hc
    rcases hc with rfl | ⟨sub, hsub, hc⟩
    · exact hP
    · exact ih sub (hstep call hP sub hsub) c hc

/-! ## Corners of the sub-patches -/

/-- The curve of `InitFromBezierInterpolation` starts at the midpoint of `C1`, whatever
the four coefficient sets are. -/
theorem InitFromBezierInterpolation_start (C1 C2 D1 D2 : CoonBezierCoeff) :
    (CoonBezierCoeff.InitFromBezierInterpolation C1 C2 D1 D2).eval 0 = C1.eval (1 / 2) := by
  unfold CoonBezierCoeff.InitFromBezierInterpolation CoonBezierCoeff.eval
  simp only
  ring

/-- The curve of `InitFromBezierInterpolation` ends at the midpoint of `C2` when `D1`
runs from the start of `C1` to the start of `C2` and `D2` ends where `C2` ends. -/
theorem InitFromBezierInterpolation_end (C1 C2 D1 D2 : CoonBezierCoeff)
    (h1 : D1.eval 0 = C1.eval 0) (h2 : D1.eval 1 = C2.eval 0) (h4 : D2.eval 1 = C2.eval 1) :
    (CoonBezierCoeff.InitFromBezierInterpolation C1 C2 D1 D2).eval 1 = C2.eval (1 / 2) := by
  unfold CoonBezierCoeff.eval at h1 h2 h4
  unfold CoonBezierCoeff.InitFromBezierInterpolation CoonBezierCoeff.eval
  simp only
  linear_combination (1 / 2 : ℚ) * h2 - (1 / 2 : ℚ) * h1 + (1 / 2 : ℚ) * h4

/-- The value of a coefficient set at 0. -/
theorem CoonBezierCoeff.eval_zero (s : CoonBezierCoeff) : s.eval 0 = s.d := by
  unfold CoonBezierCoeff.eval; ring

/-- The value of a coefficient set at 1. -/
theorem CoonBezierCoeff.eval_one (s : CoonBezierCoeff) : s.eval 1 = s.a + s.b + s.c + s.d := by
  unfold CoonBezierCoeff.eval; ring

/-- The coefficient sets of the eight possible sub-patches meet at their corners when
those of the patch do. -/
theorem cornersMeet_subpatches (C1 C2 D1 D2 : CoonBezierCoeff)
    (h : CoonBezierCoeff.cornersMeet C1 C2 D1 D2) :
    CoonBezierCoeff.cornersMeet C1 (CoonBezierCoeff.InitFromBezierInterpolation D1 D2 C1 C2)
        D1.first_half D2.first_half ∧
      CoonBezierCoeff.cornersMeet (CoonBezierCoeff.InitFromBezierInterpolation D1 D2 C1 C2)
        C2 D1.second_half D2.second_half ∧
      CoonBezierCoeff.cornersMeet C1.first_half C2.first_half D1
        (CoonBezierCoeff.InitFromBezierInterpolation C1 C2 D1 D2) ∧
      CoonBezierCoeff.cornersMeet C1.second_half C2.second_half
        (CoonBezierCoeff.InitFromBezierInterpolation C1 C2 D1 D2) D2 ∧
      CoonBezierCoeff.cornersMeet C1.first_half
        (CoonBezierCoeff.InitFromBezierInterpolation D1 D2 C1 C2).first_half D1.first_half
        (CoonBezierCoeff.InitFromBezierInterpolation C1 C2 D1 D2).first_half ∧
      CoonBezierCoeff.cornersMeet
        (CoonBezierCoeff.InitFromBezierInterpolation D1 D2 C1 C2).first_half C2.first_half
        D1.second_half (CoonBezierCoeff.InitFromBezierInterpolation C1 C2 D1 D2).second_half ∧
      CoonBezierCoeff.cornersMeet C1.second_half
        (CoonBezierCoeff.InitFromBezierInterpolation D1 D2 C1 C2).second_half
        (CoonBezierCoeff.InitFromBezierInterpolation C1 C2 D1 D2).first_half D2.first_half ∧
      CoonBezierCoeff.cornersMeet
        (CoonBezierCoeff.InitFromBezierInterpolation D1 D2 C1 C2).second_half C2.second_half
        (CoonBezierCoeff.InitFromBezierInterpolation C1 C2 D1 D2).second_half
        D2.second_half := by
  simp only [CoonBezierCoeff.cornersMeet, CoonBezierCoeff.eval_zero,
    CoonBezierCoeff.eval_one, CoonBezierCoeff.InitFromBezierInterpolation,
    CoonBezierCoeff.first_half, CoonBezierCoeff.second_half] at h ⊢
  obtain ⟨h1, h2, h3, h4⟩ := h
  repeat' apply And.intro
  all_goals first | trivial | linarith

/-- Meeting at the corners, coordinate by coordinate. -/
theorem DrawCall.meetAtCorners_iff (call : DrawCall) :
    call.meetAtCorners ↔
      CoonBezierCoeff.cornersMeet call.C1.x call.C2.x call.D1.x call.D2.x ∧
        CoonBezierCoeff.cornersMeet call.C1.y call.C2.y call.D1.y call.D2.y := by
  unfold DrawCall.meetAtCorners CoonBezierCoeff.cornersMeet CoonBezier.eval
  simp only [Prod.mk.injEq]
  tauto

/-- The recursive calls of a call whose curves meet at their corners have curves that
meet at their corners. -/
theorem recursiveCalls_meetAtCorners (action : DrawAction) (call : DrawCall)
    (h : call.meetAtCorners) : ∀ c ∈ recursiveCalls action call, c.meetAtCorners := by
  rw [DrawCall.meetAtCorners_iff] at h
  have hx := cornersMeet_subpatches _ _ _ _ h.1
  have hy := cornersMeet_subpatches _ _ _ _ h.2
  intro c hc
  cases action with
  | abort => simp [recursiveCalls] at hc
  | fill color => simp [recursiveCalls] at hc
  | splitY =>
    simp only [recursiveCalls, List.mem_cons, List.mem_singleton, List.not_mem_nil,
      or_false] at hc
    rcases hc with rfl | rfl
    · exact (DrawCall.meetAtCorners_iff _).mpr ⟨hx.1, hy.1⟩
    · exact (DrawCall.meetAtCorners_iff _).mpr ⟨hx.2.1, hy.2.1⟩
  | splitX =>
    simp only [recursiveCalls, List.mem_cons, List.mem_singleton, List.not_mem_nil,
      or_false] at hc
    rcases hc with rfl | rfl
    · exact (DrawCall.meetAtCorners_iff _).mpr ⟨hx.2.2.1, hy.2.2.1⟩
    · exact (DrawCall.meetAtCorners_iff _).mpr ⟨hx.2.2.2.1, hy.2.2.2.1⟩
  | splitBoth =>
    simp only [recursiveCalls, List.mem_cons, List.mem_singleton, List.not_mem_nil,
      or_false] at hc
    rcases hc with rfl | rfl | rfl | rfl
    · exact (DrawCall.meetAtCorners_iff _).mpr ⟨hx.2.2.2.2.1, hy.2.2.2.2.1⟩
    · exact (DrawCall.meetAtCorners_iff _).mpr ⟨hx.2.2.2.2.2.1, hy.2.2.2.2.2.1⟩
    · exact (DrawCall.meetAtCorners_iff _).mpr ⟨hx.2.2.2.2.2.2.1, hy.2.2.2.2.2.2.1⟩
    · exact (DrawCall.meetAtCorners_iff _).mpr ⟨hx.2.2.2.2.2.2.2, hy.2.2.2.2.2.2.2⟩

/-- The curves of the initial call meet at their corners: they share the points
`coords[0]`, `coords[3]`, `coords[6]` and `coords[9]`. -/
theorem rootCall_meetAtCorners (coords : Nat → ℚ × ℚ) : (rootCall coords).meetAtCorners := by
  unfold DrawCall.meetAtCorners rootCall CoonBezier.eval CoonBezier.InitFromPoints
  simp only [(CoonBezierCoeff.InitFromPoints_ends _ _ _ _).1,
    (CoonBezierCoeff.InitFromPoints_ends _ _ _ _).2, and_self]

/-- C21. Over exact arithmetic, for coefficient sets `C1`, `C2`, `D1`, `D2` that meet at
their corners, the curve `M` of `InitFromBezierInterpolation(C1, C2, D1, D2)` starts at
the midpoint of `C1` and ends at the midpoint of `C2`; consequently the recursive calls
of a call of `PatchDrawer::Draw` whose four curves meet at their corners get curves
that meet at their corners, and so does every call of a run started by
`DrawCoonPatchMeshes`. -/
theorem interpolation_joins_midpoints (C1 C2 D1 D2 : CoonBezierCoeff)
    (h : CoonBezierCoeff.cornersMeet C1 C2 D1 D2) :
    (CoonBezierCoeff.InitFromBezierInterpolation C1 C2 D1 D2).eval 0 = C1.eval (1 / 2) ∧
      (CoonBezierCoeff.InitFromBezierInterpolation C1 C2 D1 D2).eval 1 = C2.eval (1 / 2) ∧
      (∀ (action : DrawAction) (call : DrawCall), call.meetAtCorners →
        ∀ c ∈ recursiveCalls action call, c.meetAtCorners) ∧
      (∀ (small : SmallTest) (colors : PatchColors) (coords : Nat → ℚ × ℚ) (depth : Nat),
        ∀ c ∈ drawCallsWith small colors depth (rootCall coords), c.meetAtCorners) :=
  ⟨InitFromBezierInterpolation_start C1 C2 D1 D2,
    InitFromBezierInterpolation_end C1 C2 D1 D2 h.1 h.2.1 h.2.2.2,
    recursiveCalls_meetAtCorners,
    fun small colors coords depth =>
      drawCallsWith_invariant small colors DrawCall.meetAtCorners
        (fun call hP => recursiveCalls_meetAtCorners _ call hP) depth (rootCall coords)
        (rootCall_meetAtCorners coords)⟩

/-- Witness of C21: `C1 = t^3`, `C2 = t^2 + 2`, `D1 = 2t`, `D2 = 2t^3 + 1` meet at their
corners; the interpolated curve runs from `C1(1/2) = 1/8` to `C2(1/2) = 9/4`. -/
theorem interpolation_joins_midpoints_witness :
    (CoonBezierCoeff.InitFromBezierInterpolation ⟨1, 0, 0, 0⟩ ⟨0, 1, 0, 2⟩ ⟨0, 0, 2, 0⟩
        ⟨2, 0, 0, 1⟩).eval 0 = CoonBezierCoeff.eval ⟨1, 0, 0, 0⟩ (1 / 2) ∧
      (CoonBezierCoeff.InitFromBezierInterpolation ⟨1, 0, 0, 0⟩ ⟨0, 1, 0, 2⟩ ⟨0, 0, 2, 0⟩
        ⟨2, 0, 0, 1⟩).eval 1 = CoonBezierCoeff.eval ⟨0, 1, 0, 2⟩ (1 / 2) :=
  ⟨(interpolation_joins_midpoints ⟨1, 0, 0, 0⟩ ⟨0, 1, 0, 2⟩ ⟨0, 0, 2, 0⟩ ⟨2, 0, 0, 1⟩
      (by norm_num [CoonBezierCoeff.cornersMeet, CoonBezierCoeff.eval])).1,
    (interpolation_joins_midpoints ⟨1, 0, 0, 0⟩ ⟨0, 1, 0, 2⟩ ⟨0, 0, 2, 0⟩ ⟨2, 0, 0, 1⟩
      (by norm_num [CoonBezierCoeff.cornersMeet, CoonBezierCoeff.eval])).2.1⟩

/-! ## Grid positions of the calls -/

/-- The recursive calls of a call inside its grid are inside their grids. -/
theorem recursiveCalls_inGrid (action : DrawAction) (call : DrawCall) (h : call.inGrid) :
    ∀ c ∈ recursiveCalls action call, c.inGrid := by
  obtain ⟨⟨i, hi⟩, ⟨j, hj⟩, hl0, hl, hb0, hb⟩ := h
  have hx : call.x_scale * 2 = 2 ^ (i + 1) := by rw [hi, pow_succ]
  have hy : call.y_scale * 2 = 2 ^ (j + 1) := by rw [hj, pow_succ]
  intro c hc
  cases action with
  | abort => simp [recursiveCalls] at hc
  | fill color => simp [recursiveCalls] at hc
  | splitY =>
    simp only [recursiveCalls, List.mem_cons, List.mem_singleton, List.not_mem_nil,
      or_false] at hc
    rcases hc with rfl | rfl
    · exact ⟨⟨i, hi⟩, ⟨j + 1, hy⟩, hl0, hl, by simp only; omega, by simp only; omega⟩
    · exact ⟨⟨i, hi⟩, ⟨j + 1, hy⟩, hl0, hl, by simp only; omega, by simp only; omega⟩
  | splitX =>
    simp only [recursiveCalls, List.mem_cons, List.mem_singleton, List.not_mem_nil,
      or_false] at hc
    rcases hc with rfl | rfl
    · exact ⟨⟨i + 1, hx⟩, ⟨j, hj⟩, by simp only; omega, by simp only; omega, hb0, hb⟩
    · exact ⟨⟨i + 1, hx⟩, ⟨j, hj⟩, by simp only; omega, by simp only; omega, hb0, hb⟩
  | splitBoth =>
    simp only [recursiveCalls, List.mem_cons, List.mem_singleton, List.not_mem_nil,
      or_false] at hc
    rcases hc with rfl | rfl | rfl | rfl
    · exact ⟨⟨i + 1, hx⟩, ⟨j + 1, hy⟩, by simp only; omega, by simp only; omega,
        by simp only; omega, by simp only; omega⟩
    · exact ⟨⟨i + 1, hx⟩, ⟨j + 1, hy⟩, by simp only; omega, by simp only; omega,
        by simp only; omega, by simp only; omega⟩
    · exact ⟨⟨i + 1, hx⟩, ⟨j + 1, hy⟩, by simp only; omega, by simp only; omega,
        by simp only; omega, by simp only; omega⟩
    · exact ⟨⟨i + 1, hx⟩, ⟨j + 1, hy⟩, by simp only; omega, by simp only; omega,
        by simp only; omega, by simp only; omega⟩

/-- The initial call `Draw(1, 1, 0, 0, ...)` is inside its grid. -/
theorem rootCall_inGrid (coords : Nat → ℚ × ℚ) : (rootCall coords).inGrid :=
  ⟨⟨0, rfl⟩, ⟨0, rfl⟩, le_refl 0, by show (0 : Int) < 1; decide, le_refl 0,
    by show (0 : Int) < 1; decide⟩

/-- C22. Every call of `PatchDrawer::Draw` in a run started by the initial call
`Draw(1, 1, 0, 0, ...)` has scales that are powers of two, `0 <= left < x_scale` and
`0 <= bottom < y_scale`; so the grid points `left`, `left + 1` and `bottom`,
`bottom + 1` handed to `BiInterpol` lie between 0 and the scale, and neither scale is
zero. -/
theorem draw_calls_stay_in_grid (small : SmallTest) (colors : PatchColors)
    (coords : Nat → ℚ × ℚ) (depth : Nat) (call : DrawCall)
    (h : call ∈ drawCallsWith small colors depth (rootCall coords)) :
    ((∃ i : Nat, call.x_scale = 2 ^ i) ∧ (∃ j : Nat, call.y_scale = 2 ^ j) ∧
        0 ≤ call.left ∧ call.left < call.x_scale ∧ 0 ≤ call.bottom ∧
        call.bottom < call.y_scale) ∧
      (0 ≤ call.left ∧ call.left + 1 ≤ call.x_scale ∧ 0 ≤ call.bottom ∧
        call.bottom + 1 ≤ call.y_scale) ∧
      call.x_scale ≠ 0 ∧ call.y_scale ≠ 0 := by
  have hin : call.inGrid :=
    drawCallsWith_invariant small colors DrawCall.inGrid
      (fun c hP => recursiveCalls_inGrid _ c hP) depth (rootCall coords)
      (rootCall_inGrid coords) call h
  obtain ⟨hi, hj, hl0, hl, hb0, hb⟩ := hin
  exact ⟨⟨hi, hj, hl0, hl, hb0, hb⟩, ⟨hl0, by omega, hb0, by omega⟩, by omega, by omega⟩

/-- On the corner colours 0, 0, 4, 4 the initial call, not small, splits along x. -/
theorem sample_root_action :
    (rootCall squareCoords).action (fun _ _ _ _ _ _ _ _ => false) fourApartColors =
      DrawAction.splitX := by
  unfold DrawCall.action rootCall
  decide

/-- The right half of the unit square is a call of the run of depth 1. -/
theorem sampleRightHalf_mem :
    sampleRightHalf ∈
      drawCallsWith (fun _ _ _ _ _ _ _ _ => false) fourApartColors 1 (rootCall squareCoords) := by
  simp only [drawCallsWith, sample_root_action, recursiveCalls, List.flatMap_cons,
    List.flatMap_nil, List.append_nil, List.singleton_append, List.mem_cons]
  right; right; left
  rfl

/-- Witness of C22: the right half of the unit square, a call at depth 1. -/
theorem draw_calls_stay_in_grid_witness :
    (0 ≤ sampleRightHalf.left ∧ sampleRightHalf.left + 1 ≤ sampleRightHalf.x_scale ∧
        0 ≤ sampleRightHalf.bottom ∧ sampleRightHalf.bottom + 1 ≤ sampleRightHalf.y_scale) ∧
      sampleRightHalf.x_scale ≠ 0 ∧ sampleRightHalf.y_scale ≠ 0 :=
  (draw_calls_stay_in_grid (fun _ _ _ _ _ _ _ _ => false) fourApartColors squareCoords 1
    sampleRightHalf sampleRightHalf_mem).2

/-- For corner colours in the byte range, a call in a grid no finer than 256 by 256
doubles a scale only while it is below 256: its recursive calls are again in such a
grid. -/
theorem recursiveCalls_inByteGrid (small : SmallTest) (colors : PatchColors)
    (hc : colors.inByteRange) (call : DrawCall) (h : call.inByteGrid) :
    ∀ c ∈ recursiveCalls (call.action small colors) call, c.inByteGrid := by
  obtain ⟨i, j, hi, hj, hxs, hys, hl0, hl, hb0, hb⟩ := h
  obtain ⟨hx1, hx256, hx8, hxlt⟩ := two_pow_bounds hi
  obtain ⟨hy1, hy256, hy8, hylt⟩ := two_pow_bounds hj
  rw [hxs] at hl
  rw [hys] at hb
  have s0 := BiInterpol_eq_bilinearColor hc (x := call.left) (y := call.bottom) (u := 2 ^ i)
    (v := 2 ^ j) hl0 (by omega) (by omega) hx256 hb0 (by omega) (by omega) hy256
  have s1 := BiInterpol_eq_bilinearColor hc (x := call.left) (y := call.bottom + 1)
    (u := 2 ^ i) (v := 2 ^ j) hl0 (by omega) (by omega) hx256 (by omega) (by omega)
    (by omega) hy256
  have s2 := BiInterpol_eq_bilinearColor hc (x := call.left + 1) (y := call.bottom + 1)
    (u := 2 ^ i) (v := 2 ^ j) (by omega) (by omega) (by omega) hx256 (by omega) (by omega)
    (by omega) hy256
  have s3 := BiInterpol_eq_bilinearColor hc (x := call.left + 1) (y := call.bottom)
    (u := 2 ^ i) (v := 2 ^ j) (by omega) (by omega) (by omega) hx256 hb0 (by omega)
    (by omega) hy256
  have hact := drawAction_of_success colors
    (small (2 ^ i) (2 ^ j) call.left call.bottom call.C1 call.C2 call.D1 call.D2)
    (2 ^ i) (2 ^ j) call.left call.bottom
    (by rw [s0]) (by rw [s1]) (by rw [s2]) (by rw [s3])
  have hxconv : i = 8 → edgeBottom colors (2 ^ i) (2 ^ j) call.left call.bottom < 4 ∧
      edgeTop colors (2 ^ i) (2 ^ j) call.left call.bottom < 4 := by
    intro h8
    have e := hx8 h8
    rw [e] at hl ⊢
    exact edges_x_converged hc hl0 hl hb0 hb hy256
  have hyconv : j = 8 → edgeLeft colors (2 ^ i) (2 ^ j) call.left call.bottom < 4 ∧
      edgeRight colors (2 ^ i) (2 ^ j) call.left call.bottom < 4 := by
    intro h8
    have e := hy8 h8
    rw [e] at hb ⊢
    exact edges_y_converged hc hl0 hl hx256 hb0 hb
  have hpx : call.x_scale * 2 = 2 ^ (i + 1) := by rw [hxs, pow_succ]
  have hpy : call.y_scale * 2 = 2 ^ (j + 1) := by rw [hys, pow_succ]
  have haction : call.action small colors =
      drawAction colors
        (small (2 ^ i) (2 ^ j) call.left call.bottom call.C1 call.C2 call.D1 call.D2)
        (2 ^ i) (2 ^ j) call.left call.bottom := by
    unfold DrawCall.action; rw [hxs, hys]
  rw [haction, hact]
  intro c hmem
  by_cases hfill :
      small (2 ^ i) (2 ^ j) call.left call.bottom call.C1 call.C2 call.D1 call.D2 = true ∨
      (edgeBottom colors (2 ^ i) (2 ^ j) call.left call.bottom < 4 ∧
        edgeLeft colors (2 ^ i) (2 ^ j) call.left call.bottom < 4 ∧
        edgeTop colors (2 ^ i) (2 ^ j) call.left call.bottom < 4 ∧
        edgeRight colors (2 ^ i) (2 ^ j) call.left call.bottom < 4)
  · rw [if_pos hfill] at hmem
    simp [recursiveCalls] at hmem
  · rw [if_neg hfill] at hmem
    by_cases hY : edgeBottom colors (2 ^ i) (2 ^ j) call.left call.bottom < 4 ∧
        edgeTop colors (2 ^ i) (2 ^ j) call.left call.bottom < 4
    · rw [if_pos hY] at hmem
      have hj8 : j < 8 := by
        by_contra hcon
        have := hyconv (by omega)
        exact hfill (Or.inr ⟨hY.1, this.1, hY.2, this.2⟩)
      simp only [recursiveCalls, List.mem_cons, List.mem_singleton, List.not_mem_nil,
        or_false] at hmem
      rcases hmem with rfl | rfl
      · exact ⟨i, j + 1, hi, by omega, hxs, hpy, hl0, by simp only; omega,
          by simp only; omega, by simp only; omega⟩
      · exact ⟨i, j + 1, hi, by omega, hxs, hpy, hl0, by simp only; omega,
          by simp only; omega, by simp only; omega⟩
    · rw [if_neg hY] at hmem
      have hi8 : i < 8 := by
        by_contra hcon
        exact hY (hxconv (by omega))
      by_cases hX : edgeLeft colors (2 ^ i) (2 ^ j) call.left call.bottom < 4 ∧
          edgeRight colors (2 ^ i) (2 ^ j) call.left call.bottom < 4
      · rw [if_pos hX] at hmem
        simp only [recursiveCalls, List.mem_cons, List.mem_singleton, List.not_mem_nil,
          or_false] at hmem
        rcases hmem with rfl | rfl
        · exact ⟨i + 1, j, by omega, hj, hpx, hys, by simp only; omega,
            by simp only; omega, hb0, by simp only; omega⟩
        · exact ⟨i + 1, j, by omega, hj, hpx, hys, by simp only; omega,
            by simp only; omega, hb0, by simp only; omega⟩
      · rw [if_neg hX] at hmem
        have hj8 : j < 8 := by
          by_contra hcon
          exact hX (hyconv (by omega))
        simp only [recursiveCalls, List.mem_cons, List.mem_singleton, List.not_mem_nil,
          or_false] at hmem
        rcases hmem with rfl | rfl | rfl | rfl
        · exact ⟨i + 1, j + 1, by omega, by omega, hpx, hpy, by simp only; omega,
            by simp only; omega, by simp only; omega, by simp only; omega⟩
        · exact ⟨i + 1, j + 1, by omega, by omega, hpx, hpy, by simp only; omega,
            by simp only; omega, by simp only; omega, by simp only; omega⟩
        · exact ⟨i + 1, j + 1, by omega, by omega, hpx, hpy, by simp only; omega,
            by simp only; omega, by simp only; omega, by simp only; omega⟩
        · exact ⟨i + 1, j + 1, by omega, by omega, hpx, hpy, by simp only; omega,
            by simp only; omega, by simp only; omega, by simp only; omega⟩

/-- For corner colours in the byte range, no call of a run started by the initial call
has a scale above 256: the doublings of `x_scale`, `y_scale`, `left` and `bottom` stay
far inside the range of `int`. -/
theorem draw_calls_scales_bounded (small : SmallTest) (colors : PatchColors)
    (hc : colors.inByteRange) (coords : Nat → ℚ × ℚ) (depth : Nat) (call : DrawCall)
    (h : call ∈ drawCallsWith small colors depth (rootCall coords)) :
    call.x_scale ≤ 256 ∧ call.y_scale ≤ 256 := by
  have hin : call.inByteGrid :=
    drawCallsWith_invariant small colors DrawCall.inByteGrid
      (fun c hP => recursiveCalls_inByteGrid small colors hc c hP) depth (rootCall coords)
      ⟨0, 0, by omega, by omega, rfl, rfl, le_refl 0, by show (0 : Int) < 1; decide,
        le_refl 0, by show (0 : Int) < 1; decide⟩ call h
  obtain ⟨i, j, hi, hj, hxs, hys, -⟩ := hin
  rw [hxs, hys]
  exact ⟨(two_pow_bounds hi).2.1, (two_pow_bounds hj).2.1⟩

/-! ## EDIFACT encodation -/

/-- The packed value of a buffer of 6-bit values fits 24 bits. -/
theorem edifactValue_lt (sb : List Nat) (h : ∀ c ∈ sb, c ≤ 63) : edifactValue sb < 2 ^ 24 := by
  have hget : ∀ i, sb.getD i 0 ≤ 63 := by
    intro i
    rw [List.getD_eq_getElem?_getD]
    cases hi : sb[i]? with
    | none => simp
    | some c => exact h c (List.mem_iff_getElem?.mpr ⟨i, hi⟩)
  have h0 := hget 0
  have h1 := hget 1
  have h2 := hget 2
  have h3 := hget 3
  unfold edifactValue
  simp only
  split_ifs <;> omega

/-- What `AppendEncodedChar` accepts and what it stores. -/
theorem AppendEncodedChar_spec (c : Nat) (sb : List Nat) :
    ((AppendEncodedChar c sb).1 = true ↔ 0x20 ≤ c ∧ c ≤ 0x5e) ∧
      ((AppendEncodedChar c sb).1 = true → (AppendEncodedChar c sb).2 = sb ++ [c % 64]) ∧
      ((AppendEncodedChar c sb).1 = false → (AppendEncodedChar c sb).2 = sb) := by
  unfold AppendEncodedChar
  by_cases h1 : c ≥ 0x20 ∧ c ≤ 0x3f
  · rw [if_pos h1]
    have e : c % 64 = c := by omega
    refine ⟨⟨fun _ => by omega, fun _ => rfl⟩, fun _ => by rw [e], fun h => by simp at h⟩
  · rw [if_neg h1]
    by_cases h2 : c ≥ 0x40 ∧ c ≤ 0x5e
    · rw [if_pos h2]
      have e : c % 64 = c - 64 := by omega
      refine ⟨⟨fun _ => by omega, fun _ => rfl⟩, fun _ => by rw [e], fun h => by simp at h⟩
    · rw [if_neg h2]
      refine ⟨⟨fun h => by simp at h, fun h => by omega⟩, fun h => by simp at h, fun _ => rfl⟩

/-- The loop of `Encode`, started with at most three 6-bit values in the buffer, hands
only buffers of four 6-bit values to `EncodeToEdifactCodewords`, never leaves the range
of `int32_t`, and reaches `HandleEOD` with one to four 6-bit values. -/
theorem encodeLoop_invariant {σ : Type} (ops : EdifactContextOps σ) (fuel : Nat) :
    ∀ (context : σ) (buffer : List Nat) (packed : List (List Nat)),
      buffer.length ≤ 3 → (∀ c ∈ buffer, c ≤ 63) →
      (∀ sb ∈ packed, sb.length = 4 ∧ ∀ c ∈ sb, c ≤ 63) →
      (∀ sb ∈ (encodeLoop ops fuel context buffer packed).packed,
          sb.length = 4 ∧ ∀ c ∈ sb, c ≤ 63) ∧
        (∀ p, encodeLoop ops fuel context buffer packed ≠ EncodeOutcome.undefinedPacking p) ∧
        (∀ ctx buf p,
          encodeLoop ops fuel context buffer packed = EncodeOutcome.callsHandleEOD ctx buf p →
            1 ≤ buf.length ∧ buf.length ≤ 4 ∧ ∀ c ∈ buf, c ≤ 63) := by
  induction fuel with
  | zero =>
    intro context buffer packed _ _ hp
    simp only [encodeLoop, EncodeOutcome.packed]
    exact ⟨hp, fun p h => (by cases h), fun ctx buf p h => (by cases h)⟩
  | succ fuel ih =>
    intro context buffer packed hlen hval hp
    unfold encodeLoop
    by_cases hmore : ops.hasMoreCharacters context = true
    · rw [if_pos hmore]
      obtain ⟨hacc, hstore, -⟩ := AppendEncodedChar_spec (ops.getCurrentChar context) buffer
      by_cases happ : (AppendEncodedChar (ops.getCurrentChar context) buffer).1 = true
      · have hbuf := hstore happ
        simp only [happ, Bool.not_true, Bool.false_eq_true, if_false, hbuf]
        have hlen' : (buffer ++ [ops.getCurrentChar context % 64]).length =
            buffer.length + 1 := by simp
        have hval' : ∀ c ∈ buffer ++ [ops.getCurrentChar context % 64], c ≤ 63 := by
          intro c hc
          rw [List.mem_append, List.mem_singleton] at hc
          rcases hc with hc | rfl
          · exact hval c hc
          · omega
        by_cases hfour : (buffer ++ [ops.getCurrentChar context % 64]).length ≥ 4
        · rw [if_pos hfour]
          have hlen4 : (buffer ++ [ops.getCurrentChar context % 64]).length = 4 := by omega
          have hp' : ∀ sb ∈ packed ++ [buffer ++ [ops.getCurrentChar context % 64]],
              sb.length = 4 ∧ ∀ c ∈ sb, c ≤ 63 := by
            intro sb hsb
            rw [List.mem_append, List.mem_singleton] at hsb
            rcases hsb with hsb | rfl
            · exact hp sb hsb
            · exact ⟨hlen4, hval'⟩
          have hv := edifactValue_lt _ hval'
          have henc : EncodeToEdifactCodewords (buffer ++ [ops.getCurrentChar context % 64]) =
              some ([edifactValue (buffer ++ [ops.getCurrentChar context % 64]) / 2 ^ 16 % 256,
                edifactValue (buffer ++ [ops.getCurrentChar context % 64]) / 2 ^ 8 % 256,
                edifactValue (buffer ++ [ops.getCurrentChar context % 64]) % 256]) := by
            unfold EncodeToEdifactCodewords
            simp only [hlen4]
            rw [if_neg (by decide), if_pos (by omega)]
            rfl
          rw [henc]
          simp only [List.isEmpty_cons, Bool.false_eq_true, if_false]
          have hdrop : (buffer ++ [ops.getCurrentChar context % 64]).drop 4 = [] := by
            apply List.drop_eq_nil_of_le; omega
          rw [hdrop]
          by_cases hla : ops.lookAheadLeavesEdifact
              (ops.writeCodewords (ops.advance context)
                [edifactValue (buffer ++ [ops.getCurrentChar context % 64]) / 2 ^ 16 % 256,
                  edifactValue (buffer ++ [ops.getCurrentChar context % 64]) / 2 ^ 8 % 256,
                  edifactValue (buffer ++ [ops.getCurrentChar context % 64]) % 256]) = true
          · rw [if_pos hla]
            refine ⟨hp', fun p h => (by cases h), fun ctx buf p h => ?_⟩
            injection h with _ hb _
            subst hb
            simp
          · rw [if_neg hla]
            exact ih _ [] _ (by simp) (by simp) hp'
        · rw [if_neg hfour]
          exact ih _ _ _ (by omega) hval' hp
      · have hf : (AppendEncodedChar (ops.getCurrentChar context) buffer).1 = false := by
          simpa using happ
        simp only [hf, Bool.not_false, if_true]
        exact ⟨hp, fun p h => (by cases h), fun ctx buf p h => (by cases h)⟩
    · rw [if_neg hmore]
      refine ⟨hp, fun p h => (by cases h), fun ctx buf p h => ?_⟩
      injection h with _ hb _
      subst hb
      refine ⟨by simp, by simp; omega, ?_⟩
      intro c hc
      rw [List.mem_append, List.mem_singleton] at hc
      rcases hc with hc | rfl
      · exact hval c hc
      · omega

/-- The buffer handed to `HandleEOD` ends with the unlatch value 31. -/
theorem encodeLoop_getLast {σ : Type} (ops : EdifactContextOps σ) (fuel : Nat) :
    ∀ (context : σ) (buffer : List Nat) (packed : List (List Nat)) (ctx : σ)
      (buf : List Nat) (p : List (List Nat)),
      encodeLoop ops fuel context buffer packed = EncodeOutcome.callsHandleEOD ctx buf p →
        buf.getLast? = some 31 := by
  induction fuel with
  | zero => intro context buffer packed ctx buf p h; simp [encodeLoop] at h
  | succ fuel ih =>
    intro context buffer packed ctx buf p h
    unfold encodeLoop at h
    by_cases h1 : ops.hasMoreCharacters context = true
    · rw [if_pos h1] at h
      dsimp only at h
      split_ifs at h with h2 h3
      · split at h
        · cases h
        · split_ifs at h with h4 h5
          · injection h with _ hb _
            subst hb
            simp
          · exact ih _ _ _ _ _ _ h
      · exact ih _ _ _ _ _ _ h
    · rw [if_neg h1] at h
      injection h with _ hb _
      subst hb
      simp

/-- C25. In `CBC_EdifactEncoder::Encode`, whenever `HandleEOD` is reached the buffer
holds between 1 and 4 characters, each with a value in 0..63, so neither the
`count == 0` return nor the `count > 4` failure of `HandleEOD` is taken; the value
packed from it, and from every buffer packed inside the loop (always four characters in
0..63), is below `2^24`, and the packing never leaves the range of `int32_t`.
`AppendEncodedChar` accepts exactly the characters 0x20..0x5E and stores `c mod 64`;
the unlatch value appended at the end is 31. -/
theorem encode_buffer_at_HandleEOD {σ : Type} (ops : EdifactContextOps σ) (fuel : Nat)
    (context ctx : σ) (buffer : List Nat) (packed : List (List Nat))
    (h : CBC_EdifactEncoder.Encode ops fuel context =
      EncodeOutcome.callsHandleEOD ctx buffer packed) :
    (1 ≤ buffer.length ∧ buffer.length ≤ 4 ∧ ∀ c ∈ buffer, c ≤ 63) ∧
      HandleEODGuard buffer = none ∧
      buffer.getLast? = some 31 ∧
      edifactValue buffer < 2 ^ 24 ∧
      (∀ sb ∈ packed, sb.length = 4 ∧ (∀ c ∈ sb, c ≤ 63) ∧ edifactValue sb < 2 ^ 24) ∧
      (∀ (n : Nat) (start : σ) (p : List (List Nat)),
        CBC_EdifactEncoder.Encode ops n start ≠ EncodeOutcome.undefinedPacking p) ∧
      (∀ (c : Nat) (sb : List Nat),
        ((AppendEncodedChar c sb).1 = true ↔ 0x20 ≤ c ∧ c ≤ 0x5e) ∧
          ((AppendEncodedChar c sb).1 = true →
            (AppendEncodedChar c sb).2 = sb ++ [c % 64])) := by
  have hinv := encodeLoop_invariant ops fuel context [] [] (by simp) (by simp) (by simp)
  unfold CBC_EdifactEncoder.Encode at h
  have hbuf := hinv.2.2 ctx buffer packed h
  have hpacked := hinv.1
  rw [h] at hpacked
  simp only [EncodeOutcome.packed] at hpacked
  refine ⟨hbuf, ?_, ?_, edifactValue_lt buffer hbuf.2.2, ?_, ?_, ?_⟩
  · unfold HandleEODGuard
    simp only
    rw [if_neg (by omega), if_neg (by omega)]
  · exact encodeLoop_getLast ops fuel context [] [] ctx buffer packed h
  · intro sb hsb
    exact ⟨(hpacked sb hsb).1, (hpacked sb hsb).2, edifactValue_lt sb (hpacked sb hsb).2⟩
  · intro n start p
    exact (encodeLoop_invariant ops n start [] [] (by simp) (by simp) (by simp)).2.1 p
  · intro c sb
    exact ⟨(AppendEncodedChar_spec c sb).1, (AppendEncodedChar_spec c sb).2.1⟩

/-- The run of `Encode` on the message "ABCDE": the four values 1, 2, 3, 4 are packed
into the codewords 4, 32, 196, and `HandleEOD` gets the buffer 5, 31. -/
theorem sample_Encode :
    CBC_EdifactEncoder.Encode listEdifactContext 6 ([65, 66, 67, 68, 69], []) =
      EncodeOutcome.callsHandleEOD ([], [4, 32, 196]) [5, 31] [[1, 2, 3, 4]] := by
  rfl

/-- Witness of C25: the message "ABCDE". -/
theorem encode_buffer_at_HandleEOD_witness :
    (1 ≤ [5, 31].length ∧ [5, 31].length ≤ 4 ∧ ∀ c ∈ [5, 31], c ≤ 63) ∧
      HandleEODGuard [5, 31] = none ∧
      [5, 31].getLast? = some 31 ∧
      edifactValue [5, 31] < 2 ^ 24 ∧
      (∀ sb ∈ [[1, 2, 3, 4]],
        sb.length = 4 ∧ (∀ c ∈ sb, c ≤ 63) ∧ edifactValue sb < 2 ^ 24) :=
  have h := encode_buffer_at_HandleEOD listEdifactContext 6 ([65, 66, 67, 68, 69], [])
    ([], [4, 32, 196]) [5, 31] [[1, 2, 3, 4]] sample_Encode
  ⟨h.1, h.2.1, h.2.2.1, h.2.2.2.1, h.2.2.2.2.1⟩

/-! ## The codewords of `EncodeToEdifactCodewords` -/

/-- The packed value in terms of the first four characters, absent ones counting 0. -/
theorem edifactValue_eq (sb : List Nat) :
    edifactValue sb =
      sb.getD 0 0 * 2 ^ 18 + sb.getD 1 0 * 2 ^ 12 + sb.getD 2 0 * 2 ^ 6 + sb.getD 3 0 := by
  unfold edifactValue
  rcases sb with _ | ⟨a, _ | ⟨b, _ | ⟨c, _ | ⟨d, l⟩⟩⟩⟩ <;> simp

/-- The codewords of a buffer of four 6-bit values, and the values recovered from
them. -/
theorem EncodeToEdifactCodewords_four (a b c d : Nat) (ha : a ≤ 63) (hb : b ≤ 63)
    (hc : c ≤ 63) (hd : d ≤ 63) :
    ∃ x y z, EncodeToEdifactCodewords [a, b, c, d] = some [x, y, z] ∧
      a = x / 4 ∧ b = x % 4 * 16 + y / 16 ∧ c = y % 16 * 4 + z / 64 ∧ d = z % 64 := by
  have hv : edifactValue [a, b, c, d] = a * 2 ^ 18 + b * 2 ^ 12 + c * 2 ^ 6 + d := by
    rw [edifactValue_eq]; rfl
  refine ⟨edifactValue [a, b, c, d] / 2 ^ 16 % 256, edifactValue [a, b, c, d] / 2 ^ 8 % 256,
    edifactValue [a, b, c, d] % 256, ?_, ?_, ?_, ?_, ?_⟩
  · unfold EncodeToEdifactCodewords
    simp only [List.length_cons, List.length_nil]
    rw [if_neg (by decide), if_pos (by rw [hv]; omega)]
    rfl
  all_goals rw [hv]; omega

/-- C26. For every buffer of `n` characters with values in 0..63,
`EncodeToEdifactCodewords` returns the empty string if and only if `n = 0`, and
otherwise exactly `min(n, 3)` codewords, each in 0..255: the leading bytes of the
big-endian 24-bit value `v = c1*2^18 + c2*2^12 + c3*2^6 + c4`, absent characters
counting as 0. For `n = 4` the four values are recovered from the three codewords, so
the packing is injective. -/
theorem EncodeToEdifactCodewords_spec (sb : List Nat) (h : ∀ c ∈ sb, c ≤ 63) :
    ∃ cw v, EncodeToEdifactCodewords sb = some cw ∧
      v = sb.getD 0 0 * 2 ^ 18 + sb.getD 1 0 * 2 ^ 12 + sb.getD 2 0 * 2 ^ 6 + sb.getD 3 0 ∧
      v < 2 ^ 24 ∧
      v = v / 2 ^ 16 % 256 * 2 ^ 16 + v / 2 ^ 8 % 256 * 2 ^ 8 + v % 256 ∧
      cw = [v / 2 ^ 16 % 256, v / 2 ^ 8 % 256, v % 256].take (min sb.length 3) ∧
      (cw = [] ↔ sb.length = 0) ∧
      cw.length = min sb.length 3 ∧
      (∀ b ∈ cw, b ≤ 255) ∧
      (sb.length = 4 →
        sb = [cw.getD 0 0 / 4, cw.getD 0 0 % 4 * 16 + cw.getD 1 0 / 16,
          cw.getD 1 0 % 16 * 4 + cw.getD 2 0 / 64, cw.getD 2 0 % 64]) ∧
      (∀ other : List Nat, sb.length = 4 → other.length = 4 → (∀ c ∈ other, c ≤ 63) →
        EncodeToEdifactCodewords other = EncodeToEdifactCodewords sb → other = sb) := by
  have hlt := edifactValue_lt sb h
  have hveq := edifactValue_eq sb
  have henc : EncodeToEdifactCodewords sb =
      some ([edifactValue sb / 2 ^ 16 % 256, edifactValue sb / 2 ^ 8 % 256,
        edifactValue sb % 256].take (min sb.length 3)) := by
    unfold EncodeToEdifactCodewords
    simp only
    by_cases h0 : sb.length = 0
    · rw [if_pos h0, h0]; rfl
    · rw [if_neg h0, if_pos (by omega)]
  have hrec : sb.length = 4 →
      sb = [([edifactValue sb / 2 ^ 16 % 256, edifactValue sb / 2 ^ 8 % 256,
          edifactValue sb % 256].take (min sb.length 3)).getD 0 0 / 4,
        ([edifactValue sb / 2 ^ 16 % 256, edifactValue sb / 2 ^ 8 % 256,
          edifactValue sb % 256].take (min sb.length 3)).getD 0 0 % 4 * 16 +
          ([edifactValue sb / 2 ^ 16 % 256, edifactValue sb / 2 ^ 8 % 256,
            edifactValue sb % 256].take (min sb.length 3)).getD 1 0 / 16,
        ([edifactValue sb / 2 ^ 16 % 256, edifactValue sb / 2 ^ 8 % 256,
          edifactValue sb % 256].take (min sb.length 3)).getD 1 0 % 16 * 4 +
          ([edifactValue sb / 2 ^ 16 % 256, edifactValue sb / 2 ^ 8 % 256,
            edifactValue sb % 256].take (min sb.length 3)).getD 2 0 / 64,
        ([edifactValue sb / 2 ^ 16 % 256, edifactValue sb / 2 ^ 8 % 256,
          edifactValue sb % 256].take (min sb.length 3)).getD 2 0 % 64] := by
    intro h4
    rcases sb with _ | ⟨a, _ | ⟨b, _ | ⟨c, _ | ⟨d, _ | ⟨e, l⟩⟩⟩⟩⟩ <;>
      simp only [List.length_cons, List.length_nil] at h4 <;> try omega
    have ha := h a (by simp)
    have hb := h b (by simp)
    have hc := h c (by simp)
    have hd := h d (by simp)
    have hv : edifactValue [a, b, c, d] = a * 2 ^ 18 + b * 2 ^ 12 + c * 2 ^ 6 + d := by
      rw [edifactValue_eq]; rfl
    simp only [List.length_cons, List.length_nil, hv]
    have e0 : a = (a * 2 ^ 18 + b * 2 ^ 12 + c * 2 ^ 6 + d) / 2 ^ 16 % 256 / 4 := by omega
    have e1 : b = (a * 2 ^ 18 + b * 2 ^ 12 + c * 2 ^ 6 + d) / 2 ^ 16 % 256 % 4 * 16 +
        (a * 2 ^ 18 + b * 2 ^ 12 + c * 2 ^ 6 + d) / 2 ^ 8 % 256 / 16 := by omega
    have e2 : c = (a * 2 ^ 18 + b * 2 ^ 12 + c * 2 ^ 6 + d) / 2 ^ 8 % 256 % 16 * 4 +
        (a * 2 ^ 18 + b * 2 ^ 12 + c * 2 ^ 6 + d) % 256 / 64 := by omega
    have e3 : d = (a * 2 ^ 18 + b * 2 ^ 12 + c * 2 ^ 6 + d) % 256 % 64 := by omega
    simp only [List.cons.injEq, and_true]
    exact ⟨e0, e1, e2, e3⟩
  refine ⟨_, edifactValue sb, henc, hveq, hlt, by omega, rfl, ?_, ?_, ?_, hrec, ?_⟩
  · rcases sb with _ | ⟨a, _ | ⟨b, _ | ⟨c, l⟩⟩⟩ <;> simp
  · simp
  · intro b hb
    have hb' := List.mem_of_mem_take hb
    simp only [List.mem_cons, List.mem_singleton, List.not_mem_nil, or_false] at hb'
    rcases hb' with rfl | rfl | rfl <;> omega
  · intro other h4 ho hval heq
    rcases sb with _ | ⟨a, _ | ⟨b, _ | ⟨c, _ | ⟨d, _ | ⟨e, l⟩⟩⟩⟩⟩ <;>
      simp only [List.length_cons, List.length_nil] at h4 <;> try omega
    rcases other with _ | ⟨p, _ | ⟨q, _ | ⟨r, _ | ⟨s, _ | ⟨t, m⟩⟩⟩⟩⟩ <;>
      simp only [List.length_cons, List.length_nil] at ho <;> try omega
    obtain ⟨x, y, z, e1, r1, r2, r3, r4⟩ := EncodeToEdifactCodewords_four a b c d
      (h a (by simp)) (h b (by simp)) (h c (by simp)) (h d (by simp))
    obtain ⟨x', y', z', e2, s1, s2, s3, s4⟩ := EncodeToEdifactCodewords_four p q r s
      (hval p (by simp)) (hval q (by simp)) (hval r (by simp)) (hval s (by simp))
    rw [e1, e2] at heq
    simp only [Option.some.injEq, List.cons.injEq, and_true] at heq
    obtain ⟨rfl, rfl, rfl⟩ := heq
    rw [r1, r2, r3, r4, s1, s2, s3, s4]

/-- Witness of C26: the buffer 1, 2, 3, 4 gives the codewords 4, 32, 196. -/
theorem EncodeToEdifactCodewords_spec_witness :
    ∃ cw v, EncodeToEdifactCodewords [1, 2, 3, 4] = some cw ∧
      v = [1, 2, 3, 4].getD 0 0 * 2 ^ 18 + [1, 2, 3, 4].getD 1 0 * 2 ^ 12 +
        [1, 2, 3, 4].getD 2 0 * 2 ^ 6 + [1, 2, 3, 4].getD 3 0 ∧
      v < 2 ^ 24 ∧
      v = v / 2 ^ 16 % 256 * 2 ^ 16 + v / 2 ^ 8 % 256 * 2 ^ 8 + v % 256 ∧
      cw = [v / 2 ^ 16 % 256, v / 2 ^ 8 % 256, v % 256].take (min [1, 2, 3, 4].length 3) ∧
      (cw = [] ↔ [1, 2, 3, 4].length = 0) ∧
      cw.length = min [1, 2, 3, 4].length 3 ∧
      (∀ b ∈ cw, b ≤ 255) ∧
      ([1, 2, 3, 4].length = 4 →
        [1, 2, 3, 4] = [cw.getD 0 0 / 4, cw.getD 0 0 % 4 * 16 + cw.getD 1 0 / 16,
          cw.getD 1 0 % 16 * 4 + cw.getD 2 0 / 64, cw.getD 2 0 % 64]) ∧
      (∀ other : List Nat, [1, 2, 3, 4].length = 4 → other.length = 4 →
        (∀ c ∈ other, c ≤ 63) →
        EncodeToEdifactCodewords other = EncodeToEdifactCodewords [1, 2, 3, 4] →
        other = [1, 2, 3, 4]) :=
  EncodeToEdifactCodewords_spec [1, 2, 3, 4] (by decide)

/-- The codewords of short and long buffers: one codeword for one character, two for
two, three from three on. -/
theorem EncodeToEdifactCodewords_samples :
    EncodeToEdifactCodewords [] = some [] ∧
      EncodeToEdifactCodewords [31] = some [124] ∧
      EncodeToEdifactCodewords [5, 31] = some [21, 240] ∧
      EncodeToEdifactCodewords [1, 2, 3] = some [4, 32, 192] ∧
      EncodeToEdifactCodewords [1, 2, 3, 4] = some [4, 32, 196] ∧
      EncodeToEdifactCodewords [1, 2, 3, 4, 63] = some [4, 32, 196] := by
  decide

/-! ## `CBC_EANCode::Preprocess` -/

/-- ASCII strings are their own UTF-8 encoding. -/
theorem FX_UTF8Encode_ascii (w : List Nat) (h : ∀ c ∈ w, c < 0x80) : FX_UTF8Encode w = w := by
  induction w with
  | nil => rfl
  | cons c w ih =>
    have hc : c < 0x80 := h c (List.mem_cons_self c w)
    have e : encodeCodePoint c = [c] := by
      unfold encodeCodePoint kMaximumSupplementaryCodePoint
      rw [if_neg (by omega), if_pos hc]
    unfold FX_UTF8Encode at ih ⊢
    rw [List.flatMap_cons, e, ih (fun x hx => h x (List.mem_cons_of_mem c hx))]
    rfl

/-- The padding loop puts `n` characters '0' in front. -/
theorem insertZerosLoop_eq (n : Nat) :
    ∀ s : List Nat, insertZerosLoop n s = List.replicate n 0x30 ++ s := by
  induction n with
  | zero => intro s; rfl
  | succ n ih =>
    intro s
    unfold insertZerosLoop WideString.InsertAtFront
    rw [ih, List.replicate_succ']
    simp

/-- C27. `CBC_EANCode::Preprocess` returns a string of exactly `GetMaxLength() + 1`
characters, provided `FilterContents` yields ASCII digits and `CalcChecksum` a value in
0..9: if the filtered length `L` is at most `max`, it is `max - L` characters '0', then
the filtered contents, then the checksum digit of the padded contents; otherwise it is
the first `max + 1` characters of the filtered contents, and `CalcChecksum` is not
used. -/
theorem Preprocess_spec (pWriter : EANWriterOps) (max_length : Nat) (contents : List Nat)
    (hdigits : ∀ c ∈ pWriter.FilterContents contents, 0x30 ≤ c ∧ c ≤ 0x39)
    (hsum : ∀ str, 0 ≤ pWriter.CalcChecksum str ∧ pWriter.CalcChecksum str ≤ 9) :
    (CBC_EANCode.Preprocess pWriter max_length contents).length = max_length + 1 ∧
      ((pWriter.FilterContents contents).length ≤ max_length →
        CBC_EANCode.Preprocess pWriter max_length contents =
          List.replicate (max_length - (pWriter.FilterContents contents).length) 0x30 ++
            pWriter.FilterContents contents ++
            [0x30 + (pWriter.CalcChecksum
              (List.replicate (max_length - (pWriter.FilterContents contents).length) 0x30 ++
                pWriter.FilterContents contents)).toNat]) ∧
      (max_length < (pWriter.FilterContents contents).length →
        CBC_EANCode.Preprocess pWriter max_length contents =
          (pWriter.FilterContents contents).take (max_length + 1) ∧
        ∀ other : EANWriterOps, other.FilterContents = pWriter.FilterContents →
          CBC_EANCode.Preprocess other max_length contents =
            CBC_EANCode.Preprocess pWriter max_length contents) := by
  have hshort : (pWriter.FilterContents contents).length ≤ max_length →
      CBC_EANCode.Preprocess pWriter max_length contents =
        List.replicate (max_length - (pWriter.FilterContents contents).length) 0x30 ++
          pWriter.FilterContents contents ++
          [0x30 + (pWriter.CalcChecksum
            (List.replicate (max_length - (pWriter.FilterContents contents).length) 0x30 ++
              pWriter.FilterContents contents)).toNat] := by
    intro hle
    have hpad : ∀ c ∈ List.replicate (max_length - (pWriter.FilterContents contents).length)
        0x30 ++ pWriter.FilterContents contents, c < 0x80 := by
      intro c hc
      rw [List.mem_append] at hc
      rcases hc with hc | hc
      · rw [List.eq_of_mem_replicate hc]; decide
      · have := hdigits c hc; omega
    obtain ⟨hs0, hs9⟩ := hsum (List.replicate
      (max_length - (pWriter.FilterContents contents).length) 0x30 ++
        pWriter.FilterContents contents)
    have hbyte : ((0x30 + pWriter.CalcChecksum (List.replicate
        (max_length - (pWriter.FilterContents contents).length) 0x30 ++
          pWriter.FilterContents contents)) % 256).toNat =
        0x30 + (pWriter.CalcChecksum (List.replicate
          (max_length - (pWriter.FilterContents contents).length) 0x30 ++
            pWriter.FilterContents contents)).toNat := by
      omega
    unfold CBC_EANCode.Preprocess
    simp only
    rw [if_pos hle, insertZerosLoop_eq, FX_UTF8Encode_ascii _ hpad, hbyte]
    have hall : ∀ c ∈ List.replicate (max_length - (pWriter.FilterContents contents).length)
        0x30 ++ pWriter.FilterContents contents ++
        [0x30 + (pWriter.CalcChecksum (List.replicate
          (max_length - (pWriter.FilterContents contents).length) 0x30 ++
            pWriter.FilterContents contents)).toNat], c < 0x80 := by
      intro c hc
      rw [List.mem_append, List.mem_singleton] at hc
      rcases hc with hc | rfl
      · exact hpad c hc
      · omega
    have henc := FX_UTF8Encode_ascii _ hall
    have hdec := FromUTF8_FX_UTF8Encode _
      (fun c hc => by have := hall c hc; unfold kMaximumSupplementaryCodePoint; omega)
    rw [henc] at hdec
    exact hdec
  have hlong : max_length < (pWriter.FilterContents contents).length →
      ∀ other : EANWriterOps, other.FilterContents = pWriter.FilterContents →
        CBC_EANCode.Preprocess other max_length contents =
          (pWriter.FilterContents contents).take (max_length + 1) := by
    intro hlt other hother
    unfold CBC_EANCode.Preprocess WideString.First
    simp only [hother]
    rw [if_neg (by omega), if_pos (by omega)]
  refine ⟨?_, hshort, fun hlt => ⟨hlong hlt pWriter rfl, fun other ho => ?_⟩⟩
  · by_cases hle : (pWriter.FilterContents contents).length ≤ max_length
    · rw [hshort hle]
      simp only [List.length_append, List.length_replicate, List.length_singleton]
      omega
    · rw [hlong (by omega) pWriter rfl, List.length_take]
      omega
  · rw [hlong hlt other ho, hlong hlt pWriter rfl]

/-- The sample writer yields ASCII digits and a checksum in 0..9. -/
theorem sampleEANWriter_ok (contents : List Nat) :
    (∀ c ∈ sampleEANWriter.FilterContents contents, 0x30 ≤ c ∧ c ≤ 0x39) ∧
      (∀ str, 0 ≤ sampleEANWriter.CalcChecksum str ∧ sampleEANWriter.CalcChecksum str ≤ 9) := by
  constructor
  · intro c hc
    simp only [sampleEANWriter, List.mem_filter, decide_eq_true_eq] at hc
    exact hc.2
  · intro str
    simp only [sampleEANWriter]
    omega

/-- Witness of C27: the contents "12345" for `GetMaxLength() = 7` give 8 characters. -/
theorem Preprocess_spec_witness :
    (CBC_EANCode.Preprocess sampleEANWriter 7 [0x31, 0x32, 0x33, 0x34, 0x35]).length = 7 + 1 :=
  (Preprocess_spec sampleEANWriter 7 [0x31, 0x32, 0x33, 0x34, 0x35]
    (sampleEANWriter_ok _).1 (sampleEANWriter_ok []).2).1

/-- The two branches of `Preprocess` on samples: "12345" becomes "00123455" (two zeros
in front, checksum digit 5 behind), and "123456789" is cut to "12345678". -/
theorem Preprocess_samples :
    CBC_EANCode.Preprocess sampleEANWriter 7 [0x31, 0x32, 0x33, 0x34, 0x35] =
        [0x30, 0x30, 0x31, 0x32, 0x33, 0x34, 0x35, 0x35] ∧
      CBC_EANCode.Preprocess sampleEANWriter 7
          [0x31, 0x32, 0x33, 0x34, 0x35, 0x36, 0x37, 0x38, 0x39] =
        [0x31, 0x32, 0x33, 0x34, 0x35, 0x36, 0x37, 0x38] := by
  decide

/-! ## `CJX_EventPseudoModel::Property` -/

/-- In get mode the three property functions leave the field as it is. -/
theorem property_get_keeps {υ : Type} (ops : ScriptValueOps υ) (pReturn : υ) :
    (∀ s, (StringProperty ops pReturn s false).2 = s) ∧
      (∀ i, (IntegerProperty ops pReturn i false).2 = i) ∧
      (∀ b, (BooleanProperty ops pReturn b false).2 = b) :=
  ⟨fun _ => rfl, fun _ => rfl, fun _ => rfl⟩

/-- A call of `Property` on an event parameter with a valid selection that returns
leaves an event parameter with a valid selection. -/
theorem Property_selectionValid {υ : Type} (ops : ScriptValueOps υ) (e : CXFA_EventParam)
    (pValue : υ) (dwFlag : XFA_Event) (bSetting : Bool) (hinv : e.selectionValid)
    (result : Option CXFA_EventParam × υ)
    (h : CJX_EventPseudoModel.Property ops (some e) pValue dwFlag bSetting = some result) :
    ∃ after, result.1 = some after ∧ after.selectionValid ∧
      after.prev_text_ = e.prev_text_ := by
  obtain ⟨h0, h1, h2⟩ := hinv
  cases bSetting <;> cases dwFlag <;>
    simp only [CJX_EventPseudoModel.Property, ne_eq, reduceCtorEq, not_false_eq_true,
      not_true_eq_false, and_true, and_false, and_self, if_true, if_false,
      Bool.false_eq_true, false_and, Option.some.injEq] at h
  all_goals first
    | (subst h; exact ⟨_, rfl, ⟨h0, h1, h2⟩, rfl⟩)
    | (unfold checkedCastInt32 at h
       by_cases hlen : e.prev_text_.length < 2 ^ 31
       · rw [if_pos hlen] at h
         simp only [Option.map_some', Option.some.injEq] at h
         subst h
         refine ⟨_, rfl, ?_, rfl⟩
         simp only [CXFA_EventParam.selectionValid, IntegerProperty, if_true, if_false,
           Bool.false_eq_true]
         omega
       · rw [if_neg hlen] at h
         simp at h)

/-- C28. `CJX_EventPseudoModel::Property` preserves the selection invariant
`0 <= sel_start <= sel_end <= length(prev_text)`: for every event parameter satisfying
it, every property flag and both get and set mode, the event parameter after the call
satisfies it again (the call does not return for `NewText` in get mode, where it runs
into `NOTREACHED()`, nor for `selStart` and `selEnd` on a text too long for
`checked_cast<int32_t>`). A set of `selEnd` clamps `sel_end` into `[0, length]` and
lowers `sel_start` to it, a set of `selStart` clamps `sel_start` into `[0, length]` and
raises `sel_end` to it, and a set of any property other than `cancelAction`,
`selStart`, `selEnd` and `change` changes nothing. -/
theorem Property_preserves_selection {υ : Type} (ops : ScriptValueOps υ)
    (e : CXFA_EventParam) (pValue : υ) (dwFlag : XFA_Event) (bSetting : Bool)
    (hinv : e.selectionValid) :
    (∀ result, CJX_EventPseudoModel.Property ops (some e) pValue dwFlag bSetting =
        some result → ∃ after, result.1 = some after ∧ after.selectionValid) ∧
      (CJX_EventPseudoModel.Property ops (some e) pValue dwFlag bSetting = none ↔
        (dwFlag = XFA_Event.NewText ∧ bSetting = false) ∨
          ((dwFlag = XFA_Event.SelectionEnd ∨ dwFlag = XFA_Event.SelectionStart) ∧
            2 ^ 31 ≤ e.prev_text_.length)) ∧
      (e.prev_text_.length < 2 ^ 31 →
        CJX_EventPseudoModel.Property ops (some e) pValue XFA_Event.SelectionEnd true =
          some (some { e with
            sel_end_ := min (max 0 (ops.ReentrantToInt32Helper pValue)) e.prev_text_.length
            sel_start_ := min e.sel_start_
              (min (max 0 (ops.ReentrantToInt32Helper pValue)) e.prev_text_.length) },
            pValue) ∧
        0 ≤ min (max 0 (ops.ReentrantToInt32Helper pValue)) (e.prev_text_.length : Int) ∧
        min (max 0 (ops.ReentrantToInt32Helper pValue)) (e.prev_text_.length : Int) ≤
          e.prev_text_.length) ∧
      (e.prev_text_.length < 2 ^ 31 →
        CJX_EventPseudoModel.Property ops (some e) pValue XFA_Event.SelectionStart true =
          some (some { e with
            sel_start_ := min (max 0 (ops.ReentrantToInt32Helper pValue)) e.prev_text_.length
            sel_end_ := max
              (min (max 0 (ops.ReentrantToInt32Helper pValue)) e.prev_text_.length)
              e.sel_end_ },
            pValue) ∧
        0 ≤ min (max 0 (ops.ReentrantToInt32Helper pValue)) (e.prev_text_.length : Int) ∧
        min (max 0 (ops.ReentrantToInt32Helper pValue)) (e.prev_text_.length : Int) ≤
          e.prev_text_.length) ∧
      (∀ flag : XFA_Event, flag ≠ XFA_Event.CancelAction → flag ≠ XFA_Event.SelectionStart →
        flag ≠ XFA_Event.SelectionEnd → flag ≠ XFA_Event.Change →
        CJX_EventPseudoModel.Property ops (some e) pValue flag true = some (some e, pValue)) := by
  refine ⟨?_, ?_, ?_, ?_, ?_⟩
  · intro result h
    obtain ⟨after, h1, h2, -⟩ :=
      Property_selectionValid ops e pValue dwFlag bSetting hinv result h
    exact ⟨after, h1, h2⟩
  · by_cases hlen : e.prev_text_.length < 2 ^ 31
    · have hn : ¬ 2 ^ 31 ≤ e.prev_text_.length := by omega
      cases bSetting <;> cases dwFlag <;>
        simp [CJX_EventPseudoModel.Property, checkedCastInt32, hlen, hn]
    · have hn : 2 ^ 31 ≤ e.prev_text_.length := by omega
      cases bSetting <;> cases dwFlag <;>
        simp [CJX_EventPseudoModel.Property, checkedCastInt32, hlen, hn]
  · intro hlen
    have hlen' : e.prev_text_.length < 2147483648 := by omega
    refine ⟨?_, by omega, by omega⟩
    simp [CJX_EventPseudoModel.Property, checkedCastInt32, hlen', IntegerProperty]
  · intro hlen
    have hlen' : e.prev_text_.length < 2147483648 := by omega
    refine ⟨?_, by omega, by omega⟩
    simp [CJX_EventPseudoModel.Property, checkedCastInt32, hlen', IntegerProperty]
  · intro flag f1 f2 f3 f4
    unfold CJX_EventPseudoModel.Property
    rw [if_pos ⟨rfl, f1, f2, f3, f4⟩]

/-- The sample event parameter has a valid selection. -/
theorem sampleEventParam_valid : sampleEventParam.selectionValid := by
  unfold CXFA_EventParam.selectionValid sampleEventParam
  decide

/-- Witness of C28: a set of `selEnd` to 9 on the text "abcde" with the selection from 1
to 3 gives the selection from 1 to 5. -/
theorem Property_preserves_selection_witness :
    ∃ after,
      (some ({ sampleEventParam with sel_end_ := 5, sel_start_ := 1 } : CXFA_EventParam),
        (9 : Int)).1 = some after ∧ after.selectionValid :=
  (Property_preserves_selection intScriptValues sampleEventParam 9 XFA_Event.SelectionEnd
    true sampleEventParam_valid).1 _ (by decide)

/-- Sets of `selEnd` and `selStart` on the sample: `selEnd = -2` collapses the selection
to 0..0, `selStart = 4` moves it to 4..4, and a get of `newText` does not return. -/
theorem Property_samples :
    CJX_EventPseudoModel.Property intScriptValues (some sampleEventParam) (-2)
        XFA_Event.SelectionEnd true =
      some (some { sampleEventParam with sel_end_ := 0, sel_start_ := 0 }, -2) ∧
    CJX_EventPseudoModel.Property intScriptValues (some sampleEventParam) 4
        XFA_Event.SelectionStart true =
      some (some { sampleEventParam with sel_start_ := 4, sel_end_ := 4 }, 4) ∧
    CJX_EventPseudoModel.Property intScriptValues (some sampleEventParam) 0
        XFA_Event.NewText false = none ∧
    CJX_EventPseudoModel.Property intScriptValues (some sampleEventParam) 7
        XFA_Event.PreviousText true = some (some sampleEventParam, 7) := by
  decide

end RenderShading
